import Mathlib

/-!
# Usof backend: posts, comments and likes services over a relational store

A shallow embedding of the domain services of the forum backend
(`src/services/*.js`) and of the repositories they call
(`src/repositories/*.js`).  Tables are lists of rows, a query is a function
of the database value, a statement returns the new database value, and a
service operation that opens a transaction returns its result together with
the database it leaves behind (the value before the call when it rolled
back).
-/

set_option autoImplicit false

namespace Usof

/-! ## Data model -/

/-- Column `users.role`. -/
inductive Role where
  | user
  | admin
  deriving DecidableEq, Repr

/-- Column `status` of posts and comments. -/
inductive Status where
  | active
  | inactive
  deriving DecidableEq, Repr

/-- Column `likes.type`. -/
inductive LikeType where
  | like
  | dislike
  deriving DecidableEq, Repr

/-- The value `req.user` built by the auth middleware: `{ id, role }`. -/
structure Actor where
  id : Nat
  role : Role
  deriving DecidableEq, Repr

/-- Row of `users`. -/
structure User where
  id : Nat
  login : String
  email : String
  password_hash : String
  full_name : String
  role : Role
  deriving DecidableEq, Repr

/-- Row of `categories`. -/
structure Category where
  id : Nat
  title : String
  description : String
  deriving DecidableEq, Repr

/-- Row of `posts`. -/
structure Post where
  id : Nat
  author_id : Nat
  title : String
  publish_date : Nat
  status : Status
  locked : Bool
  content : String
  image : Option String
  deriving DecidableEq, Repr

/-- Row of `comments`. -/
structure Comment where
  id : Nat
  post_id : Nat
  author_id : Nat
  publish_date : Nat
  content : String
  status : Status
  locked : Bool
  deriving DecidableEq, Repr

/-- Row of `likes`; `post_id` and `comment_id` are nullable columns. -/
structure Like where
  id : Nat
  author_id : Nat
  post_id : Option Nat
  comment_id : Option Nat
  type : LikeType
  publish_date : Nat
  deriving DecidableEq, Repr

/-- Row of `user_ratings`. -/
structure UserRating where
  user_id : Nat
  rating : Int
  updated_at : Nat
  deriving DecidableEq, Repr

/-- The database: one list of rows per table, in insertion order, the
reading of the engine clock that `NOW()` and the timestamp defaults use, and
the folding of the text columns.  The character set and the collation of the
columns are declared by the schema, which is not among the sources, so the
folding is a value of the database: each pair is a character and the
character it is compared as once `LOWER` and the collation are applied; a
character without a pair is compared as itself. -/
structure DB where
  users : List User
  categories : List Category
  posts : List Post
  posts_categories : List (Nat × Nat)
  comments : List Comment
  likes : List Like
  user_ratings : List UserRating
  now : Nat
  collation : List (Char × Char)
  deriving DecidableEq, Repr

/-- The character a character of a text column is compared as. -/
def DB.fold (db : DB) (c : Char) : Char := (db.collation.lookup c).getD c

/-! ## Errors -/

/-- The kinds of error a service call can end with.  `TypeError` is the
runtime error of reading a property of `null`; `DbError` is a statement the
engine rejects; `Conflict` is a plain `Error` given the status 409 and
`Failure` a plain `Error` without a status. -/
inductive ErrKind where
  | NotFound
  | Forbidden
  | BadRequest
  | TypeError
  | DbError
  | Conflict
  | Failure
  deriving DecidableEq, Repr

/-- An error value: its kind and its message. -/
structure Err where
  kind : ErrKind
  message : String
  deriving DecidableEq, Repr

/-- The `name` the services give to an error. -/
def Err.name (e : Err) : String :=
  match e.kind with
  | .NotFound => "NotFoundError"
  | .Forbidden => "ForbiddenError"
  | .BadRequest => "BadRequestError"
  | .TypeError => "TypeError"
  | .DbError => "Error"
  | .Conflict => "Error"
  | .Failure => "Error"

/-- The `status` the services give to an error (absent on runtime and
engine errors). -/
def Err.status (e : Err) : Option Nat :=
  match e.kind with
  | .NotFound => some 404
  | .Forbidden => some 403
  | .BadRequest => some 400
  | .TypeError => none
  | .DbError => none
  | .Conflict => some 409
  | .Failure => none

deriving instance DecidableEq for Except

/-- Source `Forbidden(msg)`. -/
def Forbidden (msg : String) : Err := ⟨.Forbidden, msg⟩

/-- Source `NotFound(msg)`. -/
def NotFound (msg : String) : Err := ⟨.NotFound, msg⟩

/-- Source `BadRequest(msg)`. -/
def BadRequest (msg : String) : Err := ⟨.BadRequest, msg⟩

/-- Reading a property of a `null` actor. -/
def TypeError (msg : String) : Err := ⟨.TypeError, msg⟩

/-- A statement the engine rejects. -/
def DbError (msg : String) : Err := ⟨.DbError, msg⟩

/-- The error `const e = new Error(msg); e.status = 409`. -/
def Conflict (msg : String) : Err := ⟨.Conflict, msg⟩

/-- The error `new Error(msg)`, without a status. -/
def Failure (msg : String) : Err := ⟨.Failure, msg⟩

/-- The role of a possibly absent actor, `actor?.role`. -/
def roleOf (actor : Option Actor) : Option Role := actor.map (fun a => a.role)

/-- The test `actor?.role === 'admin'`. -/
def isAdminActor (actor : Option Actor) : Bool := roleOf actor == some Role.admin

/-! ## Values of the request layer -/

/-- A JavaScript number: `NaN`, the two infinities, or a finite value. -/
inductive JsNum where
  | nan
  | posInf
  | negInf
  | fin (q : ℚ)
  deriving DecidableEq, Repr

/-- A loosely typed JavaScript value, as a request body can carry it. -/
inductive JsVal where
  | undefined
  | null
  | bool (b : Bool)
  | num (n : JsNum)
  | str (s : String)
  deriving DecidableEq, Repr

/-- JavaScript truthiness, the value of `!!v`. -/
def JsVal.truthy : JsVal → Bool
  | .undefined => false
  | .null => false
  | .bool b => b
  | .num .nan => false
  | .num (.fin q) => q != 0
  | .num _ => true
  | .str s => s != ""

/-- The characters `String.prototype.trim` removes: white space and line
terminators. -/
def isTrimmed (c : Char) : Bool :=
  c.val ∈ ([0x09, 0x0A, 0x0B, 0x0C, 0x0D, 0x20, 0xA0, 0x1680, 0x2000, 0x2001, 0x2002,
    0x2003, 0x2004, 0x2005, 0x2006, 0x2007, 0x2008, 0x2009, 0x200A, 0x2028, 0x2029,
    0x202F, 0x205F, 0x3000, 0xFEFF] : List UInt32)

/-- The call `s.trim()` on the characters of a string. -/
def trimChars (cs : List Char) : List Char :=
  ((cs.dropWhile isTrimmed).reverse.dropWhile isTrimmed).reverse

/-! ## The transaction wrapper -/

/-- The pattern every mutating service method follows: `beginTransaction`,
the body on the transaction's view of the database, `commit` and return on
success, `rollback` and rethrow on any error. -/
def transaction {α : Type} (db : DB) (body : DB → Except Err (α × DB)) :
    Except Err α × DB :=
  match body db with
  | .ok (a, tx) => (.ok a, tx)
  | .error e => (.error e, db)

/-- Modelled from the spec: the table declarations (`init.sql`) are not among
the sources.  The id an `INSERT` reports as `insertId` is new to the table:
larger than every id present in it. -/
def freshId (ids : List Nat) : Nat := ids.foldr max 0 + 1

/-- Modelled from the spec: the column defaults of the table declarations
(`init.sql`) are not among the sources.  The lock is a flag an admin sets, so
a row inserted without it is unlocked. -/
def defaultLocked : Bool := false

/-! ## postsRepo -/

namespace postsRepo

/-- The row `findById` selects: the post's columns and three counters. -/
structure PostRow where
  post : Post
  comments_count : Nat
  likes_count : Nat
  dislikes_count : Nat
  deriving DecidableEq, Repr

/-- Source `SELECT COUNT(*) FROM comments c WHERE c.post_id = p.id AND c.status='active'`. -/
def commentsCount (db : DB) (postId : Nat) : Nat :=
  (db.comments.filter (fun c => c.post_id == postId && c.status == Status.active)).length

/-- Source `SELECT COUNT(*) FROM likes l WHERE l.post_id = p.id AND l.type = t`. -/
def likesCount (db : DB) (postId : Nat) (t : LikeType) : Nat :=
  (db.likes.filter (fun l => l.post_id == some postId && l.type == t)).length

/-- The select list of `findById`, for one row of `posts`. -/
def selectRow (db : DB) (p : Post) : PostRow :=
  { post := p
    comments_count := commentsCount db p.id
    likes_count := likesCount db p.id LikeType.like
    dislikes_count := likesCount db p.id LikeType.dislike }

/-- Source `findById(id)`: `rows[0] || null` of the rows with `p.id = ?`. -/
def findById (db : DB) (id : Nat) : Option PostRow :=
  ((db.posts.filter (fun p => p.id == id)).map (selectRow db)).head?

/-- Source `findByIdTx(conn, id)`: the same query on the transaction's connection. -/
def findByIdTx (tx : DB) (id : Nat) : Option PostRow :=
  ((tx.posts.filter (fun p => p.id == id)).map (selectRow tx)).head?

/-- Source `createPostTx(conn, { author_id, title, content, image = null, status = 'active' })`:
one `INSERT INTO posts`; returns `insertId`.  The columns the statement does
not list take their defaults: `locked` is `defaultLocked` and `publish_date`
the reading of the clock. -/
def createPostTx (tx : DB) (author_id : Nat) (title content : String)
    (image : Option String) (status : Option Status) : Nat × DB :=
  let insertId := freshId (tx.posts.map (fun p => p.id))
  let row : Post :=
    { id := insertId
      author_id := author_id
      title := title
      publish_date := tx.now
      status := status.getD Status.active
      locked := defaultLocked
      content := content
      image := image }
  (insertId, { tx with posts := tx.posts ++ [row] })

/-- The `patch` object of `updatePostTx`; `none` is `undefined`, and
`image := some none` is an explicit `null`. -/
structure PostPatch where
  title : Option String := none
  content : Option String := none
  image : Option (Option String) := none
  status : Option Status := none
  publish_date : Option Nat := none
  deriving DecidableEq, Repr

/-- Source `Object.keys(patch).length === 0` for a patch whose keys are set only to
defined values. -/
def PostPatch.isEmpty (patch : PostPatch) : Bool :=
  patch.title.isNone && patch.content.isNone && patch.image.isNone &&
    patch.status.isNone && patch.publish_date.isNone

/-- The `SET` list of `updatePostTx` applied to one row.  `locked` is not
among the columns it can write. -/
def applyPatch (patch : PostPatch) (p : Post) : Post :=
  { p with
    title := patch.title.getD p.title
    content := patch.content.getD p.content
    image := patch.image.getD p.image
    status := patch.status.getD p.status
    publish_date := patch.publish_date.getD p.publish_date }

/-- Source `updatePostTx(conn, id, patch)`: returns 0 without a statement when no
field is given, otherwise `UPDATE posts SET ... WHERE id = ?` and the number
of rows matched. -/
def updatePostTx (tx : DB) (id : Nat) (patch : PostPatch) : Nat × DB :=
  if patch.isEmpty then (0, tx)
  else
    ((tx.posts.filter (fun p => p.id == id)).length,
      { tx with posts := tx.posts.map (fun p => if p.id == id then applyPatch patch p else p) })

/-- Source `deletePostTx(conn, id)`: `DELETE FROM posts WHERE id = ?`. -/
def deletePostTx (tx : DB) (id : Nat) : Nat × DB :=
  ((tx.posts.filter (fun p => p.id == id)).length,
    { tx with posts := tx.posts.filter (fun p => !(p.id == id)) })

/-- Source `setPostLockTx(conn, id, locked)`: `UPDATE posts SET locked = ? WHERE id = ?`. -/
def setPostLockTx (tx : DB) (id : Nat) (locked : Bool) : Nat × DB :=
  ((tx.posts.filter (fun p => p.id == id)).length,
    { tx with posts := tx.posts.map (fun p => if p.id == id then { p with locked := locked } else p) })

/-- Modelled from the spec: the declaration of `posts_categories` (`init.sql`)
is not among the sources; the join relation holds unique
`(post_id, category_id)` pairs and nothing else is assumed of it.  One row of
a multi-row `INSERT IGNORE`: a pair already present is skipped. -/
def insertIgnorePair (table : List (Nat × Nat)) (pair : Nat × Nat) : List (Nat × Nat) :=
  if pair ∈ table then table else table ++ [pair]

/-- Source `attachCategoriesTx(conn, postId, categoryIds)`: nothing for an empty
list, otherwise one `INSERT IGNORE` of the pairs `(postId, cid)` in order;
returns the number of rows inserted. -/
def attachCategoriesTx (tx : DB) (postId : Nat) (categoryIds : List Nat) : Nat × DB :=
  if categoryIds.isEmpty then (0, tx)
  else
    let table := (categoryIds.map (fun cid => (postId, cid))).foldl insertIgnorePair
      tx.posts_categories
    (table.length - tx.posts_categories.length, { tx with posts_categories := table })

/-- Source `replaceCategoriesTx(conn, postId, categoryIds)`:
`DELETE FROM posts_categories WHERE post_id = ?`, then `attachCategoriesTx`
unless the list is empty. -/
def replaceCategoriesTx (tx : DB) (postId : Nat) (categoryIds : List Nat) : Nat × DB :=
  let tx1 := { tx with posts_categories := tx.posts_categories.filter (fun pc => !(pc.1 == postId)) }
  if categoryIds.isEmpty then (0, tx1)
  else attachCategoriesTx tx1 postId categoryIds

/-! ### Listing posts -/

/-- The values `config/env.js` exports for pagination; `toNum` makes both
finite numbers. -/
structure Env where
  PAGINATION_LIMIT_DEFAULT : ℚ
  PAGINATION_LIMIT_MAX : ℚ
  deriving DecidableEq, Repr

/-- The constant `Number.MAX_SAFE_INTEGER`. -/
def MAX_SAFE_INTEGER : ℚ := 9007199254740991

/-- The function `Math.trunc` on a finite number. -/
def trunc (v : ℚ) : ℤ := Int.tdiv v.num v.den

/-- Source `clampInt(value, def, min, max)`; the first argument is the number
`Number(value)`. -/
def clampInt (n : JsNum) (dflt lo hi : ℚ) : ℚ :=
  let v : ℚ :=
    match n with
    | .fin q => q
    | _ => dflt
  let i : ℚ := (trunc v : ℤ)
  min (max i lo) hi

/-- One term of an `ORDER BY` list: the column expression and the direction. -/
structure OrderTerm where
  col : String
  desc : Bool
  deriving DecidableEq, Repr

/-- The text of one term, `${col} ${desc ? 'DESC' : 'ASC'}`. -/
def OrderTerm.sql (t : OrderTerm) : String :=
  t.col ++ " " ++ (if t.desc then "DESC" else "ASC")

/-- The property names every object literal inherits from `Object.prototype`. -/
def objectPrototypeKeys : List String :=
  ["constructor", "hasOwnProperty", "isPrototypeOf", "propertyIsEnumerable",
    "toLocaleString", "toString", "valueOf", "__defineGetter__", "__defineSetter__",
    "__lookupGetter__", "__lookupSetter__", "__proto__"]

/-- The text a template literal gives for an inherited property: the source
text of a native function, or `[object Object]` for `__proto__`. -/
def inheritedText (key : String) : String :=
  if key = "__proto__" then "[object Object]"
  else if key = "constructor" then "function Object() \x7b [native code] \x7d"
  else "function " ++ key ++ "() \x7b [native code] \x7d"

/-- The lookup `map[raw]` on an object literal given by its own entries: an
own entry, else an inherited property (truthy), else `undefined`. -/
def lookupKey (map : List (String × String)) (raw : String) : Option String :=
  match map.lookup raw with
  | some col => some col
  | none => if raw ∈ objectPrototypeKeys then some (inheritedText raw) else none

/-- The test `String(sort).startsWith('-')`: the first character is a hyphen. -/
def startsWithDash (s : String) : Bool := s.data.head? == some '-'

/-- The `map` of `buildOrder`. -/
def orderMap : List (String × String) :=
  [("likes", "likes_net"), ("rating", "likes_net"), ("publish_date", "p.publish_date"),
    ("title", "p.title"), ("id", "p.id")]

/-- The terms of the clause `buildOrder(sort)` returns.  `sort` is `none` for
`undefined` or `null`; the empty string is falsy as well. -/
def buildOrderTerms (sort : Option String) : List OrderTerm :=
  match sort with
  | none => [⟨"likes_net", true⟩, ⟨"p.publish_date", true⟩, ⟨"p.id", true⟩]
  | some s =>
    if s = "" then [⟨"likes_net", true⟩, ⟨"p.publish_date", true⟩, ⟨"p.id", true⟩]
    else
      let desc := startsWithDash s
      let raw := if desc then s.drop 1 else s
      let col := (lookupKey orderMap raw).getD "p.publish_date"
      [⟨col, desc⟩, ⟨"p.id", true⟩]

/-- Source `buildOrder(sort)`: the terms joined with a comma and a blank. -/
def buildOrder (sort : Option String) : String :=
  ", ".intercalate ((buildOrderTerms sort).map OrderTerm.sql)

/-- The argument object of `listPosts`.  `limit` and `offset` are the numbers
`Number(limit)` and `Number(offset)` (`NaN` when absent); the other filters
are `none` when absent. -/
structure ListQuery where
  q : Option String := none
  author_id : Option Nat := none
  category : Option Nat := none
  status : Option Status := none
  dateFrom : Option Nat := none
  dateTo : Option Nat := none
  limit : JsNum := JsNum.nan
  offset : JsNum := JsNum.nan
  sort : Option String := none
  actor : Option Actor := none
  deriving DecidableEq, Repr

/-- A row of the data query of `listPosts`. -/
structure PostListRow where
  post : Post
  author_login : String
  author_name : String
  likes_count : Nat
  dislikes_count : Nat
  likes_net : Int
  comments_count : Nat
  deriving DecidableEq, Repr

/-- The result object `{ items, total, limit, offset }`. -/
structure Page (α : Type) where
  items : List α
  total : Nat
  limit : ℚ
  offset : ℚ
  deriving DecidableEq, Repr

/-- The predicate `LOWER(col) LIKE LOWER('%' + escapeLike(q) + '%')` on the
characters of the column and of `q`: the escaped pattern matches the text of
`q` literally, anywhere, and `LIKE` compares character by character, each
character as the folding of the database gives it. -/
def likeContains (db : DB) (col q : List Char) : Bool :=
  decide (q.map db.fold <:+: col.map db.fold)

/-- The part of the `WHERE` clause that comes from the filters `q`,
`author_id`, `dateFrom` and `dateTo`.  Each is added under a truthiness test
(`q && q.trim()`, `if (author_id)`, `if (dateFrom)`, `if (dateTo)`), so a
filter that is absent, empty or zero adds nothing, and neither does a `q`
that `trim()` leaves empty. -/
def filterClause (db : DB) (query : ListQuery) (p : Post) : Bool :=
  (match query.q with
    | some q =>
      if trimChars q.data ≠ [] then
        likeContains db p.title.data (trimChars q.data) ||
          likeContains db p.content.data (trimChars q.data)
      else true
    | none => true) &&
  (match query.author_id with
    | some a => if a ≠ 0 then p.author_id == a else true
    | none => true) &&
  (match query.dateFrom with
    | some d => if d ≠ 0 then decide (d ≤ p.publish_date) else true
    | none => true) &&
  (match query.dateTo with
    | some d => if d ≠ 0 then decide (p.publish_date ≤ d) else true
    | none => true)

/-- The part of the `WHERE` clause that depends on the role: an admin sees
every row, or the rows of the status asked for; a user sees active rows and
their own; without an actor only active rows are selected.  The test
`Number.isFinite(Number(actor.id))` of `isUser` holds for every actor here,
whose id is a natural number. -/
def visibilityClause (query : ListQuery) (p : Post) : Bool :=
  let isAdmin : Bool := isAdminActor query.actor
  let isUser : Bool := query.actor.isSome
  if !isAdmin then
    if isUser then
      match query.actor with
      | some a => p.status == Status.active || p.author_id == a.id
      | none => p.status == Status.active
    else p.status == Status.active
  else
    match query.status with
    | some s => p.status == s
    | none => true

/-- The whole `WHERE` clause, `whereParts.join(' AND ')`. -/
def whereClause (db : DB) (query : ListQuery) (p : Post) : Bool :=
  filterClause db query p && visibilityClause query p

/-- The rows `JOIN posts_categories pc ON pc.post_id = p.id AND pc.category_id = ?`
contributes for one post: the matching pairs, or a single row when no
category is asked for. -/
def joinCategory (db : DB) (query : ListQuery) (p : Post) : List Unit :=
  match query.category with
  | some cat =>
    if cat ≠ 0 then
      (db.posts_categories.filter (fun pc => pc.1 == p.id && pc.2 == cat)).map (fun _ => ())
    else [()]
  | none => [()]

/-- The rows the data query selects, before `ORDER BY` and `LIMIT`:
`posts p JOIN users u ON u.id = p.author_id`, the category join, the like
aggregates, and the `WHERE` clause. -/
def selectRows (db : DB) (query : ListQuery) : List PostListRow :=
  (db.posts.filter (whereClause db query)).flatMap fun p =>
    (db.users.filter (fun u => u.id == p.author_id)).flatMap fun u =>
      (joinCategory db query p).map fun _ =>
        { post := p
          author_login := u.login
          author_name := u.full_name
          likes_count := likesCount db p.id LikeType.like
          dislikes_count := likesCount db p.id LikeType.dislike
          likes_net := (likesCount db p.id LikeType.like : Int) -
            (likesCount db p.id LikeType.dislike : Int)
          comments_count := commentsCount db p.id }

/-- The comparison the engine makes for one column expression of the data
query; an expression that names no column of the query is rejected.  Titles
are compared as strings of code points, whatever the collation of the
column. -/
def compareColumn (col : String) : Option (PostListRow → PostListRow → Ordering) :=
  if col = "likes_net" then some (fun a b => compare a.likes_net b.likes_net)
  else if col = "p.publish_date" then
    some (fun a b => compare a.post.publish_date b.post.publish_date)
  else if col = "p.title" then some (fun a b => compare a.post.title b.post.title)
  else if col = "p.id" then some (fun a b => compare a.post.id b.post.id)
  else none

/-- The comparisons of a whole `ORDER BY` list, when every term is accepted. -/
def resolveOrder (terms : List OrderTerm) :
    Option (List ((PostListRow → PostListRow → Ordering) × Bool)) :=
  terms.mapM (fun t => (compareColumn t.col).map (fun c => (c, t.desc)))

/-- The order of an `ORDER BY` list: the first term that tells two rows apart
decides, in its direction. -/
def orderLe (keys : List ((PostListRow → PostListRow → Ordering) × Bool))
    (a b : PostListRow) : Bool :=
  match keys with
  | [] => true
  | (c, desc) :: rest =>
    match (if desc then c b a else c a b) with
    | .lt => true
    | .gt => false
    | .eq => orderLe rest a b

/-- Insertion of one row into an ordered list, before the first row it does
not follow. -/
def insertOrdered {α : Type} (le : α → α → Bool) (a : α) : List α → List α
  | [] => [a]
  | b :: rest => if le a b then a :: b :: rest else b :: insertOrdered le a rest

/-- The rows in the order of `ORDER BY`: a rearrangement of the rows in which
each row is followed only by rows it precedes or ties with. -/
def orderBy {α : Type} (le : α → α → Bool) (rows : List α) : List α :=
  rows.foldr (insertOrdered le) []

/-- The number a `LIMIT` or `OFFSET` accepts: a non-negative integer literal. -/
def sqlCount (v : ℚ) : Option Nat :=
  if v.den = 1 ∧ 0 ≤ v.num then some v.num.toNat else none

/-- The ids `COUNT(DISTINCT p.id)` counts in the count query, which joins
the categories but not the users. -/
def countedIds (db : DB) (query : ListQuery) : List Nat :=
  (((db.posts.filter (whereClause db query)).filter
    (fun p => !(joinCategory db query p).isEmpty)).map (fun p => p.id)).eraseDups

/-- Source `listPosts({ q, author_id, category, status, dateFrom, dateTo, limit,
offset, sort, actor })`: the page of the ordered rows and the total. -/
def listPosts (env : Env) (db : DB) (query : ListQuery) : Except Err (Page PostListRow) :=
  let DEF : ℚ := if env.PAGINATION_LIMIT_DEFAULT = 0 then 10 else env.PAGINATION_LIMIT_DEFAULT
  let MAX : ℚ := if env.PAGINATION_LIMIT_MAX = 0 then 100 else env.PAGINATION_LIMIT_MAX
  let safeLimit := clampInt query.limit DEF 1 MAX
  let safeOffset := clampInt query.offset 0 0 MAX_SAFE_INTEGER
  match resolveOrder (buildOrderTerms query.sort), sqlCount safeLimit, sqlCount safeOffset with
  | some keys, some lim, some off =>
    .ok
      { items := ((orderBy (orderLe keys) (selectRows db query)).drop off).take lim
        total := (countedIds db query).length
        limit := safeLimit
        offset := safeOffset }
  | _, _, _ => .error (DbError "ER_PARSE_ERROR")

end postsRepo

/-! ## postsService -/

namespace postsService

open postsRepo (PostRow PostPatch)

/-- Source `ensureAdmin(actor)`: throws unless the actor is an admin. -/
def ensureAdmin (actor : Option Actor) : Except Err Unit :=
  match actor with
  | none => .error (Forbidden "Admin only")
  | some a => if a.role ≠ Role.admin then .error (Forbidden "Admin only") else .ok ()

/-- Source `ensureOwnerOrAdmin(actor, post)`. -/
def ensureOwnerOrAdmin (actor : Option Actor) (post : Option PostRow) : Except Err Unit :=
  match post with
  | none => .error (NotFound "Post not found")
  | some p =>
    if isAdminActor actor then .ok ()
    else
      match actor with
      | none => .error (Forbidden "Only owner or admin")
      | some a =>
        if p.post.author_id ≠ a.id then .error (Forbidden "Only owner or admin") else .ok ()

/-- The second argument of `findById`, an object read through the properties
`actor`, `actorId`, `id` and `role`.  For each property `none` is
`undefined`; `actor` and `actorId` may also hold an explicit `null`
(`some none`). -/
structure FindOpts where
  actor : Option (Option Actor) := none
  actorId : Option (Option Nat) := none
  id : Option Nat := none
  role : Option Role := none
  deriving DecidableEq, Repr

/-- The call shape `findById(id, actor)`: the actor object (or `null`) itself
is the second argument. -/
def optsOfActor (actor : Option Actor) : Option FindOpts :=
  actor.map (fun a => { id := some a.id, role := some a.role })

/-- The call shape of the controller, `findById(id, { actor: req.user || null })`. -/
def optsWrapping (actor : Option Actor) : Option FindOpts :=
  some { actor := some actor }

/-- Source `findById(id, opts)`: one post under the visibility rule.  `opts` is
`none` for `null`; the default `{}` of an omitted argument is the record
with every property undefined. -/
def findById (db : DB) (id : Nat) (opts : Option FindOpts) : Except Err PostRow :=
  match postsRepo.findById db id with
  | none => .error (NotFound "Post not found")
  | some p =>
    let wrapped : Bool :=
      match opts with
      | some o => o.actorId.isSome || o.actor.isSome
      | none => false
    -- `actor?.role` and `actorId` after the normalisation
    let actorRole : Option Role :=
      if wrapped then ((opts.bind (fun o => o.actor)).join).map (fun a => a.role)
      else opts.bind (fun o => o.role)
    let actorId : Option Nat :=
      if wrapped then
        match opts.bind (fun o => o.actorId) with
        | some v => v
        | none => ((opts.bind (fun o => o.actor)).join).map (fun a => a.id)
      else opts.bind (fun o => o.id)
    let isAdmin : Bool :=
      actorRole == some Role.admin || opts.bind (fun o => o.role) == some Role.admin
    let isOwner : Bool :=
      match actorId with
      | some aid => aid == p.post.author_id
      | none => false
    if p.post.status ≠ Status.active && !isAdmin && !isOwner then
      .error (NotFound "Post not available")
    else .ok p

/-- Source `list(query, { actor })`: `postsRepo.listPosts({ ...query, actor })`. -/
def list (env : postsRepo.Env) (db : DB) (query : postsRepo.ListQuery)
    (actor : Option Actor) : Except Err (postsRepo.Page postsRepo.PostListRow) :=
  postsRepo.listPosts env db { query with actor := actor }

/-- The body of `create`: `{ title, content, status = 'active', categoryIds = [], image }`.
For `categoryIds`, `none` is any value that is not an array. -/
structure CreateInput where
  title : String
  content : String
  status : Option Status := none
  categoryIds : Option (List Nat) := none
  image : Option String := none
  deriving DecidableEq, Repr

/-- Source `create(actor, input)`. -/
def create (db : DB) (actor : Option Actor) (input : CreateInput) :
    Except Err (Option PostRow) × DB :=
  transaction db fun tx =>
    match actor with
    | none => .error (TypeError "Cannot read properties of null (reading \x27id\x27)")
    | some a =>
      let (postId, tx1) :=
        postsRepo.createPostTx tx a.id input.title input.content input.image
          (some (input.status.getD Status.active))
      let tx2 :=
        match input.categoryIds with
        | some cats => if cats.length ≠ 0 then (postsRepo.attachCategoriesTx tx1 postId cats).2 else tx1
        | none => tx1
      .ok (postsRepo.findByIdTx tx2 postId, tx2)

/-- The patch argument of `update`: `{ title, content, status, categoryIds, image }`.
A field is `none` when `undefined`; `categoryIds` is `none` for any value
that is not an array; `image := some none` is an explicit `null`. -/
structure UpdateInput where
  title : Option String := none
  content : Option String := none
  status : Option Status := none
  categoryIds : Option (List Nat) := none
  image : Option (Option String) := none
  deriving DecidableEq, Repr

/-- The part of `update` that builds `patchDb` and `replaceCats` from the
patch, by the caller's relation to the post. -/
def selectFields (isAdmin isOwner : Bool) (input : UpdateInput) :
    Except Err (PostPatch × Option (List Nat)) :=
  if isAdmin && !isOwner then
    let patchDb : PostPatch := { status := input.status }
    let replaceCats := input.categoryIds
    if patchDb.isEmpty && replaceCats.isNone then
      .error (BadRequest "No updatable fields for admin (only status and categories are allowed)")
    else .ok (patchDb, replaceCats)
  else
    let patchDb : PostPatch :=
      { title := input.title, content := input.content, image := input.image,
        status := input.status }
    let replaceCats := input.categoryIds
    if patchDb.isEmpty && replaceCats.isNone then
      .error (BadRequest "No fields to update")
    else .ok (patchDb, replaceCats)

/-- The test `!!actor && existing.author_id === actor.id`. -/
def isOwnerOf (actor : Option Actor) (p : Post) : Bool :=
  match actor with
  | some a => p.author_id == a.id
  | none => false

/-- The writes of `update`: `updatePostTx` when `patchDb` has a key, then
`replaceCategoriesTx` when `replaceCats` is not `null`. -/
def writeFields (tx : DB) (postId : Nat) (patchDb : PostPatch)
    (replaceCats : Option (List Nat)) : DB :=
  let tx1 := if !patchDb.isEmpty then (postsRepo.updatePostTx tx postId patchDb).2 else tx
  match replaceCats with
  | some cats => (postsRepo.replaceCategoriesTx tx1 postId cats).2
  | none => tx1

/-- Source `update(actor, postId, patch)`. -/
def update (db : DB) (actor : Option Actor) (postId : Nat) (input : UpdateInput) :
    Except Err (Option PostRow) × DB :=
  transaction db fun tx =>
    let existing := postsRepo.findByIdTx tx postId
    match ensureOwnerOrAdmin actor existing, existing with
    | .error e, _ => .error e
    | .ok _, none => .error (TypeError "Cannot read properties of null (reading author_id)")
    | .ok _, some ex =>
      let isOwner : Bool := isOwnerOf actor ex.post
      let isAdmin : Bool := isAdminActor actor
      if ex.post.locked && !isAdmin then .error (Forbidden "Post is locked")
      else
        match selectFields isAdmin isOwner input with
        | .error e => .error e
        | .ok (patchDb, replaceCats) =>
          let tx2 := writeFields tx postId patchDb replaceCats
          .ok (postsRepo.findByIdTx tx2 postId, tx2)

/-- Source `remove(actor, postId)`; the result `{ ok: true }` is `()`. -/
def remove (db : DB) (actor : Option Actor) (postId : Nat) : Except Err Unit × DB :=
  transaction db fun tx =>
    let existing := postsRepo.findByIdTx tx postId
    match ensureOwnerOrAdmin actor existing, existing with
    | .error e, _ => .error e
    | .ok _, none => .error (TypeError "Cannot read properties of null (reading locked)")
    | .ok _, some ex =>
      if ex.post.locked && !isAdminActor actor then .error (Forbidden "Post is locked")
      else .ok ((), (postsRepo.deletePostTx tx postId).2)

/-- Source `setLock(actor, postId, locked)`: `ensureAdmin` runs before the
transaction is opened; `postsRepo.setPostLockTx` is exported, so the branch
that calls it with `!!locked` is the one taken. -/
def setLock (db : DB) (actor : Option Actor) (postId : Nat) (locked : JsVal) :
    Except Err (Option PostRow) × DB :=
  match ensureAdmin actor with
  | .error e => (.error e, db)
  | .ok _ =>
    transaction db fun tx =>
      match postsRepo.findByIdTx tx postId with
      | none => .error (NotFound "Post not found")
      | some _ =>
        let tx1 := (postsRepo.setPostLockTx tx postId locked.truthy).2
        .ok (postsRepo.findByIdTx tx1 postId, tx1)

end postsService

/-! ## commentsRepo -/

namespace commentsRepo

/-- The row `findById` selects: the comment's columns and, from the joined
`users` row, the author's login and name. -/
structure CommentRow where
  comment : Comment
  author_login : String
  author_name : String
  deriving DecidableEq, Repr

/-- The rows of `comments c JOIN users u ON u.id = c.author_id WHERE c.id = ?`. -/
def selectById (db : DB) (id : Nat) : List CommentRow :=
  (db.comments.filter (fun c => c.id == id)).flatMap fun c =>
    (db.users.filter (fun u => u.id == c.author_id)).map fun u =>
      { comment := c, author_login := u.login, author_name := u.full_name }

/-- Source `findById(id)`: `rows[0] || null`. -/
def findById (db : DB) (id : Nat) : Option CommentRow := (selectById db id).head?

/-- Source `findByIdTx(conn, id)`: the same query on the transaction's connection. -/
def findByIdTx (tx : DB) (id : Nat) : Option CommentRow := (selectById tx id).head?

/-- Source `createCommentTx(conn, { post_id, author_id, content, status = 'active' })`:
one `INSERT INTO comments`; returns `insertId`.  The columns the statement
does not list take their defaults: `locked` is `defaultLocked` and
`publish_date` the reading of the clock. -/
def createCommentTx (tx : DB) (post_id author_id : Nat) (content : String)
    (status : Option Status) : Nat × DB :=
  let insertId := freshId (tx.comments.map (fun c => c.id))
  let row : Comment :=
    { id := insertId
      post_id := post_id
      author_id := author_id
      publish_date := tx.now
      content := content
      status := status.getD Status.active
      locked := defaultLocked }
  (insertId, { tx with comments := tx.comments ++ [row] })

/-- Source `setCommentLockTx(conn, id, locked)`:
`UPDATE comments SET locked = ? WHERE id = ?`. -/
def setCommentLockTx (tx : DB) (id : Nat) (locked : Bool) : Nat × DB :=
  ((tx.comments.filter (fun c => c.id == id)).length,
    { tx with
      comments := tx.comments.map (fun c => if c.id == id then { c with locked := locked } else c) })

end commentsRepo

/-! ## commentsService -/

namespace commentsService

open commentsRepo (CommentRow)

/-- Source `ensureAdmin(actor)`: throws unless the actor is an admin. -/
def ensureAdmin (actor : Option Actor) : Except Err Unit :=
  match actor with
  | none => .error (Forbidden "Admin only")
  | some a => if a.role ≠ Role.admin then .error (Forbidden "Admin only") else .ok ()

/-- The body of `create`: `{ post_id, content }`. -/
structure CreateInput where
  post_id : Nat
  content : String
  deriving DecidableEq, Repr

/-- Source `create(actor, { post_id, content })`: a comment on an active post
that is not locked. -/
def create (db : DB) (actor : Option Actor) (input : CreateInput) :
    Except Err (Option CommentRow) × DB :=
  transaction db fun tx =>
    match postsRepo.findByIdTx tx input.post_id with
    | none => .error (NotFound "Post not found")
    | some post =>
      if post.post.status ≠ Status.active then .error (BadRequest "Cannot comment inactive post")
      else if post.post.locked then .error (Forbidden "Post is locked")
      else
        match actor with
        | none => .error (TypeError "Cannot read properties of null (reading \x27id\x27)")
        | some a =>
          let (id, tx1) :=
            commentsRepo.createCommentTx tx input.post_id a.id input.content (some Status.active)
          .ok (commentsRepo.findByIdTx tx1 id, tx1)

/-- Source `setLock(actor, commentId, locked)`: `ensureAdmin` runs before the
transaction is opened. -/
def setLock (db : DB) (actor : Option Actor) (commentId : Nat) (locked : JsVal) :
    Except Err (Option CommentRow) × DB :=
  match ensureAdmin actor with
  | .error e => (.error e, db)
  | .ok _ =>
    transaction db fun tx =>
      match commentsRepo.findByIdTx tx commentId with
      | none => .error (NotFound "Comment not found")
      | some _ =>
        let tx1 := (commentsRepo.setCommentLockTx tx commentId locked.truthy).2
        .ok (commentsRepo.findByIdTx tx1 commentId, tx1)

end commentsService

/-! ## commentsRepo: update, delete and the listing -/

namespace commentsRepo

/-- The `patch` object of `updateCommentTx`; `none` is `undefined`. -/
structure CommentPatch where
  content : Option String := none
  status : Option Status := none
  deriving DecidableEq, Repr

/-- The `SET` list of `updateCommentTx` applied to one row.  `locked` is not
among the columns it can write. -/
def applyPatch (patch : CommentPatch) (c : Comment) : Comment :=
  { c with
    content := patch.content.getD c.content
    status := patch.status.getD c.status }

/-- Source `updateCommentTx(conn, id, patch)`: returns 0 without a statement
when no field is given, otherwise `UPDATE comments SET ... WHERE id = ?` and
the number of rows matched. -/
def updateCommentTx (tx : DB) (id : Nat) (patch : CommentPatch) : Nat × DB :=
  if patch.content.isNone && patch.status.isNone then (0, tx)
  else
    ((tx.comments.filter (fun c => c.id == id)).length,
      { tx with
        comments := tx.comments.map (fun c => if c.id == id then applyPatch patch c else c) })

/-- Source `deleteCommentTx(conn, id)`: `DELETE FROM comments WHERE id = ?`. -/
def deleteCommentTx (tx : DB) (id : Nat) : Nat × DB :=
  ((tx.comments.filter (fun c => c.id == id)).length,
    { tx with comments := tx.comments.filter (fun c => !(c.id == id)) })

/-- Source `clampInt(v, def, min, max)` of this repository, which truncates the
value but not the default; the first argument is the number `Number(v)`. -/
def clampInt (n : JsNum) (dflt lo hi : ℚ) : ℚ :=
  let x : ℚ :=
    match n with
    | .fin q => (postsRepo.trunc q : ℤ)
    | _ => dflt
  min (max x lo) hi

/-- The `map` of `buildOrder`. -/
def orderMap : List (String × String) :=
  [("publish_date", "c.publish_date"), ("id", "c.id")]

/-- The terms of the clause `buildOrder(sort)` returns.  `sort` is `none` for
`undefined` or `null`; the empty string is falsy as well. -/
def buildOrderTerms (sort : Option String) : List postsRepo.OrderTerm :=
  match sort with
  | none => [⟨"c.publish_date", true⟩, ⟨"c.id", true⟩]
  | some s =>
    if s = "" then [⟨"c.publish_date", true⟩, ⟨"c.id", true⟩]
    else
      let desc := postsRepo.startsWithDash s
      let raw := if desc then s.drop 1 else s
      let col := (postsRepo.lookupKey orderMap raw).getD "c.publish_date"
      [⟨col, desc⟩, ⟨"c.id", true⟩]

/-- Source `buildOrder(sort)`: the terms joined with a comma and a blank. -/
def buildOrder (sort : Option String) : String :=
  ", ".intercalate ((buildOrderTerms sort).map postsRepo.OrderTerm.sql)

/-- The options object of `listByPost`.  `limit` and `offset` are the numbers
`Number(limit)` and `Number(offset)`; `status` and `sort` are `none` when
absent or empty. -/
structure ListQuery where
  limit : JsNum := JsNum.nan
  offset : JsNum := JsNum.nan
  sort : Option String := none
  status : Option Status := none
  actor : Option Actor := none
  deriving DecidableEq, Repr

/-- The part of the `WHERE` clause of `listByPost` that depends on the role,
in the order the source tests it: admin first, then user, then nobody.  The
test `Number.isFinite(Number(actor.id))` of `isUser` holds for every actor
here, whose id is a natural number. -/
def visibilityClause (query : ListQuery) (c : Comment) : Bool :=
  let isAdmin : Bool := isAdminActor query.actor
  let isUser : Bool := query.actor.isSome
  if isAdmin then
    match query.status with
    | some s => c.status == s
    | none => true
  else if isUser then
    match query.actor with
    | some a => c.status == Status.active || c.author_id == a.id
    | none => c.status == Status.active
  else c.status == Status.active

/-- The whole `WHERE` clause: `c.post_id = ?` and the role-dependent part. -/
def whereClause (postId : Nat) (query : ListQuery) (c : Comment) : Bool :=
  c.post_id == postId && visibilityClause query c

/-- The rows the data query selects, before `ORDER BY` and `LIMIT`:
`comments c JOIN users u ON u.id = c.author_id` and the `WHERE` clause. -/
def selectRows (db : DB) (postId : Nat) (query : ListQuery) : List CommentRow :=
  (db.comments.filter (whereClause postId query)).flatMap fun c =>
    (db.users.filter (fun u => u.id == c.author_id)).map fun u =>
      { comment := c, author_login := u.login, author_name := u.full_name }

/-- The comparison the engine makes for one column expression of the data
query; an expression that names no column of the query is rejected. -/
def compareColumn (col : String) : Option (CommentRow → CommentRow → Ordering) :=
  if col = "c.publish_date" then
    some (fun a b => compare a.comment.publish_date b.comment.publish_date)
  else if col = "c.id" then some (fun a b => compare a.comment.id b.comment.id)
  else none

/-- The comparisons of a whole `ORDER BY` list, when every term is accepted. -/
def resolveOrder (terms : List postsRepo.OrderTerm) :
    Option (List ((CommentRow → CommentRow → Ordering) × Bool)) :=
  terms.mapM (fun t => (compareColumn t.col).map (fun c => (c, t.desc)))

/-- The order of an `ORDER BY` list: the first term that tells two rows apart
decides, in its direction. -/
def orderLe (keys : List ((CommentRow → CommentRow → Ordering) × Bool))
    (a b : CommentRow) : Bool :=
  match keys with
  | [] => true
  | (c, desc) :: rest =>
    match (if desc then c b a else c a b) with
    | .lt => true
    | .gt => false
    | .eq => orderLe rest a b

/-- Source `listByPost(postId, { limit, offset, sort, status, actor })`: the page
of the ordered rows and the total of the count query, which does not join
the users. -/
def listByPost (db : DB) (postId : Nat) (query : ListQuery) :
    Except Err (postsRepo.Page CommentRow) :=
  let safeLimit := clampInt query.limit 10 1 100
  let safeOffset := clampInt query.offset 0 0 postsRepo.MAX_SAFE_INTEGER
  match resolveOrder (buildOrderTerms query.sort), postsRepo.sqlCount safeLimit,
      postsRepo.sqlCount safeOffset with
  | some keys, some lim, some off =>
    .ok
      { items := ((postsRepo.orderBy (orderLe keys) (selectRows db postId query)).drop off).take lim
        total := (db.comments.filter (whereClause postId query)).length
        limit := safeLimit
        offset := safeOffset }
  | _, _, _ => .error (DbError "ER_PARSE_ERROR")

end commentsRepo

/-! ## commentsService: reading, update and removal -/

namespace commentsService

open commentsRepo (CommentRow)

/-- Source `ensureOwnerOrAdmin(actor, entity, field = 'author_id')`. -/
def ensureOwnerOrAdmin (actor : Option Actor) (entity : Option CommentRow) : Except Err Unit :=
  match entity with
  | none => .error (NotFound "Comment not found")
  | some c =>
    if isAdminActor actor then .ok ()
    else
      match actor with
      | none => .error (Forbidden "Only owner or admin")
      | some a =>
        if c.comment.author_id ≠ a.id then .error (Forbidden "Only owner or admin") else .ok ()

/-- Source `ensureCanSee(actor, comment)`: the visibility of one comment. -/
def ensureCanSee (actor : Option Actor) (comment : Option CommentRow) : Except Err Unit :=
  match comment with
  | none => .error (NotFound "Comment not found")
  | some c =>
    if c.comment.status = Status.active then .ok ()
    else
      match actor with
      | none => .error (NotFound "Comment not found")
      | some a =>
        if a.role = Role.admin ∨ c.comment.author_id = a.id then .ok ()
        else .error (NotFound "Comment not found")

/-- Source `listByPost(postId, { limit, offset, sort, status }, actor)`. -/
def listByPost (db : DB) (postId : Nat) (query : commentsRepo.ListQuery)
    (actor : Option Actor) : Except Err (postsRepo.Page CommentRow) :=
  commentsRepo.listByPost db postId { query with actor := actor }

/-- Source `findById(id, actor)`. -/
def findById (db : DB) (id : Nat) (actor : Option Actor) : Except Err (Option CommentRow) :=
  let c := commentsRepo.findById db id
  match ensureCanSee actor c with
  | .error e => .error e
  | .ok _ => .ok c

/-- The patch argument of `update`: `{ status, content }`.  `status` is `none`
when `undefined`; `content` is any value, `undefined` when absent. -/
structure UpdateInput where
  status : Option Status := none
  content : JsVal := JsVal.undefined
  deriving DecidableEq, Repr

/-- The test `parentPost?.locked` on the parent post, which may be missing. -/
def parentLocked (parentPost : Option postsRepo.PostRow) : Bool :=
  match parentPost with
  | some p => p.post.locked
  | none => false

/-- Source `update(actor, commentId, { status, content })`: only the status can
change; a lock on the comment or on its post leaves it to admins. -/
def update (db : DB) (actor : Option Actor) (commentId : Nat) (input : UpdateInput) :
    Except Err (Option CommentRow) × DB :=
  transaction db fun tx =>
    let existing := commentsRepo.findByIdTx tx commentId
    match ensureOwnerOrAdmin actor existing, existing with
    | .error e, _ => .error e
    | .ok _, none => .error (TypeError "Cannot read properties of null (reading locked)")
    | .ok _, some ex =>
      if input.content ≠ JsVal.undefined then
        .error (Forbidden "Changing content is not allowed")
      else
        match input.status with
        | none => .error (BadRequest "Only status can be changed")
        | some status =>
          if ex.comment.locked && !isAdminActor actor then .error (Forbidden "Comment is locked")
          else
            let parentPost := postsRepo.findByIdTx tx ex.comment.post_id
            if parentLocked parentPost && !isAdminActor actor then
              .error (Forbidden "Post is locked")
            else
              let tx1 := (commentsRepo.updateCommentTx tx commentId { status := some status }).2
              .ok (commentsRepo.findByIdTx tx1 commentId, tx1)

/-- Source `remove(actor, commentId)`; the result `{ ok: true }` is `()`. -/
def remove (db : DB) (actor : Option Actor) (commentId : Nat) : Except Err Unit × DB :=
  transaction db fun tx =>
    let existing := commentsRepo.findByIdTx tx commentId
    match ensureOwnerOrAdmin actor existing, existing with
    | .error e, _ => .error e
    | .ok _, none => .error (TypeError "Cannot read properties of null (reading locked)")
    | .ok _, some ex =>
      if ex.comment.locked && !isAdminActor actor then .error (Forbidden "Comment is locked")
      else
        let parentPost := postsRepo.findByIdTx tx ex.comment.post_id
        if parentLocked parentPost && !isAdminActor actor then .error (Forbidden "Post is locked")
        else .ok ((), (commentsRepo.deleteCommentTx tx commentId).2)

end commentsService

/-! ## likesRepo -/

namespace likesRepo

/-- Modelled from the spec: the declaration of `likes` (`init.sql`) is not
among the sources.  The table has a unique key on `(author_id, post_id)` and
one on `(author_id, comment_id)`: a new row duplicates an old one when the
authors are equal and the two rows have the same post, or the same comment,
that is not `NULL`. -/
def duplicatesKey (new old : Like) : Bool :=
  old.author_id == new.author_id &&
    ((new.post_id.isSome && old.post_id == new.post_id) ||
      (new.comment_id.isSome && old.comment_id == new.comment_id))

/-- The statement `INSERT INTO likes ... ON DUPLICATE KEY UPDATE type = VALUES(type),
publish_date = NOW()`: the rows the new one duplicates get its type and the
current time; when there is none the new row is inserted.  Returns the
affected-rows count of the engine, 1 for an insert and 2 for an update. -/
def upsert (tx : DB) (author_id : Nat) (post_id comment_id : Option Nat) (type : LikeType) :
    Nat × DB :=
  let row : Like :=
    { id := freshId (tx.likes.map (fun l => l.id))
      author_id := author_id
      post_id := post_id
      comment_id := comment_id
      type := type
      publish_date := tx.now }
  if tx.likes.any (duplicatesKey row) then
    (2, { tx with
          likes := tx.likes.map (fun l =>
            if duplicatesKey row l then { l with type := type, publish_date := tx.now } else l) })
  else (1, { tx with likes := tx.likes ++ [row] })

/-- Source `upsertPostLike(conn, { author_id, post_id, type })`: the values are
`(author_id, post_id, NULL, type)`. -/
def upsertPostLike (tx : DB) (author_id post_id : Nat) (type : LikeType) : Nat × DB :=
  upsert tx author_id (some post_id) none type

/-- Source `removePostLike(conn, { author_id, post_id })`:
`DELETE FROM likes WHERE author_id = ? AND post_id = ?`. -/
def removePostLike (tx : DB) (author_id post_id : Nat) : Nat × DB :=
  ((tx.likes.filter (fun l => l.author_id == author_id && l.post_id == some post_id)).length,
    { tx with
      likes := tx.likes.filter
        (fun l => !(l.author_id == author_id && l.post_id == some post_id)) })

/-- Source `upsertCommentLike(conn, { author_id, comment_id, type })`: the values
are `(author_id, NULL, comment_id, type)`. -/
def upsertCommentLike (tx : DB) (author_id comment_id : Nat) (type : LikeType) : Nat × DB :=
  upsert tx author_id none (some comment_id) type

/-- Source `removeCommentLike(conn, { author_id, comment_id })`:
`DELETE FROM likes WHERE author_id = ? AND comment_id = ?`. -/
def removeCommentLike (tx : DB) (author_id comment_id : Nat) : Nat × DB :=
  ((tx.likes.filter
      (fun l => l.author_id == author_id && l.comment_id == some comment_id)).length,
    { tx with
      likes := tx.likes.filter
        (fun l => !(l.author_id == author_id && l.comment_id == some comment_id)) })

end likesRepo

/-! ## usersRepo: the rating -/

namespace usersRepo

/-- The rows `LEFT JOIN likes l ON ...` gives for one row of the left table:
the matching likes, or a single row of `NULL`s when there is none. -/
def leftJoinLikes (likes : List Like) (cond : Like → Bool) : List (Option Like) :=
  match likes.filter cond with
  | [] => [none]
  | l :: rest => (l :: rest).map some

/-- The value of `CASE WHEN l.type='like' THEN 1 WHEN l.type='dislike' THEN -1 ELSE 0 END`
on a joined row. -/
def caseWeight : Option Like → Int
  | some l =>
    match l.type with
    | LikeType.like => 1
    | LikeType.dislike => -1
  | none => 0

/-- The first query of `computeRatingForUserTx`: `COALESCE(SUM(CASE ...), 0)` over
`posts p LEFT JOIN likes l ON l.post_id = p.id WHERE p.author_id = ?`. -/
def ratingFromPosts (tx : DB) (user_id : Nat) : Int :=
  (((tx.posts.filter (fun p => p.author_id == user_id)).flatMap fun p =>
      leftJoinLikes tx.likes (fun l => l.post_id == some p.id)).map caseWeight).sum

/-- The second query of `computeRatingForUserTx`: the same sum over
`comments c LEFT JOIN likes l ON l.comment_id = c.id WHERE c.author_id = ?`. -/
def ratingFromComments (tx : DB) (user_id : Nat) : Int :=
  (((tx.comments.filter (fun c => c.author_id == user_id)).flatMap fun c =>
      leftJoinLikes tx.likes (fun l => l.comment_id == some c.id)).map caseWeight).sum

/-- Source `computeRatingForUserTx(conn, user_id)`:
`Number(r_posts || 0) + Number(r_comments || 0)`. -/
def computeRatingForUserTx (tx : DB) (user_id : Nat) : Int :=
  ratingFromPosts tx user_id + ratingFromComments tx user_id

/-- Source `upsertUserRatingTx(conn, user_id, rating)`: `INSERT INTO user_ratings
(user_id, rating, updated_at) VALUES (?, ?, NOW()) ON DUPLICATE KEY UPDATE
rating = VALUES(rating), updated_at = NOW()`, with `user_id` the unique key
the source names; returns `true`. -/
def upsertUserRatingTx (tx : DB) (user_id : Nat) (rating : Int) : Bool × DB :=
  if tx.user_ratings.any (fun r => r.user_id == user_id) then
    (true, { tx with
             user_ratings := tx.user_ratings.map (fun r =>
               if r.user_id == user_id then { r with rating := rating, updated_at := tx.now }
               else r) })
  else
    (true, { tx with
             user_ratings := tx.user_ratings ++
               [{ user_id := user_id, rating := rating, updated_at := tx.now }] })

/-- The row `findById` selects: the user's columns and the rating. -/
structure UserRow where
  user : User
  rating : Int
  deriving DecidableEq, Repr

/-- The column `COALESCE(ur.rating, 0) AS rating` that the user queries read
for one user through `LEFT JOIN user_ratings ur ON ur.user_id = u.id`: the
stored rating, 0 when no row stores one. -/
def storedRating (db : DB) (user_id : Nat) : Int :=
  match db.user_ratings.find? (fun r => r.user_id == user_id) with
  | some r => r.rating
  | none => 0

/-- Source `findById(id)`: `rows[0] || null` of
`users u LEFT JOIN user_ratings ur ON ur.user_id = u.id WHERE u.id = ?`. -/
def findById (db : DB) (id : Nat) : Option UserRow :=
  ((db.users.filter (fun u => u.id == id)).flatMap fun u =>
    match db.user_ratings.filter (fun r => r.user_id == u.id) with
    | [] => [{ user := u, rating := 0 }]
    | r :: rest => (r :: rest).map (fun r => { user := u, rating := r.rating })).head?

end usersRepo

/-! ## likesService -/

namespace likesService

/-- The argument `{ type, post_id = null, comment_id = null }` of `setLike` and
`removeLike`.  `type` is any value; an id is `none` when `null` or absent. -/
structure LikeInput where
  type : JsVal := JsVal.undefined
  post_id : Option Nat := none
  comment_id : Option Nat := none
  deriving DecidableEq, Repr

/-- The test `['like','dislike'].includes(type)`, with the column value the
accepted string stands for. -/
def parseType (type : JsVal) : Option LikeType :=
  match type with
  | .str s => if s = "like" then some LikeType.like
    else if s = "dislike" then some LikeType.dislike else none
  | _ => none

/-- The truthiness of an id, as `post_id &&` and `!post_id` test it: `null`
and 0 are falsy. -/
def truthyId (id : Option Nat) : Bool :=
  match id with
  | some n => n != 0
  | none => false

/-- The target test of both methods:
`(post_id && comment_id) || (!post_id && !comment_id)`. -/
def badTarget (input : LikeInput) : Bool :=
  (truthyId input.post_id && truthyId input.comment_id) ||
    (!truthyId input.post_id && !truthyId input.comment_id)

/-- The recompute both methods end with: `computeRatingForUserTx` for the
author of the target, then `upsertUserRatingTx`.  The guard
`Number.isFinite(authorId)` holds for every author id, a natural number. -/
def recomputeRating (tx : DB) (authorId : Nat) : DB :=
  (usersRepo.upsertUserRatingTx tx authorId (usersRepo.computeRatingForUserTx tx authorId)).2

/-- Source `setLike(actor, { type, post_id = null, comment_id = null })`; the
result `{ ok: true }` is `()`. -/
def setLike (db : DB) (actor : Option Actor) (input : LikeInput) : Except Err Unit × DB :=
  match parseType input.type with
  | none => (.error (BadRequest "Invalid type"), db)
  | some type =>
    if badTarget input then
      (.error (BadRequest "Provide exactly one target: post_id XOR comment_id"), db)
    else
      transaction db fun tx =>
        if truthyId input.post_id then
          let post_id := input.post_id.getD 0
          match postsRepo.findByIdTx tx post_id with
          | none => .error (NotFound "Post not found")
          | some post =>
            match actor with
            | none => .error (TypeError "Cannot read properties of null (reading \x27id\x27)")
            | some a =>
              let tx1 := (likesRepo.upsertPostLike tx a.id post_id type).2
              .ok ((), recomputeRating tx1 post.post.author_id)
        else
          let comment_id := input.comment_id.getD 0
          match commentsRepo.findByIdTx tx comment_id with
          | none => .error (NotFound "Comment not found")
          | some comment =>
            match actor with
            | none => .error (TypeError "Cannot read properties of null (reading \x27id\x27)")
            | some a =>
              let tx1 := (likesRepo.upsertCommentLike tx a.id comment_id type).2
              .ok ((), recomputeRating tx1 comment.comment.author_id)

/-- Source `removeLike(actor, { post_id = null, comment_id = null })`; the result
`{ ok: true }` is `()`. -/
def removeLike (db : DB) (actor : Option Actor) (input : LikeInput) : Except Err Unit × DB :=
  if badTarget input then
    (.error (BadRequest "Provide exactly one target: post_id XOR comment_id"), db)
  else
    transaction db fun tx =>
      if truthyId input.post_id then
        let post_id := input.post_id.getD 0
        match postsRepo.findByIdTx tx post_id with
        | none => .error (NotFound "Post not found")
        | some post =>
          match actor with
          | none => .error (TypeError "Cannot read properties of null (reading \x27id\x27)")
          | some a =>
            let tx1 := (likesRepo.removePostLike tx a.id post_id).2
            .ok ((), recomputeRating tx1 post.post.author_id)
      else
        let comment_id := input.comment_id.getD 0
        match commentsRepo.findByIdTx tx comment_id with
        | none => .error (NotFound "Comment not found")
        | some comment =>
          match actor with
          | none => .error (TypeError "Cannot read properties of null (reading \x27id\x27)")
          | some a =>
            let tx1 := (likesRepo.removeCommentLike tx a.id comment_id).2
            .ok ((), recomputeRating tx1 comment.comment.author_id)

end likesService

/-! ## Projections used to state frame conditions -/

/-- The text columns of a post, keyed by its id: title, content and image. -/
def Post.text (p : Post) : Nat × String × String × Option String :=
  (p.id, p.title, p.content, p.image)

/-- Every column of a post except the lock flag. -/
def Post.unlockedPart (p : Post) : Post := { p with locked := false }

/-- Every column of a comment except the lock flag. -/
def Comment.unlockedPart (c : Comment) : Comment := { c with locked := false }

/-- Every column of a comment except the status. -/
def Comment.exceptStatus (c : Comment) : Comment := { c with status := Status.active }

/-- The visibility rule of the listings in the words of the specification,
as a function of the actor, the status filter, and the status and author of
a row: without an actor only active rows; for an authenticated actor who is
not an admin the rows that are active or authored by them, whatever status
filter they pass; for an admin all rows, or exactly the rows with the
requested status when a status filter is passed. -/
def specListVisibility (actor : Option Actor) (statusFilter : Option Status)
    (rowStatus : Status) (rowAuthor : Nat) : Bool :=
  match actor with
  | none => rowStatus == Status.active
  | some a =>
    match a.role with
    | Role.user => rowStatus == Status.active || rowAuthor == a.id
    | Role.admin =>
      match statusFilter with
      | none => true
      | some s => rowStatus == s

/-- The number of rows of `likes` of one type on posts authored by the user,
in the words of the specification. -/
def likesOnPostsOf (db : DB) (user_id : Nat) (t : LikeType) : Nat :=
  (db.likes.filter (fun l =>
    l.type == t && db.posts.any (fun p => p.author_id == user_id && l.post_id == some p.id))).length

/-- The number of rows of `likes` of one type on comments authored by the
user, in the words of the specification. -/
def likesOnCommentsOf (db : DB) (user_id : Nat) (t : LikeType) : Nat :=
  (db.likes.filter (fun l =>
    l.type == t &&
      db.comments.any (fun c => c.author_id == user_id && l.comment_id == some c.id))).length

/-- The rating formula of the specification: likes minus dislikes on the
user's posts, plus likes minus dislikes on the user's comments. -/
def specRating (db : DB) (user_id : Nat) : Int :=
  ((likesOnPostsOf db user_id LikeType.like : Int) -
      (likesOnPostsOf db user_id LikeType.dislike : Int)) +
    ((likesOnCommentsOf db user_id LikeType.like : Int) -
      (likesOnCommentsOf db user_id LikeType.dislike : Int))

/-- The string that stands for a reaction type in a request body. -/
def LikeType.toJs : LikeType → JsVal
  | LikeType.like => JsVal.str "like"
  | LikeType.dislike => JsVal.str "dislike"

/-- The target of a reaction: a post or a comment, by id. -/
inductive Target where
  | post (id : Nat)
  | comment (id : Nat)
  deriving DecidableEq, Repr

/-- The id of the target. -/
def Target.id (t : Target) : Nat :=
  match t with
  | .post id => id
  | .comment id => id

/-- The argument of `setLike` and `removeLike` that names the target. -/
def Target.input (t : Target) (type : JsVal) : likesService.LikeInput :=
  match t with
  | .post id => { type := type, post_id := some id }
  | .comment id => { type := type, comment_id := some id }

/-- The test that a row of `likes` is the reaction of the author on the
target. -/
def Target.reactionOf (t : Target) (author_id : Nat) (l : Like) : Bool :=
  match t with
  | .post id => l.author_id == author_id && l.post_id == some id
  | .comment id => l.author_id == author_id && l.comment_id == some id

/-- The author of the target, when the target exists. -/
def Target.authorIn (db : DB) (t : Target) : Option Nat :=
  match t with
  | .post id => (postsRepo.findByIdTx db id).map (fun r => r.post.author_id)
  | .comment id => (commentsRepo.findByIdTx db id).map (fun r => r.comment.author_id)

/-- The category ids paired with a post, in table order. -/
def categoriesOf (db : DB) (postId : Nat) : List Nat :=
  (db.posts_categories.filter (fun pc => pc.1 == postId)).map (fun pc => pc.2)

/-! ## A small database for concrete runs -/

/-- The locked post of the example, written by user 1. -/
def lockedPost : Post :=
  { id := 1, author_id := 1, title := "First", publish_date := 10,
    status := Status.active, locked := true, content := "one", image := none }

/-- The inactive, unlocked post of the example, written by user 2. -/
def inactivePost : Post :=
  { id := 2, author_id := 2, title := "Second", publish_date := 20,
    status := Status.inactive, locked := false, content := "two", image := none }

/-- The pagination defaults of `config/env.js`. -/
def defaultEnv : postsRepo.Env := { PAGINATION_LIMIT_DEFAULT := 10, PAGINATION_LIMIT_MAX := 100 }

/-- A folding that compares the letters `A` to `Z` as `a` to `z` and every
other character as itself. -/
def latinFolding : List (Char × Char) :=
  [('A', 'a'), ('B', 'b'), ('C', 'c'), ('D', 'd'), ('E', 'e'), ('F', 'f'), ('G', 'g'),
    ('H', 'h'), ('I', 'i'), ('J', 'j'), ('K', 'k'), ('L', 'l'), ('M', 'm'), ('N', 'n'),
    ('O', 'o'), ('P', 'p'), ('Q', 'q'), ('R', 'r'), ('S', 's'), ('T', 't'), ('U', 'u'),
    ('V', 'v'), ('W', 'w'), ('X', 'x'), ('Y', 'y'), ('Z', 'z')]

/-- Three users (the third an admin), four posts (the first locked, the
second inactive, the fourth inactive and locked), two categories, two
comments and two likes. -/
def exampleDB : DB :=
  { users :=
      [ { id := 1, login := "ann", email := "ann@usof.test", password_hash := "h1",
          full_name := "Ann", role := Role.user },
        { id := 2, login := "bob", email := "bob@usof.test", password_hash := "h2",
          full_name := "Bob", role := Role.user },
        { id := 3, login := "root", email := "root@usof.test", password_hash := "h3",
          full_name := "Root", role := Role.admin } ]
    categories :=
      [ { id := 1, title := "js", description := "" },
        { id := 2, title := "sql", description := "" } ]
    posts :=
      [ lockedPost,
        inactivePost,
        { id := 3, author_id := 1, title := "Third", publish_date := 30,
          status := Status.active, locked := false, content := "three", image := some "uploads/a.png" },
        { id := 4, author_id := 2, title := "Fourth", publish_date := 40,
          status := Status.inactive, locked := true, content := "four", image := none } ]
    posts_categories := [(1, 1), (3, 1), (3, 2)]
    comments :=
      [ { id := 1, post_id := 1, author_id := 2, publish_date := 11, content := "hi",
          status := Status.active, locked := false },
        { id := 2, post_id := 3, author_id := 2, publish_date := 31, content := "yo",
          status := Status.inactive, locked := false } ]
    likes :=
      [ { id := 1, author_id := 2, post_id := some 1, comment_id := none,
          type := LikeType.like, publish_date := 12 },
        { id := 2, author_id := 1, post_id := none, comment_id := some 1,
          type := LikeType.dislike, publish_date := 13 } ]
    user_ratings := [ { user_id := 1, rating := 1, updated_at := 12 } ]
    now := 100
    collation := latinFolding }

/-- The user with id 1, author of posts 1 and 3. -/
def ann : Actor := { id := 1, role := Role.user }

/-- The user with id 2, author of post 2. -/
def bob : Actor := { id := 2, role := Role.user }

/-- The admin, author of no post. -/
def root : Actor := { id := 3, role := Role.admin }

/-! ## The rating over sequences of operations -/

/-- The scenario: A creates an active post, B sets a like on it, B removes the
like.  Returns the rating stored for A immediately before the like and the
one stored after the removal; `none` when a step fails. -/
def likeThenUnlike (db : DB) (A B : Actor) (input : postsService.CreateInput) :
    Option (Int × Int) :=
  match postsService.create db (some A) { input with status := some Status.active } with
  | (.ok (some post), db1) =>
    match likesService.setLike db1 (some B)
        ((Target.post post.post.id).input (JsVal.str "like")) with
    | (.ok (), db2) =>
      match likesService.removeLike db2 (some B)
          ((Target.post post.post.id).input JsVal.undefined) with
      | (.ok (), db3) => some (usersRepo.storedRating db1 A.id, usersRepo.storedRating db3 A.id)
      | _ => none
    | _ => none
  | _ => none

/-- The example database with the rating of every user stored: 1 for the
first user, whose post 1 has a like, and -1 for the second, whose comment 1
has a dislike. -/
def consistentDB : DB :=
  { exampleDB with
    user_ratings :=
      [ { user_id := 1, rating := 1, updated_at := 12 },
        { user_id := 2, rating := -1, updated_at := 13 } ] }

/-- One step in the life of the database: a call of a domain service with its
arguments, or the clock advancing. -/
inductive Op where
  | postCreate (actor : Option Actor) (input : postsService.CreateInput)
  | postUpdate (actor : Option Actor) (postId : Nat) (input : postsService.UpdateInput)
  | postRemove (actor : Option Actor) (postId : Nat)
  | postSetLock (actor : Option Actor) (postId : Nat) (locked : JsVal)
  | commentCreate (actor : Option Actor) (input : commentsService.CreateInput)
  | commentUpdate (actor : Option Actor) (commentId : Nat) (input : commentsService.UpdateInput)
  | commentRemove (actor : Option Actor) (commentId : Nat)
  | commentSetLock (actor : Option Actor) (commentId : Nat) (locked : JsVal)
  | setLike (actor : Option Actor) (input : likesService.LikeInput)
  | removeLike (actor : Option Actor) (input : likesService.LikeInput)
  | tick (now : Nat)

/-- The outcome of a step, the value a call returns forgotten, and the state
it leaves. -/
def Op.result (db : DB) : Op → Except Err Unit × DB
  | .postCreate actor input =>
    ((postsService.create db actor input).1.map (fun _ => ()),
      (postsService.create db actor input).2)
  | .postUpdate actor postId input =>
    ((postsService.update db actor postId input).1.map (fun _ => ()),
      (postsService.update db actor postId input).2)
  | .postRemove actor postId => postsService.remove db actor postId
  | .postSetLock actor postId locked =>
    ((postsService.setLock db actor postId locked).1.map (fun _ => ()),
      (postsService.setLock db actor postId locked).2)
  | .commentCreate actor input =>
    ((commentsService.create db actor input).1.map (fun _ => ()),
      (commentsService.create db actor input).2)
  | .commentUpdate actor commentId input =>
    ((commentsService.update db actor commentId input).1.map (fun _ => ()),
      (commentsService.update db actor commentId input).2)
  | .commentRemove actor commentId => commentsService.remove db actor commentId
  | .commentSetLock actor commentId locked =>
    ((commentsService.setLock db actor commentId locked).1.map (fun _ => ()),
      (commentsService.setLock db actor commentId locked).2)
  | .setLike actor input => likesService.setLike db actor input
  | .removeLike actor input => likesService.removeLike db actor input
  | .tick now => (.ok (), { db with now := now })

/-- Whether the step is the removal of a post or of a comment. -/
def Op.isRemoval : Op → Bool
  | .postRemove _ _ => true
  | .commentRemove _ _ => true
  | _ => false

/-- The state after a sequence of steps; a call that fails leaves the state
it found. -/
def run (db : DB) (ops : List Op) : DB :=
  ops.foldl (fun d op => (op.result d).2) db

/-- Whether every step of the sequence succeeds, each on the state the ones
before it left. -/
def allSucceed (db : DB) : List Op → Bool
  | [] => true
  | op :: rest => decide ((op.result db).1 = .ok ()) && allSucceed (op.result db).2 rest

/-- The keys of the rows the rating reads: posts and comments have distinct
ids, a like on a post refers to a row of `posts`, a like on a comment to a
row of `comments`, and no like has both targets. -/
def WellKeyed (db : DB) : Prop :=
  (db.posts.map (fun p => p.id)).Nodup ∧
  (db.comments.map (fun c => c.id)).Nodup ∧
  (∀ l ∈ db.likes, ∀ p ∈ l.post_id, p ∈ db.posts.map (fun q => q.id)) ∧
  (∀ l ∈ db.likes, ∀ c ∈ l.comment_id, c ∈ db.comments.map (fun q => q.id)) ∧
  (∀ l ∈ db.likes, l.post_id = none ∨ l.comment_id = none)

instance (db : DB) : Decidable (WellKeyed db) := by
  unfold WellKeyed
  infer_instance

/-- Rating consistency in the words of the specification: the rating stored
for every user is the sum over the likes on the user's posts and comments of
+1 for a like and -1 for a dislike. -/
def RatingConsistent (db : DB) : Prop :=
  ∀ u ∈ db.users, usersRepo.storedRating db u.id = specRating db u.id

instance (db : DB) : Decidable (RatingConsistent db) := by
  unfold RatingConsistent
  infer_instance

/-- The rows the rating is about are the same in two states: the ids and
authors of posts and of comments, the rows of `likes`, the rows of
`user_ratings` and the rows of `users`. -/
def SameRatingRows (db db' : DB) : Prop :=
  db'.posts.map (fun p => (p.id, p.author_id)) = db.posts.map (fun p => (p.id, p.author_id)) ∧
  db'.comments.map (fun c => (c.id, c.author_id)) =
    db.comments.map (fun c => (c.id, c.author_id)) ∧
  db'.likes = db.likes ∧ db'.user_ratings = db.user_ratings ∧ db'.users = db.users

/-- What a step keeps, from the state before to the state after: the key
conditions, the table `users`, and, with the key conditions, the agreement of
the stored and the computed rating of each user. -/
def KeepsRating (db db' : DB) : Prop :=
  db'.users = db.users ∧
  (WellKeyed db → WellKeyed db') ∧
  (WellKeyed db → ∀ u : Nat,
    usersRepo.storedRating db u = usersRepo.computeRatingForUserTx db u →
    usersRepo.storedRating db' u = usersRepo.computeRatingForUserTx db' u)

/-- Whether a row of `likes` targets exactly one of a post and a comment:
one of `post_id` and `comment_id` is not `NULL`, not both and not neither. -/
def Like.hasOneTarget (l : Like) : Bool :=
  (l.post_id.isSome && l.comment_id.isNone) || (l.post_id.isNone && l.comment_id.isSome)

/-- Whether the step is a call of `likesService`. -/
def Op.isReaction : Op → Bool
  | .setLike _ _ => true
  | .removeLike _ _ => true
  | _ => false

/-- The column `post_id` of a reaction on the target. -/
def Target.post_id : Target → Option Nat
  | .post id => some id
  | .comment _ => none

/-- The column `comment_id` of a reaction on the target. -/
def Target.comment_id : Target → Option Nat
  | .post _ => none
  | .comment id => some id

/-- The kind of the error a call ends with; `none` when it returns. -/
def outcomeKind {α : Type} (r : Except Err α) : Option ErrKind :=
  match r with
  | .ok _ => none
  | .error e => some e.kind

/-! ## errorHandler -/

namespace errorHandler

/-- Source `normalizeError(err)` on the errors of this model: an error with a
`status` keeps it, with its message (`'Error'` when the message is empty);
the errors without one (a runtime error, a statement the engine rejects for
its syntax) match none of the special cases and become 500 with the message
`'Internal Server Error'`. -/
def normalizeError (e : Err) : Nat × String :=
  match e.status with
  | some status => (status, if e.message = "" then "Error" else e.message)
  | none => (500, "Internal Server Error")

/-- The response of the handler: the status, and the field `message` that the
body carries in every mode. -/
def respond (e : Err) : Nat × String := normalizeError e

end errorHandler

/-! ## postController -/

namespace postController

/-- The test `s.toUpperCase() === 'ASC'`.  The strings `toUpperCase` maps to
`ASC` have three characters: `a` or `A`, then `s`, `S` or the long s
(U+017F), then `c` or `C`. -/
def upperIsASC (s : String) : Bool :=
  match s.data with
  | [a, b, c] =>
    (a == 'a' || a == 'A') && (b == 's' || b == 'S' || b.val == 0x17F) &&
      (c == 'c' || c == 'C')
  | _ => false

/-- Source `buildSort({ sortBy, order, fallback })`.  Each argument is `none`
when `undefined`; the empty string is falsy as well. -/
def buildSort (sortBy order fallback : Option String) : Option String :=
  let falsy : Option String → Bool := fun v => v.getD "" == ""
  if falsy sortBy && falsy fallback then none
  else if falsy sortBy then fallback
  else
    let dir := if upperIsASC (if falsy order then "DESC" else order.getD "") then "" else "-"
    some (dir ++ sortBy.getD "")

/-- The `sort` that `list` passes on: `buildSort` with
`fallback: req.query.sort ?? '-likes'`. -/
def listSort (sort sortBy order : Option String) : Option String :=
  buildSort sortBy order (some (sort.getD "-likes"))

/-- Source `list(req, res, next)` up to the call of the service: the query
strings `sort`, `sortBy` and `order` of the request, and in `rest` the other
fields the handler computes (`q`, `category`, `author_id`, `status`, the
dates, `limit` and `offset`). -/
def list (env : postsRepo.Env) (db : DB) (sort sortBy order : Option String)
    (rest : postsRepo.ListQuery) (actor : Option Actor) :
    Except Err (postsRepo.Page postsRepo.PostListRow) :=
  postsService.list env db { rest with sort := listSort sort sortBy order } actor

end postController

/-- The default ordering in the words of the specification, as the relation
of a row to a row that may follow it: net likes descending, then publish
date descending, then id descending. -/
def specDefaultOrder (a b : postsRepo.PostListRow) : Prop :=
  b.likes_net < a.likes_net ∨
    (b.likes_net = a.likes_net ∧
      (b.post.publish_date < a.post.publish_date ∨
        (b.post.publish_date = a.post.publish_date ∧ b.post.id ≤ a.post.id)))

/-- The ordering by net likes descending, then id descending. -/
def likesThenIdOrder (a b : postsRepo.PostListRow) : Prop :=
  b.likes_net < a.likes_net ∨ (b.likes_net = a.likes_net ∧ b.post.id ≤ a.post.id)

instance : DecidableRel specDefaultOrder := fun a b => by
  unfold specDefaultOrder
  infer_instance

/-- Whether a listing returned a page whose items are in the default ordering
of the specification. -/
def inDefaultOrder (r : Except Err (postsRepo.Page postsRepo.PostListRow)) : Bool :=
  match r with
  | .ok page => decide (page.items.Pairwise specDefaultOrder)
  | .error _ => false

/-- Two active posts without likes: the one with the smaller id is the more
recent. -/
def tieDB : DB :=
  { exampleDB with
    posts :=
      [ { id := 1, author_id := 1, title := "Recent", publish_date := 50,
          status := Status.active, locked := false, content := "r", image := none },
        { id := 2, author_id := 2, title := "Older", publish_date := 10,
          status := Status.active, locked := false, content := "o", image := none } ]
    posts_categories := []
    comments := []
    likes := [] }

/-! ## Statements the engine rejects -/

/-- The outcome of a statement that the engine may reject (a lost connection,
a constraint of the schema): `fault` is the error it throws, `none` when the
statement is carried out with the result `r`. -/
def attempt {α : Type} (fault : Option Err) (r : α) : Except Err α :=
  match fault with
  | some e => .error e
  | none => .ok r

namespace postsService

open postsRepo (PostRow)

/-- The errors the engine throws at the statements `update` sends after its
checks, each `none` when the statement is carried out: `updatePostTx`,
`replaceCategoriesTx`, the final `findByIdTx` and `commit`. -/
structure UpdateFaults where
  updatePost : Option Err := none
  replaceCategories : Option Err := none
  reread : Option Err := none
  commit : Option Err := none
  deriving DecidableEq, Repr

/-- Source `update(actor, postId, patch)` on an engine that may reject the
statements: the body of `update`, each `await` of a statement ending the body
with the error the engine throws. -/
def updateWithFaults (faults : UpdateFaults) (db : DB) (actor : Option Actor) (postId : Nat)
    (input : UpdateInput) : Except Err (Option PostRow) × DB :=
  transaction db fun tx =>
    let existing := postsRepo.findByIdTx tx postId
    match ensureOwnerOrAdmin actor existing, existing with
    | .error e, _ => .error e
    | .ok _, none => .error (TypeError "Cannot read properties of null (reading author_id)")
    | .ok _, some ex =>
      let isOwner : Bool := isOwnerOf actor ex.post
      let isAdmin : Bool := isAdminActor actor
      if ex.post.locked && !isAdmin then .error (Forbidden "Post is locked")
      else
        match selectFields isAdmin isOwner input with
        | .error e => .error e
        | .ok (patchDb, replaceCats) =>
          match (if !patchDb.isEmpty then
              attempt faults.updatePost (postsRepo.updatePostTx tx postId patchDb).2
            else .ok tx) with
          | .error e => .error e
          | .ok tx1 =>
            match (match replaceCats with
              | some cats =>
                attempt faults.replaceCategories (postsRepo.replaceCategoriesTx tx1 postId cats).2
              | none => .ok tx1) with
            | .error e => .error e
            | .ok tx2 =>
              match attempt faults.reread (postsRepo.findByIdTx tx2 postId) with
              | .error e => .error e
              | .ok post =>
                match attempt faults.commit () with
                | .error e => .error e
                | .ok _ => .ok (post, tx2)

end postsService

namespace likesService

/-- The errors the engine throws at the statements `setLike` sends once the
target is found, each `none` when the statement is carried out: the upsert of
the like, the two sums of `computeRatingForUserTx`, `upsertUserRatingTx` and
`commit`. -/
structure SetLikeFaults where
  upsertLike : Option Err := none
  computeRating : Option Err := none
  upsertRating : Option Err := none
  commit : Option Err := none
  deriving DecidableEq, Repr

/-- The part of `setLike` after the target is found, on an engine that may
reject the statements. -/
def writeLikeWithFaults (faults : SetLikeFaults) (tx1 : DB) (authorId : Nat) :
    Except Err (Unit × DB) :=
  match attempt faults.upsertLike tx1 with
  | .error e => .error e
  | .ok tx2 =>
    match attempt faults.computeRating (usersRepo.computeRatingForUserTx tx2 authorId) with
    | .error e => .error e
    | .ok rating =>
      match attempt faults.upsertRating (usersRepo.upsertUserRatingTx tx2 authorId rating).2 with
      | .error e => .error e
      | .ok tx3 =>
        match attempt faults.commit () with
        | .error e => .error e
        | .ok _ => .ok ((), tx3)

/-- Source `setLike(actor, { type, post_id, comment_id })` on an engine that may
reject the statements. -/
def setLikeWithFaults (faults : SetLikeFaults) (db : DB) (actor : Option Actor)
    (input : LikeInput) : Except Err Unit × DB :=
  match parseType input.type with
  | none => (.error (BadRequest "Invalid type"), db)
  | some type =>
    if badTarget input then
      (.error (BadRequest "Provide exactly one target: post_id XOR comment_id"), db)
    else
      transaction db fun tx =>
        if truthyId input.post_id then
          let post_id := input.post_id.getD 0
          match postsRepo.findByIdTx tx post_id with
          | none => .error (NotFound "Post not found")
          | some post =>
            match actor with
            | none => .error (TypeError "Cannot read properties of null (reading \x27id\x27)")
            | some a =>
              writeLikeWithFaults faults (likesRepo.upsertPostLike tx a.id post_id type).2
                post.post.author_id
        else
          let comment_id := input.comment_id.getD 0
          match commentsRepo.findByIdTx tx comment_id with
          | none => .error (NotFound "Comment not found")
          | some comment =>
            match actor with
            | none => .error (TypeError "Cannot read properties of null (reading \x27id\x27)")
            | some a =>
              writeLikeWithFaults faults (likesRepo.upsertCommentLike tx a.id comment_id type).2
                comment.comment.author_id

end likesService

/-! ## Lock flags -/

/-- The id and the lock flag of a post. -/
def Post.lockKey (p : Post) : Nat × Bool := (p.id, p.locked)

/-- The id and the lock flag of a comment. -/
def Comment.lockKey (c : Comment) : Nat × Bool := (c.id, c.locked)

/-- The lock flag of every post and comment of the second state that the
first state has is the one it has there: each pair of an id and a flag of the
second state is a pair of the first, or its id is new. -/
def LocksKept (db db' : DB) : Prop :=
  (∀ x ∈ db'.posts.map Post.lockKey,
    x ∈ db.posts.map Post.lockKey ∨ x.1 ∉ db.posts.map (fun p => p.id)) ∧
  (∀ x ∈ db'.comments.map Comment.lockKey,
    x ∈ db.comments.map Comment.lockKey ∨ x.1 ∉ db.comments.map (fun c => c.id))

/-- The actor of a step; the clock has none. -/
def Op.actor : Op → Option Actor
  | .postCreate actor _ => actor
  | .postUpdate actor _ _ => actor
  | .postRemove actor _ => actor
  | .postSetLock actor _ _ => actor
  | .commentCreate actor _ => actor
  | .commentUpdate actor _ _ => actor
  | .commentRemove actor _ => actor
  | .commentSetLock actor _ _ => actor
  | .setLike actor _ => actor
  | .removeLike actor _ => actor
  | .tick _ => none

/-- Whether the step is a call of `setLock`. -/
def Op.isSetLock : Op → Bool
  | .postSetLock _ _ _ => true
  | .commentSetLock _ _ _ => true
  | _ => false

/-! ## usersRepo and usersService: creating a user -/

namespace usersRepo

/-- Source `createUserTx(conn, { login, email, password_hash, full_name, role })`:
one `INSERT INTO users`; returns `res.insertId`, a number.  A `role` that is
`undefined` (`none`) leaves the column to its default, the role of a user; a
`full_name` that is `NULL` is the empty string of the row. -/
def createUserTx (tx : DB) (login email password_hash : String) (full_name : Option String)
    (role : Option Role) : Nat × DB :=
  let insertId := freshId (tx.users.map (fun u => u.id))
  let row : User :=
    { id := insertId
      login := login
      email := email
      password_hash := password_hash
      full_name := full_name.getD ""
      role := role.getD Role.user }
  (insertId, { tx with users := tx.users ++ [row] })

/-- Source `findByIdTx(conn, id)`: `conn.execute(sql, [id])` and `rows[0] || null`.
The id is `none` when the argument is `undefined`.  What the driver does with
an undefined bind parameter is not in the sources and is the argument
`onUndefined`: the error it throws, or `.ok ()` when it binds `NULL`, which
the comparison `u.id = NULL` holds for no row. -/
def findByIdTx (onUndefined : Except Err Unit) (tx : DB) (id : Option Nat) :
    Except Err (Option UserRow) :=
  match id with
  | some n => .ok (findById tx n)
  | none =>
    match onUndefined with
    | .error e => .error e
    | .ok _ => .ok none

end usersRepo

namespace usersService

/-- The argument `{ login, email, password, full_name, role = 'user' }` of
`createByAdmin`; `full_name` and `role` are `none` when absent. -/
structure CreateByAdminInput where
  login : String
  email : String
  password : String
  full_name : Option String := none
  role : Option Role := none
  deriving DecidableEq, Repr

/-- The record `stripSensitive` returns: the row without `password_hash`. -/
structure PublicUser where
  id : Nat
  login : String
  email : String
  full_name : String
  role : Role
  rating : Int
  deriving DecidableEq, Repr

/-- Source `stripSensitive(u)` on a row. -/
def stripSensitive (u : usersRepo.UserRow) : PublicUser :=
  { id := u.user.id, login := u.user.login, email := u.user.email,
    full_name := u.user.full_name, role := u.user.role, rating := u.rating }

/-- Source `createByAdmin({ login, email, password, full_name, role = 'user' })`.
`hash` is `bcrypt.hash` with the configured rounds.  The value `created` that
`createUserTx` returns is the number `insertId`; a number has no property
`id` and no property `insertId`, so the test `created && created.id` is falsy
and the entity is read with `findByIdTx(conn, created?.id || created?.insertId)`,
that is with an id that is `undefined`. -/
def createByAdmin (hash : String → String) (onUndefined : Except Err Unit) (db : DB)
    (input : CreateByAdminInput) : Except Err PublicUser × DB :=
  transaction db fun tx =>
    if tx.users.any (fun u => u.login == input.login) then
      .error (Conflict "Login already in use")
    else if tx.users.any (fun u => u.email == input.email) then
      .error (Conflict "Email already in use")
    else
      let password_hash := hash input.password
      let full_name : Option String :=
        match input.full_name with
        | some n => if n = "" then none else some n
        | none => none
      let tx1 :=
        (usersRepo.createUserTx tx input.login input.email password_hash full_name
          (some (input.role.getD Role.user))).2
      match usersRepo.findByIdTx onUndefined tx1 none with
      | .error e => .error e
      | .ok none => .error (Failure "Failed to create user")
      | .ok (some userEntity) => .ok (stripSensitive userEntity, tx1)

end usersService

/-! ## usersRepo: the sort builder -/

namespace usersRepo

/-- The call `s.split(',')` on the characters of a string: the pieces between
the commas, one piece more than there are commas. -/
def splitComma : List Char → List (List Char)
  | [] => [[]]
  | c :: cs =>
    if c = ',' then [] :: splitComma cs
    else
      match splitComma cs with
      | [] => [[c]]
      | p :: ps => (c :: p) :: ps

/-- The `map` of `buildOrder`. -/
def orderMap : List (String × String) :=
  [("rating", "COALESCE(ur.rating, 0)"), ("created_at", "u.created_at"),
    ("login", "u.login"), ("id", "u.id")]

/-- The piece one part of the sort string pushes, if any: `desc` is
`p.startsWith('-')`, `key` is `p.slice(1)` or `p`, and the piece is pushed
when `map[key]` is truthy. -/
def pieceOf (p : List Char) : Option postsRepo.OrderTerm :=
  let desc := p.head? == some '-'
  let key := if desc then p.drop 1 else p
  (postsRepo.lookupKey orderMap (String.mk key)).map fun col => ⟨col, desc⟩

/-- The terms of the clause `buildOrder(sort)` returns.  `sort` is `none` for
`undefined` or `null`; the empty string is falsy as well. -/
def buildOrderTerms (sort : Option String) : List postsRepo.OrderTerm :=
  let dflt : List postsRepo.OrderTerm :=
    [⟨"COALESCE(ur.rating, 0)", true⟩, ⟨"u.created_at", true⟩, ⟨"u.id", true⟩]
  match sort with
  | none => dflt
  | some s =>
    if s = "" then dflt
    else
      let parts := ((splitComma s.data).map trimChars).filter (fun p => !p.isEmpty)
      let pieces := parts.filterMap pieceOf
      (if pieces.isEmpty then [⟨"COALESCE(ur.rating, 0)", true⟩] else pieces) ++
        [⟨"u.id", true⟩]

/-- Source `buildOrder(sort)`: the pieces joined with a comma and a blank. -/
def buildOrder (sort : Option String) : String :=
  ", ".intercalate ((buildOrderTerms sort).map postsRepo.OrderTerm.sql)

end usersRepo

/-- The terms name only column expressions that are values of the map. -/
def fromWhitelist (map : List (String × String)) (terms : List postsRepo.OrderTerm) : Prop :=
  ∀ t ∈ terms, t.col ∈ map.map Prod.snd

instance (map : List (String × String)) (terms : List postsRepo.OrderTerm) :
    Decidable (fromWhitelist map terms) := by
  unfold fromWhitelist; infer_instance

/-- The column expression is a value of the map or the text of a property
inherited from `Object.prototype`. -/
def whitelistedOrInherited (map : List (String × String)) (col : String) : Prop :=
  col ∈ map.map Prod.snd ∨
    ∃ k ∈ postsRepo.objectPrototypeKeys, col = postsRepo.inheritedText k

/-- The number 2.5, in lowest terms. -/
def fiveHalves : ℚ := ⟨5, 2, by decide, by decide⟩

/-- The number `Number(value)` that `clampInt` clamps: the value when it is
finite, the default otherwise. -/
def clampedValue (n : JsNum) (dflt : ℚ) : ℚ :=
  match n with
  | .fin q => q
  | _ => dflt

/-! ## Theorems -/

/-! ### Lookup by primary key -/

theorem head?_filter_eq_find? {α : Type} (l : List α) (f : α → Bool) :
    (l.filter f).head? = l.find? f := by
  induction l with
  | nil => rfl
  | cons a t ih =>
    by_cases h : f a = true
    · simp [List.filter, List.find?, h]
    · simp only [Bool.not_eq_true] at h
      simp [List.filter, List.find?, h, ih]

theorem postsRepo_findByIdTx_eq (tx : DB) (id : Nat) :
    postsRepo.findByIdTx tx id =
      (tx.posts.find? (fun p => p.id == id)).map (postsRepo.selectRow tx) := by
  unfold postsRepo.findByIdTx
  rw [List.head?_map, head?_filter_eq_find?]

theorem postsRepo_findById_eq_findByIdTx (db : DB) (id : Nat) :
    postsRepo.findById db id = postsRepo.findByIdTx db id := rfl

/-- A post the lookup returns is a row of `posts` carrying the requested id. -/
theorem postsRepo_findByIdTx_some {tx : DB} {id : Nat} {row : postsRepo.PostRow}
    (h : postsRepo.findByIdTx tx id = some row) :
    row.post ∈ tx.posts ∧ row.post.id = id ∧ row = postsRepo.selectRow tx row.post := by
  rw [postsRepo_findByIdTx_eq] at h
  cases hf : tx.posts.find? (fun p => p.id == id) with
  | none => simp [hf] at h
  | some p =>
    simp only [hf, Option.map_some', Option.some.injEq] at h
    subst h
    refine ⟨List.mem_of_find?_eq_some hf, ?_, rfl⟩
    simpa using List.find?_some hf

/-- The lookup fails exactly when no row of `posts` carries the id. -/
theorem postsRepo_findByIdTx_none {tx : DB} {id : Nat} :
    postsRepo.findByIdTx tx id = none ↔ ∀ p ∈ tx.posts, p.id ≠ id := by
  rw [postsRepo_findByIdTx_eq]
  simp

/-- When a row of `posts` carries the id, the lookup returns such a row. -/
theorem postsRepo_findByIdTx_of_mem {tx : DB} {id : Nat}
    (h : ∃ p ∈ tx.posts, p.id = id) :
    ∃ row, postsRepo.findByIdTx tx id = some row ∧ row.post ∈ tx.posts ∧ row.post.id = id := by
  cases hf : postsRepo.findByIdTx tx id with
  | none =>
    obtain ⟨p, hp, hid⟩ := h
    exact absurd hid (postsRepo_findByIdTx_none.mp hf p hp)
  | some row =>
    exact ⟨row, rfl, (postsRepo_findByIdTx_some hf).1, (postsRepo_findByIdTx_some hf).2.1⟩

/-! ### Visibility of a single post -/

/-- C1: `postsService.findById(id, actor)`, called with the actor itself or
with the controller's `{ actor }` wrapper, returns the post exactly when the
post exists and is active, or the actor is an admin, or the actor is its
author; every other outcome, the anonymous actor on an inactive post
included, is an error of kind NotFound (never Forbidden). -/
theorem findById_returns_iff_visible (db : DB) (id : Nat) (actor : Option Actor) :
    (∀ p, postsService.findById db id (postsService.optsOfActor actor) = .ok p ↔
        (postsRepo.findById db id = some p ∧
          (p.post.status = Status.active ∨
            ∃ a, actor = some a ∧ (a.role = Role.admin ∨ a.id = p.post.author_id)))) ∧
    (∀ e, postsService.findById db id (postsService.optsOfActor actor) = .error e →
        e.kind = ErrKind.NotFound) ∧
    (∀ p, postsService.findById db id (postsService.optsWrapping actor) = .ok p ↔
        (postsRepo.findById db id = some p ∧
          (p.post.status = Status.active ∨
            ∃ a, actor = some a ∧ (a.role = Role.admin ∨ a.id = p.post.author_id)))) ∧
    (∀ e, postsService.findById db id (postsService.optsWrapping actor) = .error e →
        e.kind = ErrKind.NotFound) := by
  refine ⟨?_, ?_, ?_, ?_⟩
  all_goals
    intro x
    unfold postsService.findById
    cases hrow : postsRepo.findById db id with
    | none => simp [NotFound]; try (intro h; subst h; rfl)
    | some row =>
      rcases actor with _ | ⟨aid, role⟩
      · cases hs : row.post.status <;>
          simp [postsService.optsOfActor, postsService.optsWrapping, hs, NotFound] <;>
          (try (intro h; subst h; simp_all))
      · by_cases hown : aid = row.post.author_id <;>
          cases hs : row.post.status <;> cases role <;>
          simp [postsService.optsOfActor, postsService.optsWrapping, hs, hown, NotFound] <;>
          (try (intro h; subst h; simp_all))

/-! ### The shape of `update` and `remove` -/

theorem isAdminActor_eq_false {actor : Option Actor}
    (h : ∀ a, actor = some a → a.role ≠ Role.admin) : isAdminActor actor = false := by
  rcases actor with _ | ⟨aid, role⟩
  · rfl
  · cases role
    · rfl
    · exact absurd rfl (h _ rfl)

theorem isAdminActor_of_admin {a : Actor} (h : a.role = Role.admin) :
    isAdminActor (some a) = true := by
  simp [isAdminActor, roleOf, h]

theorem update_not_found {db : DB} {postId : Nat} (actor : Option Actor)
    (input : postsService.UpdateInput) (h : postsRepo.findByIdTx db postId = none) :
    postsService.update db actor postId input = (.error (NotFound "Post not found"), db) := by
  simp [postsService.update, transaction, postsService.ensureOwnerOrAdmin, h]

theorem update_found {db : DB} {postId : Nat} {ex : postsRepo.PostRow} (actor : Option Actor)
    (input : postsService.UpdateInput) (h : postsRepo.findByIdTx db postId = some ex) :
    postsService.update db actor postId input =
      match postsService.ensureOwnerOrAdmin actor (some ex) with
      | .error e => (.error e, db)
      | .ok _ =>
        if ex.post.locked && !isAdminActor actor then (.error (Forbidden "Post is locked"), db)
        else
          match postsService.selectFields (isAdminActor actor)
              (postsService.isOwnerOf actor ex.post) input with
          | .error e => (.error e, db)
          | .ok pr =>
            (.ok (postsRepo.findByIdTx (postsService.writeFields db postId pr.1 pr.2) postId),
              postsService.writeFields db postId pr.1 pr.2) := by
  unfold postsService.update transaction
  simp only [h]
  cases postsService.ensureOwnerOrAdmin actor (some ex) with
  | error e => rfl
  | ok u =>
    simp only []
    by_cases hl : (ex.post.locked && !isAdminActor actor) = true
    · simp [hl]
    · simp only [hl, if_false, Bool.false_eq_true]
      cases postsService.selectFields (isAdminActor actor)
          (postsService.isOwnerOf actor ex.post) input with
      | error e => rfl
      | ok pr => rfl

theorem remove_found {db : DB} {postId : Nat} {ex : postsRepo.PostRow} (actor : Option Actor)
    (h : postsRepo.findByIdTx db postId = some ex) :
    postsService.remove db actor postId =
      match postsService.ensureOwnerOrAdmin actor (some ex) with
      | .error e => (.error e, db)
      | .ok _ =>
        if ex.post.locked && !isAdminActor actor then (.error (Forbidden "Post is locked"), db)
        else (.ok (), (postsRepo.deletePostTx db postId).2) := by
  unfold postsService.remove transaction
  simp only [h]
  cases postsService.ensureOwnerOrAdmin actor (some ex) with
  | error e => rfl
  | ok u =>
    simp only []
    by_cases hl : (ex.post.locked && !isAdminActor actor) = true
    · simp [hl]
    · simp [hl]

/-- The outcome of `ensureOwnerOrAdmin` on an existing post, for a caller
that is not an admin: it passes only for the author. -/
theorem ensureOwnerOrAdmin_nonadmin {actor : Option Actor} (ex : postsRepo.PostRow)
    (h : isAdminActor actor = false) :
    postsService.ensureOwnerOrAdmin actor (some ex) =
      if postsService.isOwnerOf actor ex.post then .ok ()
      else .error (Forbidden "Only owner or admin") := by
  unfold postsService.ensureOwnerOrAdmin postsService.isOwnerOf
  rcases actor with _ | a
  · simp [h]
  · by_cases hown : ex.post.author_id = a.id <;> simp [h, hown]

theorem ensureOwnerOrAdmin_admin {actor : Option Actor} (ex : postsRepo.PostRow)
    (h : isAdminActor actor = true) :
    postsService.ensureOwnerOrAdmin actor (some ex) = .ok () := by
  simp [postsService.ensureOwnerOrAdmin, h]

/-! ### Locked posts -/

/-- C3: on an existing locked post, for an actor that is not an admin (the
owner, another user, or nobody), `postsService.update` with any patch and
`postsService.remove` both end with Forbidden and leave the whole database,
the post row and its category pairs included, as it was. -/
theorem locked_post_update_remove_forbidden (db : DB) (actor : Option Actor) (postId : Nat)
    (input : postsService.UpdateInput)
    (hex : ∃ p ∈ db.posts, p.id = postId)
    (hlocked : ∀ p ∈ db.posts, p.id = postId → p.locked = true)
    (hrole : ∀ a, actor = some a → a.role ≠ Role.admin) :
    (∃ msg, postsService.update db actor postId input = (.error (Forbidden msg), db)) ∧
    (∃ msg, postsService.remove db actor postId = (.error (Forbidden msg), db)) := by
  obtain ⟨row, hrow, hmem, hid⟩ := postsRepo_findByIdTx_of_mem hex
  have hl : row.post.locked = true := hlocked _ hmem hid
  have hadm : isAdminActor actor = false := isAdminActor_eq_false hrole
  rw [update_found actor input hrow, remove_found actor hrow,
    ensureOwnerOrAdmin_nonadmin row hadm]
  by_cases hown : postsService.isOwnerOf actor row.post = true
  · exact ⟨⟨"Post is locked", by simp [hown, hl, hadm]⟩,
      ⟨"Post is locked", by simp [hown, hl, hadm]⟩⟩
  · exact ⟨⟨"Only owner or admin", by simp [hown]⟩, ⟨"Only owner or admin", by simp [hown]⟩⟩

theorem locked_post_update_remove_forbidden_witness :
    (∃ p ∈ exampleDB.posts, p.id = 1) ∧
    (∀ p ∈ exampleDB.posts, p.id = 1 → p.locked = true) ∧
    (∃ msg, postsService.update exampleDB (some ann) 1 { title := some "x" } =
      (.error (Forbidden msg), exampleDB)) ∧
    (∃ msg, postsService.remove exampleDB (some ann) 1 = (.error (Forbidden msg), exampleDB)) :=
  ⟨by decide, by decide,
    locked_post_update_remove_forbidden exampleDB (some ann) 1 { title := some "x" }
      (by decide) (by decide) (by intro a h; cases h; decide)⟩

/-! ### What an admin who is not the author may change -/

theorem find?_map_congr {α β : Type} (k : α → β) (f : β → Bool) {l l' : List α}
    (h : l.map k = l'.map k) :
    (l.find? (f ∘ k)).map k = (l'.find? (f ∘ k)).map k := by
  rw [← List.find?_map, ← List.find?_map, h]

theorem updatePostTx_posts (tx : DB) (id : Nat) (patch : postsRepo.PostPatch) :
    (postsRepo.updatePostTx tx id patch).2.posts =
      if patch.isEmpty then tx.posts
      else tx.posts.map (fun p => if p.id == id then postsRepo.applyPatch patch p else p) := by
  unfold postsRepo.updatePostTx
  split <;> rfl

theorem attachCategoriesTx_posts (tx : DB) (id : Nat) (cats : List Nat) :
    (postsRepo.attachCategoriesTx tx id cats).2.posts = tx.posts := by
  unfold postsRepo.attachCategoriesTx
  split <;> rfl

theorem replaceCategoriesTx_posts (tx : DB) (id : Nat) (cats : List Nat) :
    (postsRepo.replaceCategoriesTx tx id cats).2.posts = tx.posts := by
  unfold postsRepo.replaceCategoriesTx
  split
  · rfl
  · rw [attachCategoriesTx_posts]

/-- A patch without title, content and image leaves the text columns of every row. -/
theorem updatePostTx_text (tx : DB) (id : Nat) (patch : postsRepo.PostPatch)
    (ht : patch.title = none) (hc : patch.content = none) (hi : patch.image = none) :
    (postsRepo.updatePostTx tx id patch).2.posts.map Post.text = tx.posts.map Post.text := by
  rw [updatePostTx_posts]
  split
  · rfl
  · rw [List.map_map]
    apply List.map_congr_left
    intro p _
    by_cases h : p.id = id <;> simp [h, Post.text, postsRepo.applyPatch, ht, hc, hi]

theorem writeFields_text (tx : DB) (id : Nat) (patch : postsRepo.PostPatch)
    (rc : Option (List Nat))
    (ht : patch.title = none) (hc : patch.content = none) (hi : patch.image = none) :
    (postsService.writeFields tx id patch rc).posts.map Post.text = tx.posts.map Post.text := by
  unfold postsService.writeFields
  cases rc with
  | none =>
    simp only []
    split
    · exact updatePostTx_text tx id patch ht hc hi
    · rfl
  | some cats =>
    simp only [replaceCategoriesTx_posts]
    split
    · exact updatePostTx_text tx id patch ht hc hi
    · rfl

theorem selectFields_admin_nonowner {input : postsService.UpdateInput}
    {pr : postsRepo.PostPatch × Option (List Nat)}
    (h : postsService.selectFields true false input = .ok pr) :
    pr = ({ status := input.status }, input.categoryIds) := by
  unfold postsService.selectFields at h
  simp only [Bool.not_false, Bool.and_self, if_true] at h
  split at h
  · cases h
  · cases h; rfl

/-- C6: when an admin who is not the author of the post calls
`postsService.update`, with any patch and whether the call returns or
throws, every row of `posts` keeps its id, title, content and image; so the
post looked up afterwards carries the title, content and image it had before
(a title, content or image in the patch is dropped). -/
theorem admin_nonowner_update_keeps_text (db : DB) (a : Actor) (postId : Nat)
    (input : postsService.UpdateInput)
    (hadmin : a.role = Role.admin)
    (hnot : ∀ p ∈ db.posts, p.id = postId → p.author_id ≠ a.id) :
    (postsService.update db (some a) postId input).2.posts.map Post.text =
        db.posts.map Post.text ∧
    (postsRepo.findByIdTx (postsService.update db (some a) postId input).2 postId).map
        (fun r => r.post.text) =
      (postsRepo.findByIdTx db postId).map (fun r => r.post.text) := by
  have key : (postsService.update db (some a) postId input).2.posts.map Post.text =
      db.posts.map Post.text := by
    have hadm : isAdminActor (some a) = true := isAdminActor_of_admin hadmin
    cases hrow : postsRepo.findByIdTx db postId with
    | none => rw [update_not_found _ _ hrow]
    | some row =>
      have hno : postsService.isOwnerOf (some a) row.post = false := by
        have := hnot _ (postsRepo_findByIdTx_some hrow).1 (postsRepo_findByIdTx_some hrow).2.1
        simp [postsService.isOwnerOf, this]
      rw [update_found _ _ hrow, ensureOwnerOrAdmin_admin row hadm, hadm, hno]
      simp only [Bool.not_true, Bool.and_false, Bool.false_eq_true, if_false]
      cases hsel : postsService.selectFields true false input with
      | error e => rfl
      | ok pr =>
        have hpr := selectFields_admin_nonowner hsel
        subst hpr
        exact writeFields_text db postId _ _ rfl rfl rfl
  refine ⟨key, ?_⟩
  rw [postsRepo_findByIdTx_eq, postsRepo_findByIdTx_eq, Option.map_map, Option.map_map]
  have h := find?_map_congr Post.text (fun t => t.1 == postId) key
  simpa [Function.comp, Post.text, postsRepo.selectRow] using h

theorem admin_nonowner_update_keeps_text_witness :
    root.role = Role.admin ∧
    (postsService.update exampleDB (some root) 1
        { title := some "x", status := some Status.inactive }).2.posts.map Post.text =
      exampleDB.posts.map Post.text ∧
    (postsRepo.findByIdTx (postsService.update exampleDB (some root) 1
        { title := some "x", status := some Status.inactive }).2 1).map
        (fun r => r.post.text) =
      (postsRepo.findByIdTx exampleDB 1).map (fun r => r.post.text) :=
  ⟨rfl, admin_nonowner_update_keeps_text exampleDB root 1
    { title := some "x", status := some Status.inactive } rfl (by decide)⟩

/-! ### Empty patches -/

/-- The owner-or-admin check passes for an admin and for the author. -/
theorem ensureOwnerOrAdmin_allowed {actor : Option Actor} (ex : postsRepo.PostRow)
    (h : isAdminActor actor = true ∨ postsService.isOwnerOf actor ex.post = true) :
    postsService.ensureOwnerOrAdmin actor (some ex) = .ok () := by
  by_cases hadm : isAdminActor actor = true
  · exact ensureOwnerOrAdmin_admin ex hadm
  · simp only [Bool.not_eq_true] at hadm
    rw [ensureOwnerOrAdmin_nonadmin ex hadm]
    rcases h with h | h
    · simp [h] at hadm
    · simp [h]

/-- C7: for an existing post the caller may modify (any admin, or the author
of an unlocked post), `postsService.update` ends with BadRequest exactly when
the patch has no field applicable to the caller: for an admin who is not the
author, `status` undefined and `categoryIds` not an array, whatever title,
content and image are; for the author, title, content, image and status all
undefined and `categoryIds` not an array.  In that case the database is
unchanged, and in every other case the call returns. -/
theorem update_badRequest_iff_no_field (db : DB) (actor : Option Actor) (postId : Nat)
    (input : postsService.UpdateInput) (ex : postsRepo.PostRow)
    (hrow : postsRepo.findByIdTx db postId = some ex)
    (hallowed : isAdminActor actor = true ∨
      (postsService.isOwnerOf actor ex.post = true ∧ ex.post.locked = false)) :
    ((∃ e, (postsService.update db actor postId input).1 = .error e ∧
          e.kind = ErrKind.BadRequest) ↔
      ((isAdminActor actor = true ∧ postsService.isOwnerOf actor ex.post = false ∧
          input.status = none ∧ input.categoryIds = none) ∨
        (postsService.isOwnerOf actor ex.post = true ∧ input.title = none ∧
          input.content = none ∧ input.image = none ∧ input.status = none ∧
          input.categoryIds = none))) ∧
    ((∃ e, (postsService.update db actor postId input).1 = .error e) →
      (postsService.update db actor postId input).2 = db) ∧
    ((∀ e, (postsService.update db actor postId input).1 = .error e →
          e.kind ≠ ErrKind.BadRequest) →
      ∃ r, (postsService.update db actor postId input).1 = .ok r) := by
  have hens : postsService.ensureOwnerOrAdmin actor (some ex) = .ok () :=
    ensureOwnerOrAdmin_allowed ex (hallowed.imp id And.left)
  have hlock : (ex.post.locked && !isAdminActor actor) = false := by
    rcases hallowed with h | ⟨_, h⟩ <;> simp [h]
  rw [update_found actor input hrow, hens]
  simp only [hlock, Bool.false_eq_true, if_false]
  have hown : isAdminActor actor = true ∨ postsService.isOwnerOf actor ex.post = true :=
    hallowed.imp id And.left
  unfold postsService.selectFields
  rcases input with ⟨title, content, status, cats, image⟩
  cases hA : isAdminActor actor <;> cases hO : postsService.isOwnerOf actor ex.post <;>
    simp only [hA, hO] at hown ⊢ <;>
    cases title <;> cases content <;> cases status <;> cases cats <;> cases image <;>
    simp [postsRepo.PostPatch.isEmpty, BadRequest] at hown ⊢

theorem update_badRequest_iff_no_field_witness :
    postsRepo.findByIdTx exampleDB 1 = some (postsRepo.selectRow exampleDB lockedPost) ∧
    (∃ e, (postsService.update exampleDB (some root) 1 { title := some "x" }).1 = .error e ∧
      e.kind = ErrKind.BadRequest) ∧
    (postsService.update exampleDB (some root) 1 { title := some "x" }).2 = exampleDB :=
  ⟨by decide,
    ((update_badRequest_iff_no_field exampleDB (some root) 1 { title := some "x" }
      (postsRepo.selectRow exampleDB lockedPost)
      (by decide) (Or.inl (by decide))).1).2 (Or.inl ⟨by decide, by decide, rfl, rfl⟩),
    by decide⟩

/-! ### Category replacement -/

theorem mem_insertIgnorePair (t : List (Nat × Nat)) (a x : Nat × Nat) :
    x ∈ postsRepo.insertIgnorePair t a ↔ x ∈ t ∨ x = a := by
  unfold postsRepo.insertIgnorePair
  split
  · constructor
    · exact Or.inl
    · rintro (h | h)
      · exact h
      · subst h; assumption
  · simp

theorem mem_foldl_insertIgnorePair (l t : List (Nat × Nat)) (x : Nat × Nat) :
    x ∈ l.foldl postsRepo.insertIgnorePair t ↔ x ∈ t ∨ x ∈ l := by
  induction l generalizing t with
  | nil => simp
  | cons a l ih =>
    rw [List.foldl_cons, ih, mem_insertIgnorePair]
    simp only [List.mem_cons]
    tauto

theorem filter_other_foldl_insertIgnorePair (postId : Nat) (cats : List Nat)
    (t : List (Nat × Nat)) :
    ((cats.map (fun cid => (postId, cid))).foldl postsRepo.insertIgnorePair t).filter
        (fun pc => !(pc.1 == postId)) =
      t.filter (fun pc => !(pc.1 == postId)) := by
  induction cats generalizing t with
  | nil => rfl
  | cons c cats ih =>
    rw [List.map_cons, List.foldl_cons, ih]
    unfold postsRepo.insertIgnorePair
    split
    · rfl
    · simp

theorem nodup_foldl_insertIgnorePair (postId : Nat) (cats : List Nat)
    (t : List (Nat × Nat))
    (h : ((t.filter (fun pc => pc.1 == postId)).map (fun pc => pc.2)).Nodup) :
    ((((cats.map (fun cid => (postId, cid))).foldl postsRepo.insertIgnorePair t).filter
        (fun pc => pc.1 == postId)).map (fun pc => pc.2)).Nodup := by
  induction cats generalizing t with
  | nil => simpa using h
  | cons c cats ih =>
    rw [List.map_cons, List.foldl_cons]
    apply ih
    unfold postsRepo.insertIgnorePair
    split
    · exact h
    · rename_i hnot
      rw [List.filter_append, List.map_append]
      simp only [List.filter_cons, beq_self_eq_true, if_true, List.filter_nil, List.map_cons,
        List.map_nil]
      refine List.Nodup.append h (List.nodup_singleton c) ?_
      intro x hx hx'
      rw [List.mem_singleton] at hx'
      subst hx'
      rw [List.mem_map] at hx
      obtain ⟨⟨p1, p2⟩, hmem, hp2⟩ := hx
      rw [List.mem_filter] at hmem
      obtain ⟨hmem, hp1⟩ := hmem
      simp only [beq_iff_eq] at hp1 hp2
      subst hp1 hp2
      exact hnot hmem

/-- After `replaceCategoriesTx(conn, postId, L)` the post is paired with
exactly the ids of `L`, once each, and the pairs of other posts are as
before. -/
theorem replaceCategoriesTx_spec (tx : DB) (postId : Nat) (L : List Nat) :
    (∀ c, (postId, c) ∈ (postsRepo.replaceCategoriesTx tx postId L).2.posts_categories ↔
      c ∈ L) ∧
    (categoriesOf (postsRepo.replaceCategoriesTx tx postId L).2 postId).Nodup ∧
    (postsRepo.replaceCategoriesTx tx postId L).2.posts_categories.filter
        (fun pc => !(pc.1 == postId)) =
      tx.posts_categories.filter (fun pc => !(pc.1 == postId)) := by
  unfold postsRepo.replaceCategoriesTx categoriesOf
  by_cases hL : L.isEmpty = true
  · have hnil : L = [] := List.isEmpty_iff.mp hL
    subst hnil
    simp [List.filter_filter]
  · simp only [hL, Bool.false_eq_true, if_false]
    unfold postsRepo.attachCategoriesTx
    simp only [hL, Bool.false_eq_true, if_false]
    refine ⟨?_, ?_, ?_⟩
    · intro c
      rw [mem_foldl_insertIgnorePair]
      simp
    · apply nodup_foldl_insertIgnorePair
      simp [List.filter_filter]
    · rw [filter_other_foldl_insertIgnorePair]
      simp [List.filter_filter]

theorem updatePostTx_posts_categories (tx : DB) (id : Nat) (patch : postsRepo.PostPatch) :
    (postsRepo.updatePostTx tx id patch).2.posts_categories = tx.posts_categories := by
  unfold postsRepo.updatePostTx
  split <;> rfl

theorem selectFields_cats {isAdmin isOwner : Bool} {input : postsService.UpdateInput}
    {pr : postsRepo.PostPatch × Option (List Nat)}
    (h : postsService.selectFields isAdmin isOwner input = .ok pr) :
    pr.2 = input.categoryIds := by
  unfold postsService.selectFields at h
  simp only [] at h
  split at h <;> split at h <;> cases h <;> rfl

theorem writeFields_some (tx : DB) (postId : Nat) (patch : postsRepo.PostPatch)
    (L : List Nat) :
    ∃ tx1 : DB, tx1.posts_categories = tx.posts_categories ∧
      postsService.writeFields tx postId patch (some L) =
        (postsRepo.replaceCategoriesTx tx1 postId L).2 := by
  unfold postsService.writeFields
  by_cases h : (!patch.isEmpty) = true
  · exact ⟨(postsRepo.updatePostTx tx postId patch).2,
      updatePostTx_posts_categories tx postId patch, by simp [h]⟩
  · exact ⟨tx, rfl, by simp [h]⟩

/-- A successful `update` leaves the database that `writeFields` produces
from the fields selected for the caller. -/
theorem update_ok_writeFields {db db' : DB} {actor : Option Actor} {postId : Nat}
    {input : postsService.UpdateInput} {r : Option postsRepo.PostRow}
    (hok : postsService.update db actor postId input = (.ok r, db')) :
    ∃ pr : postsRepo.PostPatch × Option (List Nat),
      pr.2 = input.categoryIds ∧ db' = postsService.writeFields db postId pr.1 pr.2 ∧
      r = postsRepo.findByIdTx db' postId := by
  cases hrow : postsRepo.findByIdTx db postId with
  | none =>
    rw [update_not_found actor input hrow] at hok
    cases hok
  | some ex =>
    rw [update_found actor input hrow] at hok
    cases hens : postsService.ensureOwnerOrAdmin actor (some ex) with
    | error e => rw [hens] at hok; cases hok
    | ok u =>
      rw [hens] at hok
      simp only [] at hok
      split at hok
      · cases hok
      · cases hsel : postsService.selectFields (isAdminActor actor)
            (postsService.isOwnerOf actor ex.post) input with
        | error e => rw [hsel] at hok; cases hok
        | ok pr =>
          rw [hsel] at hok
          simp only [Prod.mk.injEq, Except.ok.injEq] at hok
          exact ⟨pr, selectFields_cats hsel, hok.2.symm, by rw [← hok.1, ← hok.2]⟩

/-- C8: a successful `postsService.update` whose patch carries
`categoryIds = L`, a list of existing category ids, leaves the post paired
with exactly the ids occurring in `L`: a pair `(postId, c)` is in the join
table if and only if `c` is in `L`, each such pair occurs once (duplicates
in `L` collapse), pairs the post had before and `L` lacks are gone, `L = []`
leaves none, and the pairs of other posts are untouched.  The join table of
this model has no foreign keys, so the proof does not use that the ids
exist. -/
theorem update_replaces_categories (db db' : DB) (actor : Option Actor) (postId : Nat)
    (input : postsService.UpdateInput) (L : List Nat) (r : Option postsRepo.PostRow)
    (_hexist : ∀ c ∈ L, ∃ cat ∈ db.categories, cat.id = c)
    (hL : input.categoryIds = some L)
    (hok : postsService.update db actor postId input = (.ok r, db')) :
    (∀ c, (postId, c) ∈ db'.posts_categories ↔ c ∈ L) ∧
    (categoriesOf db' postId).Nodup ∧
    (∀ c, c ∈ categoriesOf db' postId ↔ c ∈ L) ∧
    db'.posts_categories.filter (fun pc => !(pc.1 == postId)) =
      db.posts_categories.filter (fun pc => !(pc.1 == postId)) := by
  obtain ⟨pr, hcats, hdb, _⟩ := update_ok_writeFields hok
  rw [hcats, hL] at hdb
  obtain ⟨tx1, htx1, hw⟩ := writeFields_some db postId pr.1 L
  rw [hw] at hdb
  subst hdb
  obtain ⟨h1, h2, h3⟩ := replaceCategoriesTx_spec tx1 postId L
  refine ⟨h1, h2, ?_, by rw [h3, htx1]⟩
  intro c
  rw [← h1 c]
  simp [categoriesOf]

theorem update_replaces_categories_witness :
    (∀ c ∈ [2, 2, 1], ∃ cat ∈ exampleDB.categories, cat.id = c) ∧
    postsService.update exampleDB (some ann) 3 { categoryIds := some [2, 2, 1] } =
      (.ok (postsRepo.findByIdTx exampleDB 3),
        { exampleDB with posts_categories := [(1, 1), (3, 2), (3, 1)] }) ∧
    (∀ c, (3, c) ∈ [((1 : Nat), (1 : Nat)), (3, 2), (3, 1)] ↔ c ∈ [2, 2, 1]) :=
  ⟨by decide, by decide,
    (update_replaces_categories exampleDB
      { exampleDB with posts_categories := [(1, 1), (3, 2), (3, 1)] } (some ann) 3
      { categoryIds := some [2, 2, 1] } [2, 2, 1] (postsRepo.findByIdTx exampleDB 3)
      (by decide) rfl (by decide)).1⟩

/-! ### Creating a comment -/

theorem lt_freshId {ids : List Nat} {x : Nat} (h : x ∈ ids) : x < freshId ids := by
  unfold freshId
  induction ids with
  | nil => cases h
  | cons a t ih =>
    rw [List.foldr_cons]
    rcases List.mem_cons.mp h with h | h
    · subst h
      exact Nat.lt_succ_of_le (Nat.le_max_left _ _)
    · exact Nat.lt_of_lt_of_le (ih h) (Nat.succ_le_succ (Nat.le_max_right _ _))

theorem create_not_found {db : DB} {input : commentsService.CreateInput}
    (actor : Option Actor) (h : postsRepo.findByIdTx db input.post_id = none) :
    commentsService.create db actor input = (.error (NotFound "Post not found"), db) := by
  simp [commentsService.create, transaction, h]

theorem create_found {db : DB} {input : commentsService.CreateInput}
    {post : postsRepo.PostRow} (actor : Option Actor)
    (h : postsRepo.findByIdTx db input.post_id = some post) :
    commentsService.create db actor input =
      if post.post.status ≠ Status.active then
        (.error (BadRequest "Cannot comment inactive post"), db)
      else if post.post.locked then (.error (Forbidden "Post is locked"), db)
      else
        match actor with
        | none => (.error (TypeError "Cannot read properties of null (reading \x27id\x27)"), db)
        | some a =>
          (.ok (commentsRepo.findByIdTx
              (commentsRepo.createCommentTx db input.post_id a.id input.content
                (some Status.active)).2
              (commentsRepo.createCommentTx db input.post_id a.id input.content
                (some Status.active)).1),
            (commentsRepo.createCommentTx db input.post_id a.id input.content
              (some Status.active)).2) := by
  unfold commentsService.create transaction
  simp only [h]
  by_cases hs : post.post.status = Status.active
  · by_cases hl : post.post.locked = true
    · simp [hs, hl]
    · cases actor <;> simp [hs, hl]
  · simp [hs]

/-- The comment that `createCommentTx` inserts is the one the lookup by the
returned id finds, provided its author has a row in `users`. -/
theorem commentsRepo_findByIdTx_created (tx : DB) (post_id author_id : Nat) (content : String)
    (status : Option Status) (u : User) (hu : tx.users.find? (fun u => u.id == author_id) = some u) :
    commentsRepo.findByIdTx (commentsRepo.createCommentTx tx post_id author_id content status).2
        (commentsRepo.createCommentTx tx post_id author_id content status).1 =
      some
        { comment :=
            { id := freshId (tx.comments.map (fun c => c.id))
              post_id := post_id
              author_id := author_id
              publish_date := tx.now
              content := content
              status := status.getD Status.active
              locked := defaultLocked }
          author_login := u.login
          author_name := u.full_name } := by
  have hold : tx.comments.filter (fun c => c.id == freshId (tx.comments.map (fun c => c.id))) = [] := by
    rw [List.filter_eq_nil_iff]
    intro c hc heq
    have hlt : c.id < freshId (tx.comments.map (fun c => c.id)) :=
      lt_freshId (List.mem_map.mpr ⟨c, hc, rfl⟩)
    simp only [beq_iff_eq] at heq
    omega
  unfold commentsRepo.findByIdTx commentsRepo.selectById commentsRepo.createCommentTx
  simp only [List.filter_append, hold, List.nil_append, List.filter_cons, beq_self_eq_true,
    if_true, List.filter_nil, List.flatMap_singleton, List.head?_map, head?_filter_eq_find?, hu,
    Option.map_some']

/-- C10: `commentsService.create(actor, { post_id, content })` ends with
NotFound when no post has the id, with BadRequest when the post is not
active, with Forbidden when it is active and locked, and otherwise, for an
actor whose user row exists, appends exactly one comment (fresh id, the given
post, `author_id = actor.id`, the given content, status active, unlocked),
changes nothing else and returns that comment joined with its author.  Every
error leaves the database as it was. -/
theorem create_comment_outcomes (db : DB) (actor : Option Actor)
    (input : commentsService.CreateInput) :
    ((∀ p ∈ db.posts, p.id ≠ input.post_id) →
      commentsService.create db actor input = (.error (NotFound "Post not found"), db)) ∧
    (∀ post, postsRepo.findByIdTx db input.post_id = some post →
      post.post.status ≠ Status.active →
      commentsService.create db actor input =
        (.error (BadRequest "Cannot comment inactive post"), db)) ∧
    (∀ post, postsRepo.findByIdTx db input.post_id = some post →
      post.post.status = Status.active → post.post.locked = true →
      commentsService.create db actor input = (.error (Forbidden "Post is locked"), db)) ∧
    (∀ post a u, postsRepo.findByIdTx db input.post_id = some post →
      post.post.status = Status.active → post.post.locked = false →
      actor = some a → db.users.find? (fun u => u.id == a.id) = some u →
      ∃ c : Comment,
        c.post_id = input.post_id ∧ c.author_id = a.id ∧ c.content = input.content ∧
        c.status = Status.active ∧ c.locked = false ∧ (∀ old ∈ db.comments, old.id ≠ c.id) ∧
        commentsService.create db actor input =
          (.ok (some { comment := c, author_login := u.login, author_name := u.full_name }),
            { db with comments := db.comments ++ [c] })) := by
  refine ⟨?_, ?_, ?_, ?_⟩
  · intro h
    exact create_not_found actor (postsRepo_findByIdTx_none.mpr h)
  · intro post hpost hs
    rw [create_found actor hpost]
    simp [hs]
  · intro post hpost hs hl
    rw [create_found actor hpost]
    simp [hs, hl]
  · intro post a u hpost hs hl ha hu
    subst ha
    refine ⟨{ id := freshId (db.comments.map (fun c => c.id)), post_id := input.post_id,
              author_id := a.id, publish_date := db.now, content := input.content,
              status := Status.active, locked := false }, rfl, rfl, rfl, rfl, rfl, ?_, ?_⟩
    · intro old hold heq
      have hlt : old.id < freshId (db.comments.map (fun c => c.id)) :=
        lt_freshId (List.mem_map.mpr ⟨old, hold, rfl⟩)
      simp only at heq
      omega
    · rw [create_found (some a) hpost]
      simp only [hs, hl, ne_eq, not_true_eq_false, if_false, Bool.false_eq_true]
      rw [commentsRepo_findByIdTx_created db input.post_id a.id input.content _ u hu]
      rfl

theorem create_comment_outcomes_witness :
    commentsService.create exampleDB (some ann) { post_id := 9, content := "x" } =
        (.error (NotFound "Post not found"), exampleDB) ∧
    commentsService.create exampleDB (some ann) { post_id := 2, content := "x" } =
        (.error (BadRequest "Cannot comment inactive post"), exampleDB) ∧
    commentsService.create exampleDB (some ann) { post_id := 1, content := "x" } =
        (.error (Forbidden "Post is locked"), exampleDB) ∧
    (∃ c : Comment,
        c.post_id = 3 ∧ c.author_id = 1 ∧ c.content = "x" ∧
        c.status = Status.active ∧ c.locked = false ∧ (∀ old ∈ exampleDB.comments, old.id ≠ c.id) ∧
        commentsService.create exampleDB (some ann) { post_id := 3, content := "x" } =
          (.ok (some { comment := c, author_login := "ann", author_name := "Ann" }),
            { exampleDB with comments := exampleDB.comments ++ [c] })) :=
  ⟨(create_comment_outcomes exampleDB (some ann) { post_id := 9, content := "x" }).1
      (by decide),
    (create_comment_outcomes exampleDB (some ann) { post_id := 2, content := "x" }).2.1
      _ rfl (by decide),
    (create_comment_outcomes exampleDB (some ann) { post_id := 1, content := "x" }).2.2.1
      _ rfl (by decide) (by decide),
    (create_comment_outcomes exampleDB (some ann) { post_id := 3, content := "x" }).2.2.2
      _ ann _ rfl (by decide) (by decide) rfl rfl⟩

/-! ### Comments on locked posts -/

/-- C4, as the code has it: on an existing locked post and for an actor that
is not an admin, `commentsService.create` creates no comment; it ends with
Forbidden when the post is active, and with BadRequest when the post is not
active, because the status is tested before the lock. -/
theorem create_on_locked_post_nonadmin (db : DB) (actor : Option Actor)
    (input : commentsService.CreateInput)
    (hex : ∃ p ∈ db.posts, p.id = input.post_id)
    (hlocked : ∀ p ∈ db.posts, p.id = input.post_id → p.locked = true)
    (_hrole : ∀ a, actor = some a → a.role ≠ Role.admin) :
    ((∀ p ∈ db.posts, p.id = input.post_id → p.status = Status.active) →
      commentsService.create db actor input = (.error (Forbidden "Post is locked"), db)) ∧
    ((∀ p ∈ db.posts, p.id = input.post_id → p.status ≠ Status.active) →
      commentsService.create db actor input =
        (.error (BadRequest "Cannot comment inactive post"), db)) := by
  obtain ⟨row, hrow, hmem, hid⟩ := postsRepo_findByIdTx_of_mem hex
  have hl : row.post.locked = true := hlocked _ hmem hid
  rw [create_found actor hrow]
  constructor
  · intro hs
    simp [hs _ hmem hid, hl]
  · intro hs
    simp [hs _ hmem hid]

theorem create_on_locked_post_nonadmin_witness :
    (∃ p ∈ exampleDB.posts, p.id = 1) ∧
    (∀ p ∈ exampleDB.posts, p.id = 1 → p.locked = true) ∧
    (∀ p ∈ exampleDB.posts, p.id = 1 → p.status = Status.active) ∧
    commentsService.create exampleDB (some bob) { post_id := 1, content := "x" } =
      (.error (Forbidden "Post is locked"), exampleDB) :=
  ⟨by decide, by decide, by decide,
    (create_on_locked_post_nonadmin exampleDB (some bob) { post_id := 1, content := "x" }
      (by decide) (by decide) (by intro a h; cases h; decide)).1 (by decide)⟩

/-- C4 as stated fails: post 4 of the example is locked and inactive, user 1
is not an admin, and the call ends with BadRequest, not Forbidden. -/
theorem create_on_inactive_locked_post_not_forbidden :
    (∃ p ∈ exampleDB.posts, p.id = 4 ∧ p.locked = true) ∧
    ann.role ≠ Role.admin ∧
    commentsService.create exampleDB (some ann) { post_id := 4, content := "x" } =
      (.error (BadRequest "Cannot comment inactive post"), exampleDB) ∧
    ¬ ∃ msg, (commentsService.create exampleDB (some ann) { post_id := 4, content := "x" }).1 =
      .error (Forbidden msg) := by
  refine ⟨by decide, by decide, by decide, ?_⟩
  rintro ⟨msg, h⟩
  have h' : commentsService.create exampleDB (some ann) { post_id := 4, content := "x" } =
      (.error (BadRequest "Cannot comment inactive post"), exampleDB) := by decide
  rw [h'] at h
  simp [BadRequest, Forbidden] at h

/-- C5, as the code has it: the lock test of `commentsService.create` has no
exception for admins, so on an existing active locked post the call of an
admin ends with Forbidden and creates no comment. -/
theorem create_on_locked_post_admin (db : DB) (a : Actor)
    (input : commentsService.CreateInput)
    (_hadmin : a.role = Role.admin)
    (hex : ∃ p ∈ db.posts, p.id = input.post_id)
    (hactive : ∀ p ∈ db.posts, p.id = input.post_id → p.status = Status.active)
    (hlocked : ∀ p ∈ db.posts, p.id = input.post_id → p.locked = true) :
    commentsService.create db (some a) input = (.error (Forbidden "Post is locked"), db) := by
  obtain ⟨row, hrow, hmem, hid⟩ := postsRepo_findByIdTx_of_mem hex
  rw [create_found (some a) hrow]
  simp [hactive _ hmem hid, hlocked _ hmem hid]

theorem create_on_locked_post_admin_witness :
    root.role = Role.admin ∧
    (∃ p ∈ exampleDB.posts, p.id = 1) ∧
    commentsService.create exampleDB (some root) { post_id := 1, content := "x" } =
      (.error (Forbidden "Post is locked"), exampleDB) :=
  ⟨rfl, by decide,
    create_on_locked_post_admin exampleDB root { post_id := 1, content := "x" } rfl
      (by decide) (by decide) (by decide)⟩

/-- C5 as stated fails: post 1 of the example is active and locked, user 3
is an admin, and the call does not return a comment. -/
theorem create_on_locked_post_admin_fails :
    (∃ p ∈ exampleDB.posts, p.id = 1 ∧ p.status = Status.active ∧ p.locked = true) ∧
    root.role = Role.admin ∧
    ¬ ∃ r, (commentsService.create exampleDB (some root) { post_id := 1, content := "x" }).1 =
      .ok r := by
  refine ⟨by decide, rfl, ?_⟩
  rintro ⟨r, h⟩
  have h' : commentsService.create exampleDB (some root) { post_id := 1, content := "x" } =
      (.error (Forbidden "Post is locked"), exampleDB) := by decide
  rw [h'] at h
  cases h

/-! ### Setting the lock flag -/

theorem postsService_ensureAdmin_eq (actor : Option Actor) :
    postsService.ensureAdmin actor =
      if isAdminActor actor then .ok () else .error (Forbidden "Admin only") := by
  rcases actor with _ | ⟨aid, role⟩
  · rfl
  · cases role <;> rfl

theorem commentsService_ensureAdmin_eq (actor : Option Actor) :
    commentsService.ensureAdmin actor =
      if isAdminActor actor then .ok () else .error (Forbidden "Admin only") := by
  rcases actor with _ | ⟨aid, role⟩
  · rfl
  · cases role <;> rfl

/-- The lookup of a post after `setPostLockTx` on its id: the row found
before, with the new flag. -/
theorem postsRepo_findByIdTx_setPostLockTx (tx : DB) (id : Nat) (b : Bool) :
    postsRepo.findByIdTx (postsRepo.setPostLockTx tx id b).2 id =
      (postsRepo.findByIdTx tx id).map
        (fun r => { r with post := { r.post with locked := b } }) := by
  rw [postsRepo_findByIdTx_eq, postsRepo_findByIdTx_eq]
  unfold postsRepo.setPostLockTx
  simp only [List.find?_map, Option.map_map]
  have hp : ((fun p : Post => p.id == id) ∘
      fun p : Post => if (p.id == id) = true then { p with locked := b } else p) =
      fun p : Post => p.id == id := by
    funext p
    by_cases h : p.id = id <;> simp [h]
  rw [hp]
  cases hf : tx.posts.find? (fun p => p.id == id) with
  | none => rfl
  | some p =>
    have hid : p.id = id := by simpa using List.find?_some hf
    simp [postsRepo.selectRow, postsRepo.commentsCount, postsRepo.likesCount, hid]

theorem commentsRepo_selectById_setCommentLockTx (tx : DB) (id : Nat) (b : Bool) :
    commentsRepo.selectById (commentsRepo.setCommentLockTx tx id b).2 id =
      (commentsRepo.selectById tx id).map
        (fun r => { r with comment := { r.comment with locked := b } }) := by
  unfold commentsRepo.selectById commentsRepo.setCommentLockTx
  simp only
  induction tx.comments with
  | nil => rfl
  | cons c t ih =>
    by_cases h : c.id = id
    · subst h
      simp only [List.map_cons, beq_iff_eq, if_true, List.filter_cons, List.flatMap_cons,
        List.map_append, List.map_map] at ih ⊢
      rw [ih]
      rfl
    · simp only [List.map_cons, beq_iff_eq, h, if_false, List.filter_cons] at ih ⊢
      rw [ih]

theorem commentsRepo_findByIdTx_none_of_missing {tx : DB} {id : Nat}
    (h : ∀ c ∈ tx.comments, c.id ≠ id) : commentsRepo.findByIdTx tx id = none := by
  unfold commentsRepo.findByIdTx commentsRepo.selectById
  have : tx.comments.filter (fun c => c.id == id) = [] := by
    rw [List.filter_eq_nil_iff]
    intro c hc
    simpa using h c hc
  rw [this]
  rfl

/-- C9: `postsService.setLock` and `commentsService.setLock` are admin-only
and write nothing but the lock flag.  For an actor that is absent or not an
admin both end with Forbidden whatever the database holds, and leave it as
it was.  For an admin and an id no row carries both end with NotFound.  For
an admin and an entity the lookup finds, the call returns that entity with
`locked` equal to the truth value of the argument and every other column as
before; in the database every row of the table keeps all its columns but
the flag, rows with the id carry the new flag, and all other tables (the
category pairs among them) are as before. -/
theorem setLock_admin_only_and_frame (db : DB) (actor : Option Actor) (id : Nat)
    (locked : JsVal) :
    (isAdminActor actor = false →
      postsService.setLock db actor id locked = (.error (Forbidden "Admin only"), db) ∧
      commentsService.setLock db actor id locked = (.error (Forbidden "Admin only"), db)) ∧
    (isAdminActor actor = true → (∀ p ∈ db.posts, p.id ≠ id) →
      postsService.setLock db actor id locked = (.error (NotFound "Post not found"), db)) ∧
    (isAdminActor actor = true → (∀ c ∈ db.comments, c.id ≠ id) →
      commentsService.setLock db actor id locked =
        (.error (NotFound "Comment not found"), db)) ∧
    (isAdminActor actor = true → ∀ ex, postsRepo.findByIdTx db id = some ex →
      (postsService.setLock db actor id locked).1 =
          .ok (some { ex with post := { ex.post with locked := locked.truthy } }) ∧
        (postsService.setLock db actor id locked).2.posts.map Post.unlockedPart =
          db.posts.map Post.unlockedPart ∧
        (∀ p ∈ (postsService.setLock db actor id locked).2.posts,
          p.id = id → p.locked = locked.truthy) ∧
        { (postsService.setLock db actor id locked).2 with posts := db.posts } = db) ∧
    (isAdminActor actor = true → ∀ ex, commentsRepo.findByIdTx db id = some ex →
      (commentsService.setLock db actor id locked).1 =
          .ok (some { ex with comment := { ex.comment with locked := locked.truthy } }) ∧
        (commentsService.setLock db actor id locked).2.comments.map Comment.unlockedPart =
          db.comments.map Comment.unlockedPart ∧
        (∀ c ∈ (commentsService.setLock db actor id locked).2.comments,
          c.id = id → c.locked = locked.truthy) ∧
        { (commentsService.setLock db actor id locked).2 with comments := db.comments } = db) := by
  refine ⟨?_, ?_, ?_, ?_, ?_⟩
  · intro h
    simp [postsService.setLock, commentsService.setLock, postsService_ensureAdmin_eq,
      commentsService_ensureAdmin_eq, h]
  · intro h hmiss
    simp [postsService.setLock, postsService_ensureAdmin_eq, h, transaction,
      postsRepo_findByIdTx_none.mpr hmiss]
  · intro h hmiss
    simp [commentsService.setLock, commentsService_ensureAdmin_eq, h, transaction,
      commentsRepo_findByIdTx_none_of_missing hmiss]
  · intro h ex hex
    have hres : postsService.setLock db actor id locked =
        (.ok (postsRepo.findByIdTx (postsRepo.setPostLockTx db id locked.truthy).2 id),
          (postsRepo.setPostLockTx db id locked.truthy).2) := by
      simp [postsService.setLock, postsService_ensureAdmin_eq, h, transaction, hex]
    rw [hres, postsRepo_findByIdTx_setPostLockTx, hex]
    refine ⟨rfl, ?_, ?_, rfl⟩
    · simp only [postsRepo.setPostLockTx, List.map_map]
      apply List.map_congr_left
      intro p _
      by_cases hp : p.id = id <;> simp [hp, Post.unlockedPart]
    · simp only [postsRepo.setPostLockTx, List.mem_map]
      rintro p ⟨q, _, rfl⟩ hp
      by_cases hq : q.id = id
      · simp [hq]
      · simp [hq] at hp
  · intro h ex hex
    have hres : commentsService.setLock db actor id locked =
        (.ok (commentsRepo.findByIdTx (commentsRepo.setCommentLockTx db id locked.truthy).2 id),
          (commentsRepo.setCommentLockTx db id locked.truthy).2) := by
      simp [commentsService.setLock, commentsService_ensureAdmin_eq, h, transaction, hex]
    have hlook : commentsRepo.findByIdTx (commentsRepo.setCommentLockTx db id locked.truthy).2 id =
        some { ex with comment := { ex.comment with locked := locked.truthy } } := by
      unfold commentsRepo.findByIdTx at hex ⊢
      rw [commentsRepo_selectById_setCommentLockTx, List.head?_map, hex]
      rfl
    rw [hres, hlook]
    refine ⟨rfl, ?_, ?_, rfl⟩
    · simp only [commentsRepo.setCommentLockTx, List.map_map]
      apply List.map_congr_left
      intro c _
      by_cases hc : c.id = id <;> simp [hc, Comment.unlockedPart]
    · simp only [commentsRepo.setCommentLockTx, List.mem_map]
      rintro c ⟨q, _, rfl⟩ hc
      by_cases hq : q.id = id
      · simp [hq]
      · simp [hq] at hc

theorem setLock_admin_only_and_frame_witness :
    postsService.setLock exampleDB (some ann) 2 (JsVal.bool true) =
      (.error (Forbidden "Admin only"), exampleDB) ∧
    commentsService.setLock exampleDB none 2 (JsVal.bool true) =
      (.error (Forbidden "Admin only"), exampleDB) ∧
    postsService.setLock exampleDB (some root) 9 (JsVal.bool true) =
      (.error (NotFound "Post not found"), exampleDB) ∧
    (postsService.setLock exampleDB (some root) 2 (JsVal.str "yes")).1 =
      .ok (some ⟨{ inactivePost with locked := true }, 0, 0, 0⟩) :=
  ⟨((setLock_admin_only_and_frame exampleDB (some ann) 2 (JsVal.bool true)).1 rfl).1,
    ((setLock_admin_only_and_frame exampleDB none 2 (JsVal.bool true)).1 rfl).2,
    (setLock_admin_only_and_frame exampleDB (some root) 9 (JsVal.bool true)).2.1 rfl
      (by decide),
    ((setLock_admin_only_and_frame exampleDB (some root) 2 (JsVal.str "yes")).2.2.2.1 rfl
      _ rfl).1⟩

/-! ### Visibility in the listing of posts -/

theorem mem_insertOrdered {α : Type} (le : α → α → Bool) (a x : α) (l : List α) :
    x ∈ postsRepo.insertOrdered le a l ↔ x = a ∨ x ∈ l := by
  induction l with
  | nil => simp [postsRepo.insertOrdered]
  | cons b t ih =>
    unfold postsRepo.insertOrdered
    split
    · simp
    · simp only [List.mem_cons, ih]
      tauto

theorem perm_insertOrdered {α : Type} (le : α → α → Bool) (a : α) (l : List α) :
    (postsRepo.insertOrdered le a l).Perm (a :: l) := by
  induction l with
  | nil => exact List.Perm.refl _
  | cons b t ih =>
    unfold postsRepo.insertOrdered
    split
    · exact List.Perm.refl _
    · exact (List.Perm.cons b ih).trans (List.Perm.swap a b t)

theorem perm_orderBy {α : Type} (le : α → α → Bool) (l : List α) :
    (postsRepo.orderBy le l).Perm l := by
  induction l with
  | nil => exact List.Perm.refl _
  | cons a t ih =>
    exact (perm_insertOrdered le a _).trans (List.Perm.cons a ih)

theorem mem_orderBy {α : Type} (le : α → α → Bool) (x : α) (l : List α) :
    x ∈ postsRepo.orderBy le l ↔ x ∈ l :=
  (perm_orderBy le l).mem_iff

/-- A selected row comes from a row of `posts` that passes the `WHERE` clause. -/
theorem mem_selectRows {db : DB} {query : postsRepo.ListQuery} {r : postsRepo.PostListRow}
    (h : r ∈ postsRepo.selectRows db query) :
    r.post ∈ db.posts ∧ postsRepo.whereClause db query r.post = true := by
  unfold postsRepo.selectRows at h
  simp only [List.mem_flatMap, List.mem_filter, List.mem_map] at h
  obtain ⟨p, ⟨hp, hw⟩, u, _, _, _, rfl⟩ := h
  exact ⟨hp, hw⟩

/-- A row of `posts` that passes the `WHERE` clause, has its author in
`users` and a row in the category join is selected. -/
theorem selectRows_of_mem {db : DB} {query : postsRepo.ListQuery} {p : Post} {u : User}
    (hp : p ∈ db.posts) (hu : u ∈ db.users) (hid : u.id = p.author_id)
    (hw : postsRepo.whereClause db query p = true) (hc : postsRepo.joinCategory db query p ≠ []) :
    ∃ r ∈ postsRepo.selectRows db query, r.post = p := by
  obtain ⟨x, hx⟩ := List.exists_mem_of_ne_nil _ hc
  refine ⟨{ post := p
            author_login := u.login
            author_name := u.full_name
            likes_count := postsRepo.likesCount db p.id LikeType.like
            dislikes_count := postsRepo.likesCount db p.id LikeType.dislike
            likes_net := (postsRepo.likesCount db p.id LikeType.like : Int) -
              (postsRepo.likesCount db p.id LikeType.dislike : Int)
            comments_count := postsRepo.commentsCount db p.id }, ?_, rfl⟩
  unfold postsRepo.selectRows
  simp only [List.mem_flatMap, List.mem_filter, List.mem_map]
  exact ⟨p, ⟨hp, hw⟩, u, ⟨hu, by simpa using hid⟩, x, hx, rfl⟩

/-- The items of a page are selected rows: a window of a rearrangement of them. -/
theorem listPosts_items {env : postsRepo.Env} {db : DB} {query : postsRepo.ListQuery}
    {page : postsRepo.Page postsRepo.PostListRow}
    (h : postsRepo.listPosts env db query = .ok page) :
    ∃ (sorted : List postsRepo.PostListRow) (off lim : Nat),
      sorted.Perm (postsRepo.selectRows db query) ∧ page.items = (sorted.drop off).take lim := by
  unfold postsRepo.listPosts at h
  simp only at h
  split at h
  · rename_i keys lim off _ _ _
    simp only [Except.ok.injEq] at h
    subst h
    exact ⟨_, off, lim, perm_orderBy _ _, rfl⟩
  · cases h

theorem sqlCount_intCast (k : ℤ) (hk : 0 ≤ k) :
    postsRepo.sqlCount (k : ℚ) = some k.toNat := by
  unfold postsRepo.sqlCount
  simp [hk]

/-- The limit and the offset `listPosts` computes are accepted by the engine
when the configured maximum is a whole number. -/
theorem clampInt_counts (n m : JsNum) (dflt : ℚ) (M : ℕ) (hM : M ≠ 0) :
    (∃ lim, postsRepo.sqlCount (postsRepo.clampInt n dflt 1 (M : ℚ)) = some lim) ∧
    (∃ off, postsRepo.sqlCount (postsRepo.clampInt m 0 0 postsRepo.MAX_SAFE_INTEGER) =
      some off) := by
  constructor
  · unfold postsRepo.clampInt
    simp only
    generalize (postsRepo.trunc (match n with | JsNum.fin q => q | _ => dflt)) = t
    have h : min (max (t : ℚ) 1) (M : ℚ) = ((min (max t 1) (M : ℤ) : ℤ) : ℚ) := by
      push_cast
      rfl
    rw [h]
    refine ⟨_, sqlCount_intCast _ ?_⟩
    have : (0 : ℤ) < M := by exact_mod_cast Nat.pos_of_ne_zero hM
    omega
  · unfold postsRepo.clampInt postsRepo.MAX_SAFE_INTEGER
    simp only
    generalize (postsRepo.trunc (match m with | JsNum.fin q => q | _ => 0)) = t
    have h : min (max (t : ℚ) 0) (9007199254740991 : ℚ) =
        ((min (max t 0) (9007199254740991 : ℤ) : ℤ) : ℚ) := by
      push_cast
      rfl
    rw [h]
    refine ⟨_, sqlCount_intCast _ ?_⟩
    omega

/-- The role-dependent clause, read off for each kind of caller. -/
theorem visibilityClause_eq (query : postsRepo.ListQuery) (p : Post) :
    postsRepo.visibilityClause query p =
      match query.actor with
      | none => p.status == Status.active
      | some a =>
        if a.role = Role.admin then
          match query.status with
          | some s => p.status == s
          | none => true
        else p.status == Status.active || p.author_id == a.id := by
  unfold postsRepo.visibilityClause
  rcases hq : query.actor with _ | ⟨aid, role⟩
  · simp [isAdminActor, roleOf]
  · cases role <;> simp [isAdminActor, roleOf]

/-- C2: whatever the filters, a status filter included, every item the post
listing returns is a row of `posts` that is active or written by the caller
when the caller is not an admin, and active when there is no caller; for an
admin every item has the status asked for when a status filter is passed.
Conversely an admin is shown posts of every status: each post that passes
the other filters (and has the status asked for, if any) is among the rows
selected, of which the items are a window in some order.  With the default
sort and a whole, positive configured maximum the listing returns. -/
theorem list_respects_visibility (env : postsRepo.Env) (db : DB)
    (query : postsRepo.ListQuery) (actor : Option Actor) :
    (∀ page, postsService.list env db query actor = .ok page → ∀ r ∈ page.items,
      r.post ∈ db.posts ∧
      (actor = none → r.post.status = Status.active) ∧
      (∀ a, actor = some a → a.role ≠ Role.admin →
        r.post.status ≠ Status.active → r.post.author_id = a.id) ∧
      (∀ a s, actor = some a → a.role = Role.admin → query.status = some s →
        r.post.status = s)) ∧
    (∀ a, actor = some a → a.role = Role.admin →
      ∀ p ∈ db.posts, ∀ u ∈ db.users, u.id = p.author_id →
        postsRepo.filterClause db query p = true → postsRepo.joinCategory db query p ≠ [] →
        (∀ s, query.status = some s → p.status = s) →
        ∃ r ∈ postsRepo.selectRows db { query with actor := actor }, r.post = p) ∧
    (∀ page, postsService.list env db query actor = .ok page →
      ∃ (sorted : List postsRepo.PostListRow) (off lim : Nat),
        sorted.Perm (postsRepo.selectRows db { query with actor := actor }) ∧
        page.items = (sorted.drop off).take lim) ∧
    (query.sort = none → (∃ M : ℕ, M ≠ 0 ∧ env.PAGINATION_LIMIT_MAX = M) →
      ∃ page, postsService.list env db query actor = .ok page) := by
  refine ⟨?_, ?_, ?_, ?_⟩
  · intro page h r hr
    obtain ⟨sorted, off, lim, hperm, hitems⟩ := listPosts_items h
    have hsel : r ∈ postsRepo.selectRows db { query with actor := actor } := by
      rw [hitems] at hr
      exact hperm.mem_iff.mp (List.mem_of_mem_drop (List.mem_of_mem_take hr))
    obtain ⟨hmem, hw⟩ := mem_selectRows hsel
    have hv : postsRepo.visibilityClause { query with actor := actor } r.post = true := by
      unfold postsRepo.whereClause at hw
      simp only [Bool.and_eq_true] at hw
      exact hw.2
    rw [visibilityClause_eq] at hv
    refine ⟨hmem, ?_, ?_, ?_⟩
    · intro ha
      subst ha
      simpa using hv
    · intro a ha hrole hst
      subst ha
      simp only [hrole, if_false, Bool.or_eq_true, beq_iff_eq] at hv
      rcases hv with hv | hv
      · exact absurd hv hst
      · exact hv
    · intro a s ha hrole hs
      subst ha
      simp only [hrole, if_true, hs] at hv
      simpa using hv
  · intro a ha hrole p hp u hu hid hf hc hs
    subst ha
    have hc' : postsRepo.joinCategory db { query with actor := some a } p ≠ [] := hc
    refine selectRows_of_mem hp hu hid ?_ hc'
    unfold postsRepo.whereClause
    rw [visibilityClause_eq]
    have hf' : postsRepo.filterClause db { query with actor := some a } p = true := hf
    simp only [hf', Bool.true_and, hrole, if_true]
    cases hq : query.status with
    | none => rfl
    | some s => simp [hs s hq]
  · intro page h
    exact listPosts_items h
  · rintro hsort ⟨M, hM, hmax⟩
    unfold postsService.list postsRepo.listPosts
    have hM' : (M : ℚ) ≠ 0 := by exact_mod_cast hM
    simp only [hsort, hmax, hM', if_false]
    obtain ⟨⟨lim, hlim⟩, ⟨off, hoff⟩⟩ := clampInt_counts query.limit query.offset
      (if env.PAGINATION_LIMIT_DEFAULT = 0 then 10 else env.PAGINATION_LIMIT_DEFAULT) M hM
    rw [hlim, hoff]
    exact ⟨_, rfl⟩

theorem list_respects_visibility_witness :
    (∃ page, postsService.list defaultEnv exampleDB { status := some Status.inactive }
      (some bob) = .ok page) ∧
    (∀ page, postsService.list defaultEnv exampleDB { status := some Status.inactive }
        (some bob) = .ok page →
      ∀ r ∈ page.items, r.post.status ≠ Status.active → r.post.author_id = bob.id) ∧
    (postsService.list defaultEnv exampleDB { status := some Status.inactive } (some bob)).map
        (fun page => page.items.map (fun r => (r.post.id, r.post.status))) =
      .ok [(1, Status.active), (4, Status.inactive), (3, Status.active), (2, Status.inactive)] ∧
    (postsService.list defaultEnv exampleDB { status := some Status.inactive } none).map
        (fun page => page.items.map (fun r => (r.post.id, r.post.status))) =
      .ok [(1, Status.active), (3, Status.active)] ∧
    (postsService.list defaultEnv exampleDB { q := some "\u00a0", dateTo := some 0 }
        (some root)).map (fun page => page.items.map (fun r => r.post.id)) =
      .ok [1, 4, 3, 2] ∧
    (postsService.list defaultEnv exampleDB
        { q := some " sEc\u00a0", status := some Status.inactive, dateTo := some 25 }
        (some root)).map (fun page => page.items.map (fun r => r.post.id)) = .ok [2] :=
  ⟨(list_respects_visibility defaultEnv exampleDB { status := some Status.inactive }
      (some bob)).2.2.2 rfl ⟨100, by decide, rfl⟩,
    fun page h r hr =>
      ((list_respects_visibility defaultEnv exampleDB { status := some Status.inactive }
        (some bob)).1 page h r hr).2.2.1 bob rfl (by decide),
    by decide, by decide, by decide, by decide⟩

/-! ### The shape of the comment `update` and `remove` -/

theorem comment_update_not_found {db : DB} {commentId : Nat} (actor : Option Actor)
    (input : commentsService.UpdateInput) (h : commentsRepo.findByIdTx db commentId = none) :
    commentsService.update db actor commentId input =
      (.error (NotFound "Comment not found"), db) := by
  simp [commentsService.update, transaction, commentsService.ensureOwnerOrAdmin, h]

theorem comment_update_found {db : DB} {commentId : Nat} {ex : commentsRepo.CommentRow}
    (actor : Option Actor) (input : commentsService.UpdateInput)
    (h : commentsRepo.findByIdTx db commentId = some ex) :
    commentsService.update db actor commentId input =
      match commentsService.ensureOwnerOrAdmin actor (some ex) with
      | .error e => (.error e, db)
      | .ok _ =>
        if input.content ≠ JsVal.undefined then
          (.error (Forbidden "Changing content is not allowed"), db)
        else
          match input.status with
          | none => (.error (BadRequest "Only status can be changed"), db)
          | some status =>
            if ex.comment.locked && !isAdminActor actor then
              (.error (Forbidden "Comment is locked"), db)
            else if commentsService.parentLocked (postsRepo.findByIdTx db ex.comment.post_id) &&
                !isAdminActor actor then
              (.error (Forbidden "Post is locked"), db)
            else
              (.ok (commentsRepo.findByIdTx
                  (commentsRepo.updateCommentTx db commentId { status := some status }).2
                  commentId),
                (commentsRepo.updateCommentTx db commentId { status := some status }).2) := by
  unfold commentsService.update transaction
  simp only [h]
  cases commentsService.ensureOwnerOrAdmin actor (some ex) with
  | error e => rfl
  | ok u =>
    simp only []
    by_cases hc : input.content = JsVal.undefined
    · simp only [hc, ne_eq, not_true_eq_false, if_false]
      cases input.status with
      | none => rfl
      | some status =>
        simp only []
        by_cases hl : (ex.comment.locked && !isAdminActor actor) = true
        · simp [hl]
        · simp only [hl, if_false, Bool.false_eq_true]
          by_cases hp : (commentsService.parentLocked
              (postsRepo.findByIdTx db ex.comment.post_id) && !isAdminActor actor) = true
          · simp [hp]
          · simp [hp]
    · simp [hc]

theorem comment_remove_found {db : DB} {commentId : Nat} {ex : commentsRepo.CommentRow}
    (actor : Option Actor) (h : commentsRepo.findByIdTx db commentId = some ex) :
    commentsService.remove db actor commentId =
      match commentsService.ensureOwnerOrAdmin actor (some ex) with
      | .error e => (.error e, db)
      | .ok _ =>
        if ex.comment.locked && !isAdminActor actor then
          (.error (Forbidden "Comment is locked"), db)
        else if commentsService.parentLocked (postsRepo.findByIdTx db ex.comment.post_id) &&
            !isAdminActor actor then
          (.error (Forbidden "Post is locked"), db)
        else (.ok (), (commentsRepo.deleteCommentTx db commentId).2) := by
  unfold commentsService.remove transaction
  simp only [h]
  cases commentsService.ensureOwnerOrAdmin actor (some ex) with
  | error e => rfl
  | ok u =>
    simp only []
    by_cases hl : (ex.comment.locked && !isAdminActor actor) = true
    · simp [hl]
    · simp only [hl, if_false, Bool.false_eq_true]
      by_cases hp : (commentsService.parentLocked
          (postsRepo.findByIdTx db ex.comment.post_id) && !isAdminActor actor) = true
      · simp [hp]
      · simp [hp]

/-- The owner-or-admin check on a comment passes for an admin and for the
author, and for nobody else. -/
theorem comment_ensureOwnerOrAdmin_eq (actor : Option Actor) (ex : commentsRepo.CommentRow) :
    commentsService.ensureOwnerOrAdmin actor (some ex) =
      if isAdminActor actor = true ∨ (∃ a, actor = some a ∧ ex.comment.author_id = a.id) then
        .ok ()
      else .error (Forbidden "Only owner or admin") := by
  unfold commentsService.ensureOwnerOrAdmin
  by_cases hadm : isAdminActor actor = true
  · simp [hadm]
  · rcases actor with _ | a
    · simp [hadm]
    · by_cases hown : ex.comment.author_id = a.id <;> simp [hadm, hown]

/-- The lookup of a comment after an `UPDATE ... WHERE id = ?` that keeps the
id and the author of a row: the row found before, updated. -/
theorem commentsRepo_selectById_map (tx : DB) (id : Nat) (g : Comment → Comment)
    (hid : ∀ c, (g c).id = c.id) (hauth : ∀ c, (g c).author_id = c.author_id) :
    commentsRepo.selectById
        { tx with comments := tx.comments.map (fun c => if c.id == id then g c else c) } id =
      (commentsRepo.selectById tx id).map (fun r => { r with comment := g r.comment }) := by
  unfold commentsRepo.selectById
  simp only
  induction tx.comments with
  | nil => rfl
  | cons c t ih =>
    by_cases h : c.id = id
    · subst h
      simp only [List.map_cons, beq_self_eq_true, if_true, List.filter_cons, hid,
        List.flatMap_cons, List.map_append, List.map_map, hauth] at ih ⊢
      rw [ih]
      rfl
    · simp only [List.map_cons, beq_iff_eq, h, if_false, List.filter_cons] at ih ⊢
      rw [ih]

theorem updateCommentTx_status (tx : DB) (id : Nat) (status : Status) :
    (commentsRepo.updateCommentTx tx id { status := some status }).2 =
      { tx with
        comments := tx.comments.map
          (fun c => if c.id == id then { c with status := status } else c) } := by
  simp [commentsRepo.updateCommentTx, commentsRepo.applyPatch]

theorem commentsRepo_findByIdTx_updateStatus {tx : DB} {id : Nat} {ex : commentsRepo.CommentRow}
    (status : Status) (h : commentsRepo.findByIdTx tx id = some ex) :
    commentsRepo.findByIdTx (commentsRepo.updateCommentTx tx id { status := some status }).2 id =
      some { ex with comment := { ex.comment with status := status } } := by
  rw [updateCommentTx_status]
  unfold commentsRepo.findByIdTx at h ⊢
  rw [commentsRepo_selectById_map tx id (fun c => { c with status := status })
    (fun _ => rfl) (fun _ => rfl), List.head?_map, h]
  rfl

/-- A successful comment `update` wrote a status, and nothing else, through
`updateCommentTx`. -/
theorem comment_update_ok {db db' : DB} {actor : Option Actor} {commentId : Nat}
    {input : commentsService.UpdateInput} {r : Option commentsRepo.CommentRow}
    (hok : commentsService.update db actor commentId input = (.ok r, db')) :
    ∃ ex status, commentsRepo.findByIdTx db commentId = some ex ∧
      input.status = some status ∧ input.content = JsVal.undefined ∧
      db' = (commentsRepo.updateCommentTx db commentId { status := some status }).2 ∧
      r = some { ex with comment := { ex.comment with status := status } } := by
  cases hrow : commentsRepo.findByIdTx db commentId with
  | none =>
    rw [comment_update_not_found actor input hrow] at hok
    cases hok
  | some ex =>
    rw [comment_update_found actor input hrow] at hok
    cases hens : commentsService.ensureOwnerOrAdmin actor (some ex) with
    | error e => rw [hens] at hok; cases hok
    | ok u =>
      rw [hens] at hok
      simp only [] at hok
      by_cases hc : input.content = JsVal.undefined
      · simp only [hc, ne_eq, not_true_eq_false, if_false] at hok
        cases hs : input.status with
        | none => rw [hs] at hok; cases hok
        | some status =>
          rw [hs] at hok
          simp only [] at hok
          split at hok
          · cases hok
          · split at hok
            · cases hok
            · simp only [Prod.mk.injEq, Except.ok.injEq] at hok
              refine ⟨ex, status, rfl, rfl, hc, hok.2.symm, ?_⟩
              rw [← hok.1, commentsRepo_findByIdTx_updateStatus status hrow]
      · simp [hc] at hok

/-! ### Comment content is immutable -/

/-- C11: through `commentsService.update` the content of a comment cannot be
changed.  For an existing comment and a caller who is its author or an admin,
a patch that carries any content (`content !== undefined`) ends with
Forbidden and leaves the database as it was.  A successful call returns the
comment with the status of the patch and all its other columns as before; in
the database every row of `comments` keeps every column but the status
(content, author, post and lock among them) and no other table changes. -/
theorem comment_update_only_status (db : DB) (actor : Option Actor) (commentId : Nat)
    (input : commentsService.UpdateInput) :
    (∀ ex, commentsRepo.findByIdTx db commentId = some ex →
      (isAdminActor actor = true ∨ ∃ a, actor = some a ∧ ex.comment.author_id = a.id) →
      input.content ≠ JsVal.undefined →
      commentsService.update db actor commentId input =
        (.error (Forbidden "Changing content is not allowed"), db)) ∧
    (∀ r db', commentsService.update db actor commentId input = (.ok r, db') →
      db'.comments.map Comment.exceptStatus = db.comments.map Comment.exceptStatus ∧
      { db' with comments := db.comments } = db ∧
      ∃ ex status, commentsRepo.findByIdTx db commentId = some ex ∧
        input.status = some status ∧
        r = some { ex with comment := { ex.comment with status := status } }) := by
  constructor
  · intro ex hex hallowed hcontent
    rw [comment_update_found actor input hex, comment_ensureOwnerOrAdmin_eq]
    simp [hallowed, hcontent]
  · intro r db' hok
    obtain ⟨ex, status, hex, hs, _, hdb, hr⟩ := comment_update_ok hok
    rw [updateCommentTx_status] at hdb
    subst hdb
    refine ⟨?_, rfl, ex, status, hex, hs, hr⟩
    simp only [List.map_map]
    apply List.map_congr_left
    intro c _
    by_cases hc : c.id = commentId <;> simp [hc, Comment.exceptStatus]

theorem comment_update_only_status_witness :
    commentsService.update exampleDB (some bob) 1
        { status := some Status.inactive, content := JsVal.str "edited" } =
      (.error (Forbidden "Changing content is not allowed"), exampleDB) ∧
    (∃ r db', commentsService.update exampleDB (some bob) 2 { status := some Status.active } =
        (.ok r, db') ∧
      db'.comments.map Comment.exceptStatus = exampleDB.comments.map Comment.exceptStatus) :=
  ⟨(comment_update_only_status exampleDB (some bob) 1
      { status := some Status.inactive, content := JsVal.str "edited" }).1 _ rfl
      (Or.inr ⟨bob, rfl, rfl⟩) (by decide),
    _, _, rfl,
    ((comment_update_only_status exampleDB (some bob) 2 { status := some Status.active }).2
      _ _ rfl).1⟩

/-! ### The two locks on a comment -/

/-- C12: for an existing comment and its author, when the author is not an
admin, `commentsService.update` with a status and `commentsService.remove`
both end with Forbidden and leave the database as it was whenever the
comment is locked or its parent post is locked.  An admin is stopped by
neither lock: the update returns the comment with the new status and the
removal deletes the row, whatever the two flags are. -/
theorem comment_dual_lock (db : DB) (a : Actor) (commentId : Nat) (status : Status)
    (ex : commentsRepo.CommentRow)
    (hex : commentsRepo.findByIdTx db commentId = some ex) :
    (a.role ≠ Role.admin → ex.comment.author_id = a.id →
      (ex.comment.locked = true ∨
        ∃ post, postsRepo.findByIdTx db ex.comment.post_id = some post ∧
          post.post.locked = true) →
      (∃ msg, commentsService.update db (some a) commentId { status := some status } =
        (.error (Forbidden msg), db)) ∧
      (∃ msg, commentsService.remove db (some a) commentId = (.error (Forbidden msg), db))) ∧
    (a.role = Role.admin →
      commentsService.update db (some a) commentId { status := some status } =
        (.ok (some { ex with comment := { ex.comment with status := status } }),
          (commentsRepo.updateCommentTx db commentId { status := some status }).2) ∧
      commentsService.remove db (some a) commentId =
        (.ok (), (commentsRepo.deleteCommentTx db commentId).2) ∧
      ∀ c ∈ (commentsService.remove db (some a) commentId).2.comments, c.id ≠ commentId) := by
  constructor
  · intro hrole hown hlock
    have hadm : isAdminActor (some a) = false :=
      isAdminActor_eq_false (fun b hb => by cases hb; exact hrole)
    rw [comment_update_found (some a) _ hex, comment_remove_found (some a) hex,
      comment_ensureOwnerOrAdmin_eq]
    have hallowed : isAdminActor (some a) = true ∨
        ∃ b, some a = some b ∧ ex.comment.author_id = b.id := Or.inr ⟨a, rfl, hown⟩
    rw [if_pos hallowed]
    simp only [hadm, Bool.not_false, Bool.and_true, ne_eq, not_true_eq_false, if_false]
    by_cases hl : ex.comment.locked = true
    · exact ⟨⟨"Comment is locked", by simp [hl]⟩, ⟨"Comment is locked", by simp [hl]⟩⟩
    · rcases hlock with h | ⟨post, hpost, hpl⟩
      · exact absurd h hl
      · have hp : commentsService.parentLocked (postsRepo.findByIdTx db ex.comment.post_id) =
            true := by simp [commentsService.parentLocked, hpost, hpl]
        exact ⟨⟨"Post is locked", by simp [hl, hp]⟩, ⟨"Post is locked", by simp [hl, hp]⟩⟩
  · intro hrole
    have hadm : isAdminActor (some a) = true := isAdminActor_of_admin hrole
    have hupd : commentsService.update db (some a) commentId { status := some status } =
        (.ok (some { ex with comment := { ex.comment with status := status } }),
          (commentsRepo.updateCommentTx db commentId { status := some status }).2) := by
      rw [comment_update_found (some a) _ hex, comment_ensureOwnerOrAdmin_eq]
      simp [hadm, commentsRepo_findByIdTx_updateStatus status hex]
    have hrem : commentsService.remove db (some a) commentId =
        (.ok (), (commentsRepo.deleteCommentTx db commentId).2) := by
      rw [comment_remove_found (some a) hex, comment_ensureOwnerOrAdmin_eq]
      simp [hadm]
    refine ⟨hupd, hrem, ?_⟩
    rw [hrem]
    intro c hc
    simp only [commentsRepo.deleteCommentTx, List.mem_filter, Bool.not_eq_true',
      beq_eq_false_iff_ne, ne_eq] at hc
    exact hc.2

theorem comment_dual_lock_witness :
    ((∃ msg, commentsService.update exampleDB (some bob) 1 { status := some Status.inactive } =
        (.error (Forbidden msg), exampleDB)) ∧
      (∃ msg, commentsService.remove exampleDB (some bob) 1 =
        (.error (Forbidden msg), exampleDB))) ∧
    commentsService.remove exampleDB (some root) 1 =
      (.ok (), (commentsRepo.deleteCommentTx exampleDB 1).2) :=
  ⟨(comment_dual_lock exampleDB bob 1 Status.inactive _ rfl).1 (by decide) rfl
      (Or.inr ⟨_, rfl, rfl⟩),
    ((comment_dual_lock exampleDB root 1 Status.inactive _ rfl).2 rfl).2.1⟩

/-! ### Visibility of a single comment -/

theorem ensureCanSee_eq (actor : Option Actor) (c : commentsRepo.CommentRow) :
    commentsService.ensureCanSee actor (some c) =
      if c.comment.status = Status.active ∨
          ∃ a, actor = some a ∧ (a.role = Role.admin ∨ a.id = c.comment.author_id) then
        .ok ()
      else .error (NotFound "Comment not found") := by
  unfold commentsService.ensureCanSee
  by_cases hs : c.comment.status = Status.active
  · simp [hs]
  · rcases actor with _ | a
    · simp [hs]
    · by_cases hv : a.role = Role.admin ∨ c.comment.author_id = a.id
      · have hv' : a.role = Role.admin ∨ a.id = c.comment.author_id := hv.imp id Eq.symm
        simp [hs, hv, hv']
      · have hv' : ¬ (a.role = Role.admin ∨ a.id = c.comment.author_id) :=
          fun h => hv (h.imp id Eq.symm)
        simp [hs, hv, hv']

theorem comment_findById_eq (db : DB) (id : Nat) (actor : Option Actor) :
    commentsService.findById db id actor =
      match commentsRepo.findById db id with
      | none => .error (NotFound "Comment not found")
      | some c =>
        if c.comment.status = Status.active ∨
            ∃ a, actor = some a ∧ (a.role = Role.admin ∨ a.id = c.comment.author_id) then
          .ok (some c)
        else .error (NotFound "Comment not found") := by
  unfold commentsService.findById
  cases hrow : commentsRepo.findById db id with
  | none => rfl
  | some c =>
    simp only [ensureCanSee_eq]
    by_cases hv : c.comment.status = Status.active ∨
        ∃ a, actor = some a ∧ (a.role = Role.admin ∨ a.id = c.comment.author_id)
    · rw [if_pos hv, if_pos hv]
    · rw [if_neg hv, if_neg hv]

/-- C13: `commentsService.findById(id, actor)` returns the comment exactly
when the lookup finds it and it is active, or the actor is an admin, or the
actor is its author; every other outcome is an error of kind NotFound.  The
result is read from `comments` and `users` alone, so it is the same in any
two databases that differ only in other tables, the parent post's status and
lock flag included. -/
theorem comment_findById_iff_visible (db : DB) (id : Nat) (actor : Option Actor) :
    (∀ c, commentsService.findById db id actor = .ok (some c) ↔
      (commentsRepo.findById db id = some c ∧
        (c.comment.status = Status.active ∨
          ∃ a, actor = some a ∧ (a.role = Role.admin ∨ a.id = c.comment.author_id)))) ∧
    commentsService.findById db id actor ≠ .ok none ∧
    (∀ e, commentsService.findById db id actor = .error e → e.kind = ErrKind.NotFound) ∧
    (∀ db' : DB, db'.comments = db.comments → db'.users = db.users →
      commentsService.findById db' id actor = commentsService.findById db id actor) := by
  refine ⟨?_, ?_, ?_, ?_⟩
  · intro c
    rw [comment_findById_eq]
    cases hrow : commentsRepo.findById db id with
    | none => simp
    | some row =>
      simp only []
      constructor
      · intro h
        split at h
        · rename_i hv
          cases h
          exact ⟨rfl, hv⟩
        · cases h
      · rintro ⟨h1, hv⟩
        cases h1
        rw [if_pos hv]
  · rw [comment_findById_eq]
    cases hrow : commentsRepo.findById db id with
    | none => simp
    | some row =>
      simp only []
      split <;> simp
  · intro e
    rw [comment_findById_eq]
    cases hrow : commentsRepo.findById db id with
    | none => simp only []; intro h; cases h; rfl
    | some row =>
      simp only []
      split
      · intro h; cases h
      · intro h; cases h; rfl
  · intro db' hc hu
    unfold commentsService.findById commentsRepo.findById commentsRepo.selectById
    rw [hc, hu]

theorem comment_findById_iff_visible_witness :
    (∃ c, commentsService.findById exampleDB 2 (some bob) = .ok (some c)) ∧
    (∃ e, commentsService.findById exampleDB 2 (some ann) = .error e ∧
      e.kind = ErrKind.NotFound) ∧
    commentsService.findById { exampleDB with posts := [] } 2 (some bob) =
      commentsService.findById exampleDB 2 (some bob) :=
  ⟨⟨_, ((comment_findById_iff_visible exampleDB 2 (some bob)).1 _).2
      ⟨rfl, Or.inr ⟨bob, rfl, Or.inr rfl⟩⟩⟩,
    ⟨NotFound "Comment not found", by decide, rfl⟩,
    (comment_findById_iff_visible exampleDB 2 (some bob)).2.2.2 _ rfl rfl⟩

/-! ### One visibility rule for both listings -/

theorem comments_visibilityClause_eq_spec (query : commentsRepo.ListQuery) (c : Comment) :
    commentsRepo.visibilityClause query c =
      specListVisibility query.actor query.status c.status c.author_id := by
  unfold commentsRepo.visibilityClause specListVisibility
  rcases hq : query.actor with _ | ⟨aid, role⟩
  · simp [isAdminActor, roleOf]
  · cases role <;> cases query.status <;> simp [isAdminActor, roleOf]

theorem posts_visibilityClause_eq_spec (query : postsRepo.ListQuery) (p : Post) :
    postsRepo.visibilityClause query p =
      specListVisibility query.actor query.status p.status p.author_id := by
  unfold postsRepo.visibilityClause specListVisibility
  rcases hq : query.actor with _ | ⟨aid, role⟩
  · simp [isAdminActor, roleOf]
  · cases role <;> cases query.status <;> simp [isAdminActor, roleOf]

/-- A selected comment row comes from a row of `comments` of the post that
passes the role-dependent clause. -/
theorem mem_comment_selectRows {db : DB} {postId : Nat} {query : commentsRepo.ListQuery}
    {r : commentsRepo.CommentRow} (h : r ∈ commentsRepo.selectRows db postId query) :
    r.comment ∈ db.comments ∧ r.comment.post_id = postId ∧
      commentsRepo.visibilityClause query r.comment = true := by
  unfold commentsRepo.selectRows at h
  simp only [List.mem_flatMap, List.mem_filter, List.mem_map] at h
  obtain ⟨c, ⟨hc, hw⟩, u, _, rfl⟩ := h
  unfold commentsRepo.whereClause at hw
  simp only [Bool.and_eq_true, beq_iff_eq] at hw
  exact ⟨hc, hw.1, hw.2⟩

theorem comment_selectRows_of_mem {db : DB} {postId : Nat} {query : commentsRepo.ListQuery}
    {c : Comment} {u : User} (hc : c ∈ db.comments) (hp : c.post_id = postId)
    (hu : u ∈ db.users) (hid : u.id = c.author_id)
    (hv : commentsRepo.visibilityClause query c = true) :
    ∃ r ∈ commentsRepo.selectRows db postId query, r.comment = c := by
  refine ⟨{ comment := c, author_login := u.login, author_name := u.full_name }, ?_, rfl⟩
  unfold commentsRepo.selectRows
  simp only [List.mem_flatMap, List.mem_filter, List.mem_map]
  refine ⟨c, ⟨hc, ?_⟩, u, ⟨hu, by simpa using hid⟩, rfl⟩
  simp [commentsRepo.whereClause, hp, hv]

/-- The items of a page of comments are selected rows: a window of a
rearrangement of them. -/
theorem listByPost_items {db : DB} {postId : Nat} {query : commentsRepo.ListQuery}
    {page : postsRepo.Page commentsRepo.CommentRow}
    (h : commentsRepo.listByPost db postId query = .ok page) :
    ∃ (sorted : List commentsRepo.CommentRow) (off lim : Nat),
      sorted.Perm (commentsRepo.selectRows db postId query) ∧
      page.items = (sorted.drop off).take lim := by
  unfold commentsRepo.listByPost at h
  simp only at h
  split at h
  · rename_i keys lim off _ _ _
    simp only [Except.ok.injEq] at h
    subst h
    exact ⟨_, off, lim, perm_orderBy _ _, rfl⟩
  · cases h

/-- C14: the role-dependent condition of `commentsRepo.listByPost` and the one
of `postsRepo.listPosts` are the same function of the actor, the status
filter, and the status and author of the row, namely the rule of the
specification (`specListVisibility`): only active rows without an actor;
active or own rows for a user, whose status filter is ignored; all rows, or
the rows of the requested status, for an admin.  Every item either listing
returns satisfies it, and a comment of the post that satisfies it and has
its author in `users` is among the rows selected. -/
theorem listByPost_visibility_same_as_listPosts (actor : Option Actor)
    (status : Option Status) :
    (∀ (cq : commentsRepo.ListQuery) (c : Comment),
      commentsRepo.visibilityClause { cq with actor := actor, status := status } c =
        specListVisibility actor status c.status c.author_id) ∧
    (∀ (pq : postsRepo.ListQuery) (p : Post),
      postsRepo.visibilityClause { pq with actor := actor, status := status } p =
        specListVisibility actor status p.status p.author_id) ∧
    (∀ (cq : commentsRepo.ListQuery) (pq : postsRepo.ListQuery) (c : Comment) (p : Post),
      c.status = p.status → c.author_id = p.author_id →
      commentsRepo.visibilityClause { cq with actor := actor, status := status } c =
        postsRepo.visibilityClause { pq with actor := actor, status := status } p) ∧
    (∀ db postId (cq : commentsRepo.ListQuery) page,
      commentsService.listByPost db postId { cq with status := status } actor = .ok page →
      ∀ r ∈ page.items, r.comment ∈ db.comments ∧ r.comment.post_id = postId ∧
        specListVisibility actor status r.comment.status r.comment.author_id = true) ∧
    (∀ env db (pq : postsRepo.ListQuery) page,
      postsService.list env db { pq with status := status } actor = .ok page →
      ∀ r ∈ page.items,
        specListVisibility actor status r.post.status r.post.author_id = true) ∧
    (∀ db postId (cq : commentsRepo.ListQuery) (c : Comment) (u : User),
      c ∈ db.comments → c.post_id = postId → u ∈ db.users → u.id = c.author_id →
      specListVisibility actor status c.status c.author_id = true →
      ∃ r ∈ commentsRepo.selectRows db postId { cq with actor := actor, status := status },
        r.comment = c) := by
  refine ⟨?_, ?_, ?_, ?_, ?_, ?_⟩
  · intro cq c
    rw [comments_visibilityClause_eq_spec]
  · intro pq p
    rw [posts_visibilityClause_eq_spec]
  · intro cq pq c p hs ha
    rw [comments_visibilityClause_eq_spec, posts_visibilityClause_eq_spec, hs, ha]
  · intro db postId cq page h r hr
    obtain ⟨sorted, off, lim, hperm, hitems⟩ := listByPost_items h
    have hsel : r ∈ commentsRepo.selectRows db postId
        { cq with actor := actor, status := status } := by
      rw [hitems] at hr
      exact hperm.mem_iff.mp (List.mem_of_mem_drop (List.mem_of_mem_take hr))
    obtain ⟨hmem, hpost, hv⟩ := mem_comment_selectRows hsel
    rw [comments_visibilityClause_eq_spec] at hv
    exact ⟨hmem, hpost, hv⟩
  · intro env db pq page h r hr
    obtain ⟨sorted, off, lim, hperm, hitems⟩ := listPosts_items h
    have hsel : r ∈ postsRepo.selectRows db { pq with actor := actor, status := status } := by
      rw [hitems] at hr
      exact hperm.mem_iff.mp (List.mem_of_mem_drop (List.mem_of_mem_take hr))
    obtain ⟨_, hw⟩ := mem_selectRows hsel
    unfold postsRepo.whereClause at hw
    simp only [Bool.and_eq_true] at hw
    have hv := hw.2
    rw [posts_visibilityClause_eq_spec] at hv
    exact hv
  · intro db postId cq c u hc hp hu hid hv
    refine comment_selectRows_of_mem hc hp hu hid ?_
    rw [comments_visibilityClause_eq_spec]
    exact hv

theorem listByPost_visibility_same_as_listPosts_witness :
    (commentsService.listByPost exampleDB 3 { status := some Status.inactive } none).map
        (fun page => page.items.map (fun r => r.comment.id)) = .ok [] ∧
    (commentsService.listByPost exampleDB 3 { status := some Status.inactive } (some bob)).map
        (fun page => page.items.map (fun r => r.comment.id)) = .ok [2] ∧
    (∀ page, commentsService.listByPost exampleDB 3 { status := some Status.inactive }
        (some bob) = .ok page →
      ∀ r ∈ page.items,
        specListVisibility (some bob) (some Status.inactive) r.comment.status
          r.comment.author_id = true) :=
  ⟨by decide, by decide, fun page h r hr =>
    ((listByPost_visibility_same_as_listPosts (some bob) (some Status.inactive)).2.2.2.1
      exampleDB 3 {} page h r hr).2.2⟩

/-! ### Validation of a reaction -/

theorem parseType_eq_none {type : JsVal} (h1 : type ≠ JsVal.str "like")
    (h2 : type ≠ JsVal.str "dislike") : likesService.parseType type = none := by
  unfold likesService.parseType
  cases type with
  | str s =>
    have hs1 : s ≠ "like" := fun h => h1 (by rw [h])
    have hs2 : s ≠ "dislike" := fun h => h2 (by rw [h])
    simp [hs1, hs2]
  | _ => rfl

/-- C15: `likesService.setLike` and `likesService.removeLike` end with
BadRequest, whatever the database holds and leaving it as it was, whenever
both `post_id` and `comment_id` are given or neither is; an id is given when
it is a number other than 0, the value no row carries and the source treats
as absent.  `setLike` also ends with BadRequest whenever `type` is neither
`'like'` nor `'dislike'`. -/
theorem like_validation (db : DB) (actor : Option Actor) (input : likesService.LikeInput) :
    (((∃ p c, input.post_id = some p ∧ p ≠ 0 ∧ input.comment_id = some c ∧ c ≠ 0) ∨
        ((input.post_id = none ∨ input.post_id = some 0) ∧
          (input.comment_id = none ∨ input.comment_id = some 0))) →
      likesService.removeLike db actor input =
          (.error (BadRequest "Provide exactly one target: post_id XOR comment_id"), db) ∧
        ∃ msg, likesService.setLike db actor input = (.error (BadRequest msg), db)) ∧
    (input.type ≠ JsVal.str "like" → input.type ≠ JsVal.str "dislike" →
      likesService.setLike db actor input = (.error (BadRequest "Invalid type"), db)) := by
  constructor
  · intro h
    have hbad : likesService.badTarget input = true := by
      unfold likesService.badTarget likesService.truthyId
      rcases h with ⟨p, c, hp, hp0, hc, hc0⟩ | ⟨hp | hp, hc | hc⟩ <;>
        simp [hp, hc, *]
    constructor
    · simp [likesService.removeLike, hbad]
    · unfold likesService.setLike
      cases likesService.parseType input.type with
      | none => exact ⟨"Invalid type", rfl⟩
      | some t => exact ⟨"Provide exactly one target: post_id XOR comment_id", by simp [hbad]⟩
  · intro h1 h2
    simp [likesService.setLike, parseType_eq_none h1 h2]

theorem like_validation_witness :
    likesService.removeLike exampleDB (some bob) { post_id := some 1, comment_id := some 1 } =
      (.error (BadRequest "Provide exactly one target: post_id XOR comment_id"), exampleDB) ∧
    (∃ msg, likesService.setLike exampleDB (some bob) { type := JsVal.str "like" } =
      (.error (BadRequest msg), exampleDB)) ∧
    likesService.setLike exampleDB (some bob) { type := JsVal.str "love", post_id := some 1 } =
      (.error (BadRequest "Invalid type"), exampleDB) :=
  ⟨((like_validation exampleDB (some bob) { post_id := some 1, comment_id := some 1 }).1
      (Or.inl ⟨1, 1, rfl, by decide, rfl, by decide⟩)).1,
    ((like_validation exampleDB (some bob) { type := JsVal.str "like" }).1
      (Or.inr ⟨Or.inl rfl, Or.inl rfl⟩)).2,
    (like_validation exampleDB (some bob) { type := JsVal.str "love", post_id := some 1 }).2
      (by decide) (by decide)⟩

/-! ### The rating formula -/

/-- The sum of the weights of a list of reactions: +1 for a like, -1 for a
dislike. -/
theorem sum_caseWeight_leftJoin (likes : List Like) (cond : Like → Bool) :
    ((usersRepo.leftJoinLikes likes cond).map usersRepo.caseWeight).sum =
      ((likes.filter cond).map (fun l => usersRepo.caseWeight (some l))).sum := by
  unfold usersRepo.leftJoinLikes
  cases h : likes.filter cond with
  | nil => simp [usersRepo.caseWeight]
  | cons l rest => simp [List.map_map, Function.comp_def]

theorem sum_map_flatMap {α β : Type} (l : List α) (f : α → List β) (g : β → Int) :
    ((l.flatMap f).map g).sum = (l.map (fun x => ((f x).map g).sum)).sum := by
  induction l with
  | nil => rfl
  | cons a t ih => simp [List.flatMap_cons, ih]

theorem wsum_filter_or (ls : List Like) (a b : Like → Bool)
    (h : ∀ l ∈ ls, ¬ (a l = true ∧ b l = true)) :
    ((ls.filter (fun l => a l || b l)).map (fun l => usersRepo.caseWeight (some l))).sum =
      ((ls.filter a).map (fun l => usersRepo.caseWeight (some l))).sum +
        ((ls.filter b).map (fun l => usersRepo.caseWeight (some l))).sum := by
  induction ls with
  | nil => rfl
  | cons l t ih =>
    have ih' := ih (fun x hx => h x (List.mem_cons_of_mem _ hx))
    have hl := h l (List.mem_cons_self _ _)
    cases ha : a l <;> cases hb : b l <;>
      simp [List.filter_cons, ha, hb, ih'] at hl ⊢ <;> omega

/-- Summing, over ids without repetition, the weights of the reactions on
each id is summing the weights of the reactions on any of the ids. -/
theorem wsum_over_ids (ls : List Like) (tgt : Like → Option Nat) (ids : List Nat)
    (hnd : ids.Nodup) :
    (ids.map (fun i =>
        ((ls.filter (fun l => tgt l == some i)).map
          (fun l => usersRepo.caseWeight (some l))).sum)).sum =
      ((ls.filter (fun l => ids.any (fun i => tgt l == some i))).map
        (fun l => usersRepo.caseWeight (some l))).sum := by
  induction ids with
  | nil => simp
  | cons i rest ih =>
    have hnd' := List.nodup_cons.mp hnd
    rw [List.map_cons, List.sum_cons, ih hnd'.2]
    have hdisj : ∀ l ∈ ls, ¬ ((tgt l == some i) = true ∧
        (rest.any (fun j => tgt l == some j)) = true) := by
      intro l _ ⟨h1, h2⟩
      simp only [beq_iff_eq] at h1
      simp only [List.any_eq_true, beq_iff_eq] at h2
      obtain ⟨j, hj, hj'⟩ := h2
      rw [h1] at hj'
      cases hj'
      exact hnd'.1 hj
    rw [← wsum_filter_or ls _ _ hdisj]
    simp only [List.any_cons]

/-- The weights of a list of reactions sum to its likes minus its dislikes. -/
theorem wsum_eq_counts (ls : List Like) (c : Like → Bool) :
    ((ls.filter c).map (fun l => usersRepo.caseWeight (some l))).sum =
      ((ls.filter (fun l => l.type == LikeType.like && c l)).length : Int) -
        ((ls.filter (fun l => l.type == LikeType.dislike && c l)).length : Int) := by
  induction ls with
  | nil => rfl
  | cons l t ih =>
    cases hc : c l
    · simp only [List.filter_cons, hc, Bool.and_false, Bool.false_eq_true, if_false]
      exact ih
    · cases ht : l.type
      · have hw : usersRepo.caseWeight (some l) = 1 := by simp [usersRepo.caseWeight, ht]
        have h1 : (LikeType.like == LikeType.like) = true := by decide
        have h2 : (LikeType.like == LikeType.dislike) = false := by decide
        simp only [List.filter_cons, hc, ht, h1, h2, Bool.and_true, if_true, Bool.false_eq_true,
          if_false, List.map_cons, List.sum_cons, hw, ih, List.length_cons]
        push_cast
        omega
      · have hw : usersRepo.caseWeight (some l) = -1 := by simp [usersRepo.caseWeight, ht]
        have h1 : (LikeType.dislike == LikeType.like) = false := by decide
        have h2 : (LikeType.dislike == LikeType.dislike) = true := by decide
        simp only [List.filter_cons, hc, ht, h1, h2, Bool.and_true, if_true, Bool.false_eq_true,
          if_false, List.map_cons, List.sum_cons, hw, ih, List.length_cons]
        push_cast
        omega

theorem any_map_key {α : Type} (rows : List α) (key : α → Nat) (g : Nat → Bool) :
    (rows.map key).any g = rows.any (fun r => g (key r)) := by
  induction rows with
  | nil => rfl
  | cons a t ih => simp [List.any_cons, ih]

/-- The join sum over rows keyed without repetition: the likes minus the
dislikes among the reactions whose target is the key of one of the rows. -/
theorem joinSum_eq_counts {α : Type} (rows : List α) (key : α → Nat) (likes : List Like)
    (tgt : Like → Option Nat) (hnd : (rows.map key).Nodup) :
    ((rows.flatMap fun r =>
        usersRepo.leftJoinLikes likes (fun l => tgt l == some (key r))).map
        usersRepo.caseWeight).sum =
      ((likes.filter (fun l =>
          l.type == LikeType.like && rows.any (fun r => tgt l == some (key r)))).length : Int) -
        ((likes.filter (fun l =>
          l.type == LikeType.dislike && rows.any (fun r => tgt l == some (key r)))).length : Int) := by
  rw [sum_map_flatMap]
  simp only [sum_caseWeight_leftJoin]
  have h1 : (rows.map fun r =>
      ((likes.filter (fun l => tgt l == some (key r))).map
        (fun l => usersRepo.caseWeight (some l))).sum) =
      (rows.map key).map (fun i =>
        ((likes.filter (fun l => tgt l == some i)).map
          (fun l => usersRepo.caseWeight (some l))).sum) := by
    rw [List.map_map]
    rfl
  rw [h1, wsum_over_ids likes tgt (rows.map key) hnd, wsum_eq_counts]
  simp only [any_map_key]

theorem nodup_filter_map_of_nodup {α : Type} (rows : List α) (key : α → Nat) (f : α → Bool)
    (h : (rows.map key).Nodup) : ((rows.filter f).map key).Nodup :=
  List.Nodup.sublist ((List.filter_sublist rows).map key) h

theorem any_filter_eq {α : Type} (rows : List α) (f g : α → Bool) :
    (rows.filter f).any g = rows.any (fun r => f r && g r) := by
  induction rows with
  | nil => rfl
  | cons a t ih =>
    cases hf : f a <;> simp [List.filter_cons, hf, ih]

/-- With primary keys, the first query of the recompute counts the likes
minus the dislikes on the user's posts. -/
theorem ratingFromPosts_eq (db : DB) (u : Nat) (hnd : (db.posts.map (fun p => p.id)).Nodup) :
    usersRepo.ratingFromPosts db u =
      (likesOnPostsOf db u LikeType.like : Int) - (likesOnPostsOf db u LikeType.dislike : Int) := by
  unfold usersRepo.ratingFromPosts likesOnPostsOf
  rw [joinSum_eq_counts (db.posts.filter (fun p => p.author_id == u)) (fun p => p.id) db.likes
    (fun l => l.post_id) (nodup_filter_map_of_nodup _ _ _ hnd)]
  simp only [any_filter_eq]

/-- With primary keys, the second query of the recompute counts the likes
minus the dislikes on the user's comments. -/
theorem ratingFromComments_eq (db : DB) (u : Nat)
    (hnd : (db.comments.map (fun c => c.id)).Nodup) :
    usersRepo.ratingFromComments db u =
      (likesOnCommentsOf db u LikeType.like : Int) -
        (likesOnCommentsOf db u LikeType.dislike : Int) := by
  unfold usersRepo.ratingFromComments likesOnCommentsOf
  rw [joinSum_eq_counts (db.comments.filter (fun c => c.author_id == u)) (fun c => c.id)
    db.likes (fun l => l.comment_id) (nodup_filter_map_of_nodup _ _ _ hnd)]
  simp only [any_filter_eq]

/-- C19: in a database whose posts and comments have distinct ids (their
primary keys), `usersRepo.computeRatingForUserTx` returns the number of like
rows minus the number of dislike rows on posts authored by the user, plus
the same difference on comments authored by the user.  It is 0 for a user
with no posts and no comments, it does not read `user_ratings` (any
previously stored rating gives the same result), and it can be negative. -/
theorem computeRating_eq_spec (db : DB) (u : Nat)
    (hposts : (db.posts.map (fun p => p.id)).Nodup)
    (hcomments : (db.comments.map (fun c => c.id)).Nodup) :
    usersRepo.computeRatingForUserTx db u = specRating db u ∧
    ((∀ p ∈ db.posts, p.author_id ≠ u) → (∀ c ∈ db.comments, c.author_id ≠ u) →
      usersRepo.computeRatingForUserTx db u = 0) ∧
    (∀ ratings : List UserRating,
      usersRepo.computeRatingForUserTx { db with user_ratings := ratings } u =
        usersRepo.computeRatingForUserTx db u) ∧
    (∃ (db' : DB) (v : Nat), usersRepo.computeRatingForUserTx db' v < 0) := by
  refine ⟨?_, ?_, ?_, ⟨exampleDB, 2, by decide⟩⟩
  · unfold usersRepo.computeRatingForUserTx specRating
    rw [ratingFromPosts_eq db u hposts, ratingFromComments_eq db u hcomments]
  · intro hp hc
    have h1 : db.posts.filter (fun p => p.author_id == u) = [] := by
      rw [List.filter_eq_nil_iff]
      intro p hmem
      simpa using hp p hmem
    have h2 : db.comments.filter (fun c => c.author_id == u) = [] := by
      rw [List.filter_eq_nil_iff]
      intro c hmem
      simpa using hc c hmem
    simp [usersRepo.computeRatingForUserTx, usersRepo.ratingFromPosts,
      usersRepo.ratingFromComments, h1, h2]
  · intro ratings
    rfl

theorem computeRating_eq_spec_witness :
    usersRepo.computeRatingForUserTx exampleDB 2 = specRating exampleDB 2 ∧
    usersRepo.computeRatingForUserTx exampleDB 2 = -1 ∧
    usersRepo.computeRatingForUserTx exampleDB 3 = 0 ∧
    usersRepo.computeRatingForUserTx { exampleDB with user_ratings := [] } 1 =
      usersRepo.computeRatingForUserTx exampleDB 1 :=
  ⟨(computeRating_eq_spec exampleDB 2 (by decide) (by decide)).1,
    by decide,
    (computeRating_eq_spec exampleDB 3 (by decide) (by decide)).2.1 (by decide) (by decide),
    (computeRating_eq_spec exampleDB 1 (by decide) (by decide)).2.2.1 []⟩

/-! ### Setting a reaction -/

theorem parseType_toJs (t : LikeType) : likesService.parseType t.toJs = some t := by
  cases t <;> simp [likesService.parseType, LikeType.toJs]

theorem duplicatesKey_post (a pid : Nat) (t : LikeType) (id date : Nat) (l : Like) :
    likesRepo.duplicatesKey
        { id := id, author_id := a, post_id := some pid, comment_id := none, type := t,
          publish_date := date } l =
      (l.author_id == a && l.post_id == some pid) := by
  simp [likesRepo.duplicatesKey]

theorem duplicatesKey_comment (a cid : Nat) (t : LikeType) (id date : Nat) (l : Like) :
    likesRepo.duplicatesKey
        { id := id, author_id := a, post_id := none, comment_id := some cid, type := t,
          publish_date := date } l =
      (l.author_id == a && l.comment_id == some cid) := by
  simp [likesRepo.duplicatesKey]

/-- The effect of an upsert, for any test `sel` that reads neither the type
nor the date of a row and that the new row passes: the rows passing it all
carry the new type afterwards, there is one of them when there was at most
one, and the rows failing it are as before. -/
theorem upsert_rows (likes : List Like) (row : Like) (sel : Like → Bool)
    (hsel : ∀ l (t : LikeType) (d : Nat),
      sel { l with type := t, publish_date := d } = sel l)
    (hrow : sel row = true)
    (hcount : (likes.filter sel).length ≤ 1) :
    let likes' := if likes.any sel then
        likes.map (fun l =>
          if sel l then { l with type := row.type, publish_date := row.publish_date } else l)
      else likes ++ [row]
    (likes'.filter sel).length = 1 ∧
    (∀ l ∈ likes', sel l = true → l.type = row.type) ∧
    likes'.filter (fun l => !sel l) = likes.filter (fun l => !sel l) := by
  intro likes'
  by_cases hany : likes.any sel = true
  · have hl : likes' = likes.map (fun l =>
        if sel l then { l with type := row.type, publish_date := row.publish_date } else l) := by
      simp [likes', hany]
    rw [hl]
    have hkeep : ∀ l, sel (if sel l = true then
        { l with type := row.type, publish_date := row.publish_date } else l) = sel l := by
      intro l
      by_cases h : sel l = true
      · simp [h, hsel]
      · simp [h]
    have hf : ∀ ls : List Like, ((ls.map (fun l =>
        if sel l then { l with type := row.type, publish_date := row.publish_date }
        else l)).filter sel).length = (ls.filter sel).length := by
      intro ls
      induction ls with
      | nil => rfl
      | cons x t ih =>
        simp only [List.map_cons, List.filter_cons, hkeep]
        by_cases hx : sel x = true
        · simp [hx, ih]
        · simp [hx, ih]
    refine ⟨?_, ?_, ?_⟩
    · rw [hf]
      have hpos : 0 < (likes.filter sel).length := by
        rw [List.length_pos]
        intro hnil
        rw [List.any_eq_true] at hany
        obtain ⟨x, hx, hsx⟩ := hany
        have : x ∈ likes.filter sel := List.mem_filter.mpr ⟨hx, hsx⟩
        rw [hnil] at this
        cases this
      omega
    · intro l hl' hs
      rw [List.mem_map] at hl'
      obtain ⟨x, _, rfl⟩ := hl'
      by_cases hx : sel x = true
      · simp [hx]
      · rw [hkeep] at hs
        exact absurd hs hx
    · induction likes with
      | nil => rfl
      | cons x t ih =>
        simp only [List.map_cons, List.filter_cons, hkeep]
        have iht : (t.map (fun l =>
            if sel l then { l with type := row.type, publish_date := row.publish_date }
            else l)).filter (fun l => !sel l) = t.filter (fun l => !sel l) := by
          clear ih hany hcount hl likes'
          induction t with
          | nil => rfl
          | cons y t' ih' =>
            simp only [List.map_cons, List.filter_cons, hkeep]
            by_cases hy : sel y = true
            · simp [hy, ih']
            · simp [hy, ih']
        by_cases hx : sel x = true
        · simp [hx, iht]
        · simp [hx, iht]
  · have hl : likes' = likes ++ [row] := by simp [likes', hany]
    rw [hl]
    have hnone : likes.filter sel = [] := by
      rw [List.filter_eq_nil_iff]
      intro x hx hsx
      exact hany (List.any_eq_true.mpr ⟨x, hx, hsx⟩)
    refine ⟨?_, ?_, ?_⟩
    · simp [List.filter_append, hnone, hrow]
    · intro l hl' hs
      rcases List.mem_append.mp hl' with h | h
      · have : l ∈ likes.filter sel := List.mem_filter.mpr ⟨h, hs⟩
        rw [hnone] at this
        cases this
      · rw [List.mem_singleton] at h
        rw [h]
    · simp [List.filter_append, hrow]

theorem upsertPostLike_likes (tx : DB) (a pid : Nat) (t : LikeType) :
    (likesRepo.upsertPostLike tx a pid t).2.likes =
      if tx.likes.any (fun l => l.author_id == a && l.post_id == some pid) then
        tx.likes.map (fun l =>
          if (l.author_id == a && l.post_id == some pid) then
            { l with type := t, publish_date := tx.now }
          else l)
      else
        tx.likes ++
          [{ id := freshId (tx.likes.map (fun l => l.id)), author_id := a, post_id := some pid,
             comment_id := none, type := t, publish_date := tx.now }] := by
  have hk : ∀ id date, likesRepo.duplicatesKey
      { id := id, author_id := a, post_id := some pid, comment_id := none, type := t,
        publish_date := date } = fun l => (l.author_id == a && l.post_id == some pid) :=
    fun id date => funext (duplicatesKey_post a pid t id date)
  unfold likesRepo.upsertPostLike likesRepo.upsert
  simp only [hk]
  by_cases h : tx.likes.any (fun l => l.author_id == a && l.post_id == some pid) = true
  · rw [if_pos h, if_pos h]
  · rw [if_neg h, if_neg h]

theorem upsertCommentLike_likes (tx : DB) (a cid : Nat) (t : LikeType) :
    (likesRepo.upsertCommentLike tx a cid t).2.likes =
      if tx.likes.any (fun l => l.author_id == a && l.comment_id == some cid) then
        tx.likes.map (fun l =>
          if (l.author_id == a && l.comment_id == some cid) then
            { l with type := t, publish_date := tx.now }
          else l)
      else
        tx.likes ++
          [{ id := freshId (tx.likes.map (fun l => l.id)), author_id := a, post_id := none,
             comment_id := some cid, type := t, publish_date := tx.now }] := by
  have hk : ∀ id date, likesRepo.duplicatesKey
      { id := id, author_id := a, post_id := none, comment_id := some cid, type := t,
        publish_date := date } = fun l => (l.author_id == a && l.comment_id == some cid) :=
    fun id date => funext (duplicatesKey_comment a cid t id date)
  unfold likesRepo.upsertCommentLike likesRepo.upsert
  simp only [hk]
  by_cases h : tx.likes.any (fun l => l.author_id == a && l.comment_id == some cid) = true
  · rw [if_pos h, if_pos h]
  · rw [if_neg h, if_neg h]

/-- An upsert of a reaction writes the table `likes` only. -/
theorem upsert_frame (tx : DB) (a : Nat) (post comment : Option Nat) (t : LikeType) :
    { (likesRepo.upsert tx a post comment t).2 with likes := tx.likes } = tx := by
  unfold likesRepo.upsert
  simp only
  split <;> rfl

theorem upsertUserRatingTx_frame (tx : DB) (u : Nat) (r : Int) :
    { (usersRepo.upsertUserRatingTx tx u r).2 with user_ratings := tx.user_ratings } = tx := by
  unfold usersRepo.upsertUserRatingTx
  split <;> rfl

/-- The rating stored for a user right after its upsert is the value written. -/
theorem storedRating_upsert_self (tx : DB) (u : Nat) (r : Int) :
    usersRepo.storedRating (usersRepo.upsertUserRatingTx tx u r).2 u = r := by
  unfold usersRepo.storedRating usersRepo.upsertUserRatingTx
  by_cases hany : tx.user_ratings.any (fun x => x.user_id == u) = true
  · simp only [hany, if_true, List.find?_map]
    have hcomp : ((fun x : UserRating => x.user_id == u) ∘ fun x : UserRating =>
        if (x.user_id == u) = true then { x with rating := r, updated_at := tx.now } else x) =
        fun x : UserRating => x.user_id == u := by
      funext x
      by_cases h : x.user_id = u <;> simp [h]
    rw [hcomp]
    cases hf : tx.user_ratings.find? (fun x => x.user_id == u) with
    | none =>
      rw [List.find?_eq_none] at hf
      rw [List.any_eq_true] at hany
      obtain ⟨x, hx, hxu⟩ := hany
      exact absurd hxu (hf x hx)
    | some x =>
      have hx : x.user_id = u := by simpa using List.find?_some hf
      simp [hx]
  · have hnone : tx.user_ratings.find? (fun x => x.user_id == u) = none := by
      rw [List.find?_eq_none]
      intro x hx hxu
      exact hany (List.any_eq_true.mpr ⟨x, hx, hxu⟩)
    simp [hany, List.find?_append, hnone]

/-- The rating stored for another user is not touched by an upsert. -/
theorem storedRating_upsert_other (tx : DB) (u v : Nat) (r : Int) (h : v ≠ u) :
    usersRepo.storedRating (usersRepo.upsertUserRatingTx tx u r).2 v =
      usersRepo.storedRating tx v := by
  unfold usersRepo.storedRating usersRepo.upsertUserRatingTx
  by_cases hany : tx.user_ratings.any (fun x => x.user_id == u) = true
  · simp only [hany, if_true, List.find?_map]
    have hcomp : ((fun x : UserRating => x.user_id == v) ∘ fun x : UserRating =>
        if (x.user_id == u) = true then { x with rating := r, updated_at := tx.now } else x) =
        fun x : UserRating => x.user_id == v := by
      funext x
      by_cases hx : x.user_id = u <;> simp [hx]
    rw [hcomp]
    cases hf : tx.user_ratings.find? (fun x => x.user_id == v) with
    | none => rfl
    | some x =>
      have hx : x.user_id = v := by simpa using List.find?_some hf
      have hxu : ¬ x.user_id = u := fun e => h (hx.symm.trans e)
      simp [hxu]
  · have hvu : (v == u) = false := by simpa using h
    simp only [hany, Bool.false_eq_true, if_false, List.find?_append, List.find?_cons,
      List.find?_nil]
    cases hf : tx.user_ratings.find? (fun x => x.user_id == v) with
    | none =>
      have huv : (u == v) = false := by simpa using Ne.symm h
      simp [huv]
    | some x => rfl

theorem computeRating_congr {db db' : DB} (u : Nat) (hp : db'.posts = db.posts)
    (hc : db'.comments = db.comments) (hl : db'.likes = db.likes) :
    usersRepo.computeRatingForUserTx db' u = usersRepo.computeRatingForUserTx db u := by
  unfold usersRepo.computeRatingForUserTx usersRepo.ratingFromPosts usersRepo.ratingFromComments
  rw [hp, hc, hl]

theorem recomputeRating_frame (tx : DB) (u : Nat) :
    { likesService.recomputeRating tx u with user_ratings := tx.user_ratings } = tx :=
  upsertUserRatingTx_frame tx u _

theorem recomputeRating_fields (tx : DB) (u : Nat) :
    (likesService.recomputeRating tx u).posts = tx.posts ∧
    (likesService.recomputeRating tx u).comments = tx.comments ∧
    (likesService.recomputeRating tx u).likes = tx.likes ∧
    (likesService.recomputeRating tx u).users = tx.users := by
  have h := recomputeRating_frame tx u
  have h1 := congrArg DB.posts h
  have h2 := congrArg DB.comments h
  have h3 := congrArg DB.likes h
  have h4 := congrArg DB.users h
  exact ⟨h1, h2, h3, h4⟩

/-- After the recompute the rating stored for the author is the formula
evaluated on the rows of the resulting database. -/
theorem storedRating_recompute (tx : DB) (u : Nat) :
    usersRepo.storedRating (likesService.recomputeRating tx u) u =
      usersRepo.computeRatingForUserTx (likesService.recomputeRating tx u) u := by
  obtain ⟨hp, hc, hl, _⟩ := recomputeRating_fields tx u
  rw [computeRating_congr u hp hc hl]
  exact storedRating_upsert_self tx u _

theorem truthyId_none : likesService.truthyId none = false := rfl

theorem truthyId_some {n : Nat} (h : n ≠ 0) : likesService.truthyId (some n) = true := by
  simp [likesService.truthyId, h]

theorem setLike_post_eq (db : DB) (a : Actor) (pid : Nat) (ty : LikeType)
    (post : postsRepo.PostRow) (hid : pid ≠ 0) (hpost : postsRepo.findByIdTx db pid = some post) :
    likesService.setLike db (some a) ((Target.post pid).input ty.toJs) =
      (.ok (), likesService.recomputeRating (likesRepo.upsertPostLike db a.id pid ty).2
        post.post.author_id) := by
  unfold likesService.setLike
  simp only [Target.input, parseType_toJs, likesService.badTarget, truthyId_some hid,
    truthyId_none, Bool.true_and, Bool.and_self, Bool.and_false, Bool.not_true, Bool.false_and, Bool.or_false,
    Bool.false_eq_true, if_false, transaction, if_true, Option.getD_some, hpost]

theorem setLike_comment_eq (db : DB) (a : Actor) (cid : Nat) (ty : LikeType)
    (comment : commentsRepo.CommentRow) (hid : cid ≠ 0)
    (hcomment : commentsRepo.findByIdTx db cid = some comment) :
    likesService.setLike db (some a) ((Target.comment cid).input ty.toJs) =
      (.ok (), likesService.recomputeRating (likesRepo.upsertCommentLike db a.id cid ty).2
        comment.comment.author_id) := by
  unfold likesService.setLike
  simp only [Target.input, parseType_toJs, likesService.badTarget, truthyId_some hid,
    truthyId_none, Bool.true_and, Bool.and_self, Bool.and_true, Bool.not_true, Bool.and_false, Bool.not_false,
    Bool.false_and, Bool.or_false, Bool.false_eq_true, if_false, transaction,
    Option.getD_some, hcomment]

theorem removeLike_post_eq (db : DB) (a : Actor) (pid : Nat) (ty : JsVal)
    (post : postsRepo.PostRow) (hid : pid ≠ 0) (hpost : postsRepo.findByIdTx db pid = some post) :
    likesService.removeLike db (some a) ((Target.post pid).input ty) =
      (.ok (), likesService.recomputeRating (likesRepo.removePostLike db a.id pid).2
        post.post.author_id) := by
  unfold likesService.removeLike
  simp only [Target.input, likesService.badTarget, truthyId_some hid,
    truthyId_none, Bool.true_and, Bool.and_self, Bool.and_false, Bool.not_true, Bool.false_and, Bool.or_false,
    Bool.false_eq_true, if_false, transaction, if_true, Option.getD_some, hpost]

theorem removeLike_comment_eq (db : DB) (a : Actor) (cid : Nat) (ty : JsVal)
    (comment : commentsRepo.CommentRow) (hid : cid ≠ 0)
    (hcomment : commentsRepo.findByIdTx db cid = some comment) :
    likesService.removeLike db (some a) ((Target.comment cid).input ty) =
      (.ok (), likesService.recomputeRating (likesRepo.removeCommentLike db a.id cid).2
        comment.comment.author_id) := by
  unfold likesService.removeLike
  simp only [Target.input, likesService.badTarget, truthyId_some hid,
    truthyId_none, Bool.true_and, Bool.and_self, Bool.and_true, Bool.not_true, Bool.and_false, Bool.not_false,
    Bool.false_and, Bool.or_false, Bool.false_eq_true, if_false, transaction,
    Option.getD_some, hcomment]

theorem authorIn_post {db : DB} {pid au : Nat} (h : (Target.post pid).authorIn db = some au) :
    ∃ post, postsRepo.findByIdTx db pid = some post ∧ post.post.author_id = au := by
  have h1 : (postsRepo.findByIdTx db pid).map (fun r => r.post.author_id) = some au := h
  cases hp : postsRepo.findByIdTx db pid with
  | none => rw [hp] at h1; cases h1
  | some post =>
    rw [hp] at h1
    exact ⟨post, rfl, Option.some.inj h1⟩

theorem authorIn_comment {db : DB} {cid au : Nat}
    (h : (Target.comment cid).authorIn db = some au) :
    ∃ c, commentsRepo.findByIdTx db cid = some c ∧ c.comment.author_id = au := by
  have h1 : (commentsRepo.findByIdTx db cid).map (fun r => r.comment.author_id) = some au := h
  cases hp : commentsRepo.findByIdTx db cid with
  | none => rw [hp] at h1; cases h1
  | some c =>
    rw [hp] at h1
    exact ⟨c, rfl, Option.some.inj h1⟩

/-- C16: for every state whose table `likes` obeys its unique key for the pair
(at most one row of the actor on the target), every actor, every existing
target (a post or a comment, with an id that is not 0) and every type:
`likesService.setLike` succeeds; afterwards there is exactly one row of the
actor on the target, every such row has the given type, the rows of other
(author, target) pairs are the ones of the state before, and the rating
stored for the author of the target is `computeRatingForUserTx` evaluated on
the resulting state. -/
theorem setLike_one_row_and_rating (db : DB) (a : Actor) (tg : Target) (ty : LikeType)
    (au : Nat) (hid : tg.id ≠ 0) (hex : tg.authorIn db = some au)
    (hkey : (db.likes.filter (tg.reactionOf a.id)).length ≤ 1) :
    (likesService.setLike db (some a) (tg.input ty.toJs)).1 = .ok () ∧
    ((likesService.setLike db (some a) (tg.input ty.toJs)).2.likes.filter
        (tg.reactionOf a.id)).length = 1 ∧
    (∀ l ∈ (likesService.setLike db (some a) (tg.input ty.toJs)).2.likes,
        tg.reactionOf a.id l = true → l.type = ty) ∧
    (likesService.setLike db (some a) (tg.input ty.toJs)).2.likes.filter
        (fun l => !tg.reactionOf a.id l) =
      db.likes.filter (fun l => !tg.reactionOf a.id l) ∧
    usersRepo.storedRating (likesService.setLike db (some a) (tg.input ty.toJs)).2 au =
      usersRepo.computeRatingForUserTx
        (likesService.setLike db (some a) (tg.input ty.toJs)).2 au := by
  cases tg with
  | post pid =>
    obtain ⟨post, hpost, hau⟩ := authorIn_post hex
    rw [setLike_post_eq db a pid ty post hid hpost, hau]
    obtain ⟨_, _, hl, _⟩ := recomputeRating_fields (likesRepo.upsertPostLike db a.id pid ty).2 au
    have h := upsert_rows db.likes
      { id := freshId (db.likes.map (fun l => l.id)), author_id := a.id, post_id := some pid,
        comment_id := none, type := ty, publish_date := db.now }
      (fun l => l.author_id == a.id && l.post_id == some pid)
      (fun _ _ _ => rfl) (by simp) hkey
    refine ⟨rfl, ?_, ?_, ?_, storedRating_recompute _ au⟩
    · show (List.filter _ (likesService.recomputeRating _ au).likes).length = 1
      rw [hl, upsertPostLike_likes]
      exact h.1
    · show ∀ l ∈ (likesService.recomputeRating _ au).likes, _
      rw [hl, upsertPostLike_likes]
      exact h.2.1
    · show List.filter _ (likesService.recomputeRating _ au).likes = _
      rw [hl, upsertPostLike_likes]
      exact h.2.2
  | comment cid =>
    obtain ⟨c, hc, hau⟩ := authorIn_comment hex
    rw [setLike_comment_eq db a cid ty c hid hc, hau]
    obtain ⟨_, _, hl, _⟩ :=
      recomputeRating_fields (likesRepo.upsertCommentLike db a.id cid ty).2 au
    have h := upsert_rows db.likes
      { id := freshId (db.likes.map (fun l => l.id)), author_id := a.id, post_id := none,
        comment_id := some cid, type := ty, publish_date := db.now }
      (fun l => l.author_id == a.id && l.comment_id == some cid)
      (fun _ _ _ => rfl) (by simp) hkey
    refine ⟨rfl, ?_, ?_, ?_, storedRating_recompute _ au⟩
    · show (List.filter _ (likesService.recomputeRating _ au).likes).length = 1
      rw [hl, upsertCommentLike_likes]
      exact h.1
    · show ∀ l ∈ (likesService.recomputeRating _ au).likes, _
      rw [hl, upsertCommentLike_likes]
      exact h.2.1
    · show List.filter _ (likesService.recomputeRating _ au).likes = _
      rw [hl, upsertCommentLike_likes]
      exact h.2.2

theorem setLike_one_row_and_rating_witness :
    (likesService.setLike exampleDB (some bob) ((Target.post 1).input LikeType.dislike.toJs)).1
        = .ok () ∧
    ((likesService.setLike exampleDB (some bob)
        ((Target.post 1).input LikeType.dislike.toJs)).2.likes.filter
        ((Target.post 1).reactionOf bob.id)).length = 1 ∧
    usersRepo.storedRating (likesService.setLike exampleDB (some bob)
        ((Target.post 1).input LikeType.dislike.toJs)).2 1 = -1 :=
  have h := setLike_one_row_and_rating exampleDB bob (Target.post 1) LikeType.dislike 1
    (by decide) (by decide) (by decide)
  ⟨h.1, h.2.1, by decide⟩

/-! ### Removing a reaction -/

/-- The existence and the author of a target depend on `posts`, `comments`
and `users` only. -/
theorem authorIn_congr {db db' : DB} (tg : Target) (hp : db'.posts = db.posts)
    (hc : db'.comments = db.comments) (hu : db'.users = db.users) :
    tg.authorIn db' = tg.authorIn db := by
  cases tg with
  | post pid =>
    show (postsRepo.findByIdTx db' pid).map (fun r => r.post.author_id) =
      (postsRepo.findByIdTx db pid).map (fun r => r.post.author_id)
    rw [postsRepo_findByIdTx_eq, postsRepo_findByIdTx_eq, Option.map_map, Option.map_map, hp]
    rfl
  | comment cid =>
    show (commentsRepo.findByIdTx db' cid).map (fun r => r.comment.author_id) =
      (commentsRepo.findByIdTx db cid).map (fun r => r.comment.author_id)
    unfold commentsRepo.findByIdTx commentsRepo.selectById
    rw [hc, hu]

/-- The closed form of a successful `removeLike`: the rows of the actor on the
target are deleted, then the rating of the author of the target is
recomputed. -/
theorem removeLike_eq (db : DB) (a : Actor) (tg : Target) (ty : JsVal) (au : Nat)
    (hid : tg.id ≠ 0) (hex : tg.authorIn db = some au) :
    likesService.removeLike db (some a) (tg.input ty) =
      (.ok (), likesService.recomputeRating
        { db with likes := db.likes.filter (fun l => !tg.reactionOf a.id l) } au) := by
  cases tg with
  | post pid =>
    obtain ⟨post, hpost, hau⟩ := authorIn_post hex
    rw [removeLike_post_eq db a pid ty post hid hpost, hau]
    rfl
  | comment cid =>
    obtain ⟨c, hc, hau⟩ := authorIn_comment hex
    rw [removeLike_comment_eq db a cid ty c hid hc, hau]
    rfl

/-- After the upsert of a rating the table has a row for the user, and every
row of the user holds the value written. -/
theorem upsertUserRatingTx_rows (tx : DB) (u : Nat) (r : Int) :
    (usersRepo.upsertUserRatingTx tx u r).2.user_ratings.any (fun x => x.user_id == u) = true ∧
    ∀ x ∈ (usersRepo.upsertUserRatingTx tx u r).2.user_ratings, x.user_id = u → x.rating = r := by
  unfold usersRepo.upsertUserRatingTx
  by_cases hany : tx.user_ratings.any (fun x => x.user_id == u) = true
  · rw [if_pos hany]
    constructor
    · rw [List.any_eq_true] at hany ⊢
      obtain ⟨x, hx, hxu⟩ := hany
      refine ⟨_, List.mem_map_of_mem _ hx, ?_⟩
      rw [if_pos hxu]
      exact hxu
    · intro x hx hu
      obtain ⟨y, _, rfl⟩ := List.mem_map.mp hx
      by_cases hy : (y.user_id == u) = true
      · rw [if_pos hy]
      · rw [if_neg hy] at hu
        exact absurd (by simpa using hu) hy
  · rw [if_neg hany]
    constructor
    · simp
    · intro x hx hu
      rcases List.mem_append.mp hx with hx | hx
      · exact absurd (List.any_eq_true.mpr ⟨x, hx, by simpa using hu⟩) hany
      · rw [List.mem_singleton.mp hx]

/-- Writing to a table that was just upserted with the same value changes the
timestamp of the rows of the user and nothing else. -/
theorem upsertUserRatingTx_again (U : List UserRating) (u : Nat) (r : Int) (t : Nat)
    (hr : ∀ x ∈ U, x.user_id = u → x.rating = r) :
    U.map (fun x => if x.user_id == u then { x with rating := r, updated_at := t } else x) =
      U.map (fun x => if x.user_id == u then { x with updated_at := t } else x) := by
  apply List.map_congr_left
  intro x hx
  by_cases hu : x.user_id = u
  · have hxr := hr x hx hu
    simp only [hu, beq_self_eq_true, if_true]
    rw [← hxr]
  · have hb : (x.user_id == u) = false := by simpa using hu
    simp only [hb, Bool.false_eq_true, if_false]

/-- A change of the rows of `user_ratings` that keeps the user and the rating
of every row keeps every stored rating. -/
theorem storedRating_touch (U : List UserRating) (f : UserRating → UserRating)
    (hid : ∀ x, (f x).user_id = x.user_id) (hr : ∀ x, (f x).rating = x.rating) (u : Nat) :
    ((U.map f).find? (fun r => r.user_id == u)).map (fun r => r.rating) =
      (U.find? (fun r => r.user_id == u)).map (fun r => r.rating) := by
  induction U with
  | nil => rfl
  | cons x t ih =>
    simp only [List.map_cons, List.find?_cons, hid]
    cases hx : (x.user_id == u)
    · exact ih
    · simp [hr]

theorem storedRating_eq_map (db : DB) (u : Nat) :
    usersRepo.storedRating db u =
      ((db.user_ratings.find? (fun r => r.user_id == u)).map (fun r => r.rating)).getD 0 := by
  unfold usersRepo.storedRating
  cases db.user_ratings.find? (fun r => r.user_id == u) <;> rfl

/-- A second recompute for the same user, on the state the first one left and
with the clock at `t`, changes the timestamp of the rating rows of the user
and the clock, and nothing else. -/
theorem recomputeRating_again (tx : DB) (u t : Nat) :
    likesService.recomputeRating { likesService.recomputeRating tx u with now := t } u =
      { likesService.recomputeRating tx u with
        now := t
        user_ratings := (likesService.recomputeRating tx u).user_ratings.map
          (fun x => if x.user_id == u then { x with updated_at := t } else x) } := by
  obtain ⟨hp, hc, hl, _⟩ := recomputeRating_fields tx u
  obtain ⟨hany, hrows⟩ := upsertUserRatingTx_rows tx u (usersRepo.computeRatingForUserTx tx u)
  have hR : usersRepo.computeRatingForUserTx
      { likesService.recomputeRating tx u with now := t } u =
      usersRepo.computeRatingForUserTx tx u := computeRating_congr u hp hc hl
  show (usersRepo.upsertUserRatingTx { likesService.recomputeRating tx u with now := t } u
    (usersRepo.computeRatingForUserTx { likesService.recomputeRating tx u with now := t } u)).2 = _
  rw [hR]
  have hany1 : ({ likesService.recomputeRating tx u with now := t } : DB).user_ratings.any
      (fun x => x.user_id == u) = true := hany
  unfold usersRepo.upsertUserRatingTx
  rw [if_pos hany1]
  have hmap := upsertUserRatingTx_again (likesService.recomputeRating tx u).user_ratings u
    (usersRepo.computeRatingForUserTx tx u) t hrows
  show ({ likesService.recomputeRating tx u with
      now := t
      user_ratings := (likesService.recomputeRating tx u).user_ratings.map
        (fun x => if x.user_id == u then
          { x with rating := usersRepo.computeRatingForUserTx tx u, updated_at := t } else x) }
      : DB) = _
  rw [hmap]

theorem filter_not_filter_not {α : Type} (p : α → Bool) (l : List α) :
    (l.filter (fun x => !p x)).filter (fun x => !p x) = l.filter (fun x => !p x) := by
  rw [List.filter_filter]
  congr 1
  funext x
  simp

theorem filter_filter_not {α : Type} (p : α → Bool) (l : List α) :
    (l.filter (fun x => !p x)).filter p = [] := by
  rw [List.filter_filter, List.filter_eq_nil_iff]
  intro x _
  simp

/-- A second `removeLike` for the same actor and target, on the state the
recompute of the first one left and with the clock at `t`. -/
theorem removeLike_again (tx : DB) (a : Actor) (tg : Target) (ty : JsVal) (au t : Nat)
    (hid : tg.id ≠ 0) (hex : tg.authorIn tx = some au)
    (hnone : tx.likes.filter (fun l => !tg.reactionOf a.id l) = tx.likes) :
    likesService.removeLike { likesService.recomputeRating tx au with now := t } (some a)
        (tg.input ty) =
      (.ok (), { likesService.recomputeRating tx au with
                 now := t
                 user_ratings := (likesService.recomputeRating tx au).user_ratings.map
                   (fun x => if x.user_id == au then { x with updated_at := t } else x) }) := by
  obtain ⟨hp, hc, hl, hu⟩ := recomputeRating_fields tx au
  have hex1 : tg.authorIn { likesService.recomputeRating tx au with now := t } = some au :=
    (@authorIn_congr tx { likesService.recomputeRating tx au with now := t }
      tg hp hc hu).trans hex
  rw [removeLike_eq _ a tg ty au hid hex1]
  have hsame : ({ ({ likesService.recomputeRating tx au with now := t } : DB) with
      likes := ({ likesService.recomputeRating tx au with now := t } : DB).likes.filter
        (fun l => !tg.reactionOf a.id l) } : DB) =
      { likesService.recomputeRating tx au with now := t } := by
    show ({ likesService.recomputeRating tx au with
      now := t
      likes := (likesService.recomputeRating tx au).likes.filter
        (fun l => !tg.reactionOf a.id l) } : DB) = _
    rw [hl, hnone, ← hl]
  rw [hsame, recomputeRating_again]

/-- C17: `likesService.removeLike` is idempotent.  For every state, actor and
existing target (id not 0), two calls in a row for the same actor and target,
the clock reading `t` at the second one, both succeed; after the first there
is no row of the actor on the target; the state after the second call is the
state after the first with the clock and the timestamp of the rating rows of
the author advanced to `t`, so that the rows of `likes` are the same and every
stored rating is the same. -/
theorem removeLike_idempotent (db : DB) (a : Actor) (tg : Target) (ty : JsVal) (au t : Nat)
    (hid : tg.id ≠ 0) (hex : tg.authorIn db = some au) :
    let r1 := likesService.removeLike db (some a) (tg.input ty)
    let r2 := likesService.removeLike { r1.2 with now := t } (some a) (tg.input ty)
    r1.1 = .ok () ∧ r2.1 = .ok () ∧
    r1.2.likes.filter (tg.reactionOf a.id) = [] ∧
    r2.2 = { r1.2 with
             now := t
             user_ratings := r1.2.user_ratings.map
               (fun x => if x.user_id == au then { x with updated_at := t } else x) } ∧
    r2.2.likes = r1.2.likes ∧
    (∀ u, usersRepo.storedRating r2.2 u = usersRepo.storedRating r1.2 u) := by
  have e1 := removeLike_eq db a tg ty au hid hex
  have e2 := removeLike_again
    { db with likes := db.likes.filter (fun l => !tg.reactionOf a.id l) } a tg ty au t hid
    ((@authorIn_congr db
      { db with likes := db.likes.filter (fun l => !tg.reactionOf a.id l) }
      tg rfl rfl rfl).trans hex)
    (filter_not_filter_not _ _)
  obtain ⟨_, _, hl, _⟩ := recomputeRating_fields
    { db with likes := db.likes.filter (fun l => !tg.reactionOf a.id l) } au
  intro r1 r2
  have er1 : r1 = _ := e1
  have er2 : r2 = _ :=
    (congrArg (fun d : Except Err Unit × DB =>
      likesService.removeLike { d.2 with now := t } (some a) (tg.input ty)) er1).trans e2
  rw [er2, er1]
  refine ⟨rfl, rfl, ?_, rfl, rfl, ?_⟩
  · show List.filter _ (likesService.recomputeRating _ au).likes = []
    rw [hl]
    exact filter_filter_not _ _
  · intro u
    rw [storedRating_eq_map, storedRating_eq_map]
    exact congrArg (fun o => Option.getD o 0)
      (storedRating_touch _ _ (fun x => by by_cases h : (x.user_id == au) = true <;> simp [h])
        (fun x => by by_cases h : (x.user_id == au) = true <;> simp [h]) u)

theorem removeLike_idempotent_witness :
    (likesService.removeLike exampleDB (some bob) ((Target.post 1).input JsVal.undefined)).1
        = .ok () ∧
    (likesService.removeLike
        { (likesService.removeLike exampleDB (some bob)
            ((Target.post 1).input JsVal.undefined)).2 with now := 200 }
        (some bob) ((Target.post 1).input JsVal.undefined)).1 = .ok () ∧
    usersRepo.storedRating (likesService.removeLike exampleDB (some bob)
        ((Target.post 1).input JsVal.undefined)).2 1 = 0 :=
  have h := removeLike_idempotent exampleDB bob (Target.post 1) JsVal.undefined 1 200
    (by decide) (by decide)
  ⟨h.1, h.2.1, by decide⟩

/-! ### Creating content and the rating -/

theorem attachCategoriesTx_frame (tx : DB) (id : Nat) (cats : List Nat) :
    { (postsRepo.attachCategoriesTx tx id cats).2 with
      posts_categories := tx.posts_categories } = tx := by
  unfold postsRepo.attachCategoriesTx
  split <;> rfl

theorem find?_append_fresh (posts : List Post) (p : Post)
    (hp : p.id = freshId (posts.map (fun q => q.id))) :
    (posts ++ [p]).find? (fun q => q.id == p.id) = some p := by
  have hnone : posts.find? (fun q => q.id == p.id) = none := by
    rw [List.find?_eq_none]
    intro q hq hqp
    have hlt := lt_freshId (List.mem_map_of_mem (fun q : Post => q.id) hq)
    have hqp1 : q.id = p.id := by simpa using hqp
    have hlt1 : q.id < freshId (posts.map (fun q => q.id)) := hlt
    omega
  rw [List.find?_append, hnone]
  simp

/-- The state `postsService.create` commits for an actor: the one before with
one more row of `posts`, of the actor and with an id new to the table;
`comments`, `likes`, `user_ratings` and `users` are the ones before. -/
theorem post_create_fields (db : DB) (a : Actor) (input : postsService.CreateInput) :
    (postsService.create db (some a) input).2.posts =
      db.posts ++ [{ id := freshId (db.posts.map (fun p => p.id)), author_id := a.id,
                     title := input.title, publish_date := db.now,
                     status := input.status.getD Status.active, locked := defaultLocked,
                     content := input.content, image := input.image }] ∧
    (postsService.create db (some a) input).2.comments = db.comments ∧
    (postsService.create db (some a) input).2.likes = db.likes ∧
    (postsService.create db (some a) input).2.user_ratings = db.user_ratings ∧
    (postsService.create db (some a) input).2.users = db.users ∧
    (postsService.create db (some a) input).1 =
      .ok (postsRepo.findByIdTx (postsService.create db (some a) input).2
        (freshId (db.posts.map (fun p => p.id)))) := by
  cases hcat : input.categoryIds with
  | none =>
    unfold postsService.create transaction
    simp only [postsRepo.createPostTx, hcat]
    refine ⟨?_, ?_, ?_, ?_, ?_, ?_⟩ <;> first | rfl | trivial
  | some cats =>
    by_cases hlen : cats.length ≠ 0
    · have hfr := attachCategoriesTx_frame
        (postsRepo.createPostTx db a.id input.title input.content input.image
          (some (input.status.getD Status.active))).2
        (freshId (db.posts.map (fun p => p.id))) cats
      have h1 := congrArg DB.posts hfr
      have h2 := congrArg DB.comments hfr
      have h3 := congrArg DB.likes hfr
      have h4 := congrArg DB.user_ratings hfr
      have h5 := congrArg DB.users hfr
      unfold postsService.create transaction
      simp only [hcat, hlen, not_false_eq_true, if_true, ne_eq]
      exact ⟨h1, h2, h3, h4, h5, rfl⟩
    · unfold postsService.create transaction
      simp only [postsRepo.createPostTx, hcat, hlen, if_false]
      refine ⟨?_, ?_, ?_, ?_, ?_, ?_⟩ <;> first | rfl | trivial

/-- The closed form of `postsService.create` with an actor: it succeeds with
the row of the new post, which the lookup by its id finds in the resulting
state. -/
theorem post_create_shape (db : DB) (a : Actor) (input : postsService.CreateInput) :
    ∃ (row : postsRepo.PostRow) (db1 : DB),
      postsService.create db (some a) input = (.ok (some row), db1) ∧
      row.post.id = freshId (db.posts.map (fun p => p.id)) ∧
      row.post.author_id = a.id ∧
      db1.posts = db.posts ++ [row.post] ∧
      db1.comments = db.comments ∧ db1.likes = db.likes ∧
      db1.user_ratings = db.user_ratings ∧ db1.users = db.users ∧
      postsRepo.findByIdTx db1 row.post.id = some row := by
  obtain ⟨h1, h2, h3, h4, h5, h6⟩ := post_create_fields db a input
  obtain ⟨p, hp⟩ : ∃ p : Post, p =
      { id := freshId (db.posts.map (fun p => p.id)), author_id := a.id,
        title := input.title, publish_date := db.now,
        status := input.status.getD Status.active, locked := defaultLocked,
        content := input.content, image := input.image } := ⟨_, rfl⟩
  rw [← hp] at h1
  have hid : p.id = freshId (db.posts.map (fun q => q.id)) := by rw [hp]
  have hau : p.author_id = a.id := by rw [hp]
  have hfind : postsRepo.findByIdTx (postsService.create db (some a) input).2
      (freshId (db.posts.map (fun p => p.id))) =
      some (postsRepo.selectRow (postsService.create db (some a) input).2 p) := by
    rw [postsRepo_findByIdTx_eq, h1, ← hid, find?_append_fresh db.posts p hid]
    rfl
  refine ⟨postsRepo.selectRow (postsService.create db (some a) input).2 p,
    (postsService.create db (some a) input).2, ?_, hid, hau, h1, h2, h3, h4, h5, ?_⟩
  · rw [← hfind, ← h6]
  · show postsRepo.findByIdTx _ p.id = _
    rw [hid]
    exact hfind

theorem freshId_ne_zero (ids : List Nat) : freshId ids ≠ 0 := by
  unfold freshId
  omega

theorem storedRating_congr {db db' : DB} (u : Nat) (h : db'.user_ratings = db.user_ratings) :
    usersRepo.storedRating db' u = usersRepo.storedRating db u := by
  unfold usersRepo.storedRating
  rw [h]

/-- A row added to the left table of the rating join adds nothing to the sum
when no like refers to it. -/
theorem joinSum_append_fresh {α : Type} (rows : List α) (r : α) (f : α → Bool)
    (likes : List Like) (cond : α → Like → Bool) (hnone : likes.filter (cond r) = []) :
    ((((rows ++ [r]).filter f).flatMap fun x => usersRepo.leftJoinLikes likes (cond x)).map
        usersRepo.caseWeight).sum =
      (((rows.filter f).flatMap fun x => usersRepo.leftJoinLikes likes (cond x)).map
        usersRepo.caseWeight).sum := by
  have hjoin : usersRepo.leftJoinLikes likes (cond r) = [none] := by
    unfold usersRepo.leftJoinLikes
    rw [hnone]
  rw [List.filter_append]
  cases hf : f r
  · simp [List.filter_cons, hf]
  · simp [List.filter_cons, hf, hjoin, usersRepo.caseWeight]

/-- A new post that no like refers to leaves every computed rating. -/
theorem computeRating_new_post {db db1 : DB} (p : Post) (u : Nat)
    (hposts : db1.posts = db.posts ++ [p]) (hcomments : db1.comments = db.comments)
    (hlikes : db1.likes = db.likes) (hnone : ∀ l ∈ db.likes, l.post_id ≠ some p.id) :
    usersRepo.computeRatingForUserTx db1 u = usersRepo.computeRatingForUserTx db u := by
  unfold usersRepo.computeRatingForUserTx usersRepo.ratingFromPosts usersRepo.ratingFromComments
  rw [hposts, hcomments, hlikes]
  rw [joinSum_append_fresh db.posts p (fun p => p.author_id == u) db.likes
    (fun p l => l.post_id == some p.id)
    (by
      rw [List.filter_eq_nil_iff]
      intro l hl
      simpa using hnone l hl)]

/-- A new comment that no like refers to leaves every computed rating. -/
theorem computeRating_new_comment {db db1 : DB} (c : Comment) (u : Nat)
    (hposts : db1.posts = db.posts) (hcomments : db1.comments = db.comments ++ [c])
    (hlikes : db1.likes = db.likes) (hnone : ∀ l ∈ db.likes, l.comment_id ≠ some c.id) :
    usersRepo.computeRatingForUserTx db1 u = usersRepo.computeRatingForUserTx db u := by
  unfold usersRepo.computeRatingForUserTx usersRepo.ratingFromPosts usersRepo.ratingFromComments
  rw [hposts, hcomments, hlikes]
  rw [joinSum_append_fresh db.comments c (fun c => c.author_id == u) db.likes
    (fun c l => l.comment_id == some c.id)
    (by
      rw [List.filter_eq_nil_iff]
      intro l hl
      simpa using hnone l hl)]

/-- No like refers to the id a new post gets when every like on a post refers
to a row of `posts`. -/
theorem no_like_on_fresh_post {db : DB}
    (href : ∀ l ∈ db.likes, ∀ p ∈ l.post_id, p ∈ db.posts.map (fun q => q.id)) :
    ∀ l ∈ db.likes, l.post_id ≠ some (freshId (db.posts.map (fun q => q.id))) := by
  intro l hl h
  have hlt := lt_freshId (href l hl _ h)
  omega

theorem no_like_on_fresh_comment {db : DB}
    (href : ∀ l ∈ db.likes, ∀ c ∈ l.comment_id, c ∈ db.comments.map (fun q => q.id)) :
    ∀ l ∈ db.likes, l.comment_id ≠ some (freshId (db.comments.map (fun q => q.id))) := by
  intro l hl h
  have hlt := lt_freshId (href l hl _ h)
  omega

theorem upsert_fields (tx : DB) (a : Nat) (post comment : Option Nat) (t : LikeType) :
    (likesRepo.upsert tx a post comment t).2.posts = tx.posts ∧
    (likesRepo.upsert tx a post comment t).2.comments = tx.comments ∧
    (likesRepo.upsert tx a post comment t).2.users = tx.users ∧
    (likesRepo.upsert tx a post comment t).2.user_ratings = tx.user_ratings ∧
    (likesRepo.upsert tx a post comment t).2.now = tx.now := by
  have h := upsert_frame tx a post comment t
  have h1 := congrArg DB.posts h
  have h2 := congrArg DB.comments h
  have h3 := congrArg DB.users h
  have h4 := congrArg DB.user_ratings h
  have h5 := congrArg DB.now h
  exact ⟨h1, h2, h3, h4, h5⟩

/-- The rows of `likes` after `upsertPostLike` that are not of the author on
the post, when the author had no row on the post. -/
theorem upsertPostLike_then_remove (tx : DB) (a pid : Nat) (t : LikeType)
    (hnone : ∀ l ∈ tx.likes, l.post_id ≠ some pid) :
    (likesRepo.upsertPostLike tx a pid t).2.likes.filter
        (fun l => !(l.author_id == a && l.post_id == some pid)) = tx.likes := by
  have hany : tx.likes.any (fun l => l.author_id == a && l.post_id == some pid) = false := by
    rw [List.any_eq_false]
    intro l hl
    have := hnone l hl
    simp [this]
  rw [upsertPostLike_likes, hany]
  simp only [Bool.false_eq_true, if_false, List.filter_append]
  have hself : tx.likes.filter (fun l => !(l.author_id == a && l.post_id == some pid)) =
      tx.likes := by
    rw [List.filter_eq_self]
    intro l hl
    have := hnone l hl
    simp [this]
  rw [hself]
  simp

/-- C18, amended: in every state in which the rating stored for A is the
recompute formula on the rows of that state, and every like on a post refers
to a row of `posts`: when A creates an active post, B sets a like on it and B
removes the like, all three calls succeed, and the rating stored for A after
the removal is the one stored immediately before the like (the one stored in
the state the scenario starts from). -/
theorem like_unlike_restores_rating (db : DB) (A B : Actor)
    (input : postsService.CreateInput)
    (hcons : usersRepo.storedRating db A.id = usersRepo.computeRatingForUserTx db A.id)
    (href : ∀ l ∈ db.likes, ∀ p ∈ l.post_id, p ∈ db.posts.map (fun q => q.id)) :
    likeThenUnlike db A B input =
      some (usersRepo.storedRating db A.id, usersRepo.storedRating db A.id) := by
  obtain ⟨row, db1, hcreate, hid, hau, hposts, hcomments, hlikes, hratings, husers, hfind⟩ :=
    post_create_shape db A { input with status := some Status.active }
  have hne : row.post.id ≠ 0 := by
    rw [hid]
    exact freshId_ne_zero _
  have hnone : ∀ l ∈ db1.likes, l.post_id ≠ some row.post.id := by
    rw [hlikes, hid]
    exact no_like_on_fresh_post href
  have hset := setLike_post_eq db1 B row.post.id LikeType.like row hne hfind
  obtain ⟨hp2, hc2, hl2, hu2⟩ := recomputeRating_fields
    (likesRepo.upsertPostLike db1 B.id row.post.id LikeType.like).2 row.post.author_id
  obtain ⟨hp1, hc1, hu1, _, _⟩ := upsert_fields db1 B.id (some row.post.id) none LikeType.like
  have hp1 : (likesRepo.upsertPostLike db1 B.id row.post.id LikeType.like).2.posts = db1.posts :=
    hp1
  have hc1 : (likesRepo.upsertPostLike db1 B.id row.post.id LikeType.like).2.comments =
    db1.comments := hc1
  have hu1 : (likesRepo.upsertPostLike db1 B.id row.post.id LikeType.like).2.users = db1.users :=
    hu1
  have hex2 : (Target.post row.post.id).authorIn
      (likesService.recomputeRating
        (likesRepo.upsertPostLike db1 B.id row.post.id LikeType.like).2 row.post.author_id) =
      some A.id := by
    rw [@authorIn_congr db1 _ (Target.post row.post.id)
      (hp2.trans hp1) (hc2.trans hc1) (hu2.trans hu1)]
    show (postsRepo.findByIdTx db1 row.post.id).map (fun r => r.post.author_id) = some A.id
    rw [hfind]
    exact congrArg some hau
  have hrem := removeLike_eq _ B (Target.post row.post.id) JsVal.undefined A.id hne hex2
  unfold likeThenUnlike
  rw [hcreate]
  simp only
  rw [show JsVal.str "like" = LikeType.like.toJs from rfl, hset]
  simp only
  rw [hrem]
  simp only
  rw [storedRating_congr A.id hratings]
  have hstored := storedRating_recompute
    { likesService.recomputeRating
        (likesRepo.upsertPostLike db1 B.id row.post.id LikeType.like).2 row.post.author_id with
      likes := (likesService.recomputeRating
        (likesRepo.upsertPostLike db1 B.id row.post.id LikeType.like).2
          row.post.author_id).likes.filter
        (fun l => !(Target.post row.post.id).reactionOf B.id l) } A.id
  obtain ⟨hp3, hc3, hl3, _⟩ := recomputeRating_fields
    { likesService.recomputeRating
        (likesRepo.upsertPostLike db1 B.id row.post.id LikeType.like).2 row.post.author_id with
      likes := (likesService.recomputeRating
        (likesRepo.upsertPostLike db1 B.id row.post.id LikeType.like).2
          row.post.author_id).likes.filter
        (fun l => !(Target.post row.post.id).reactionOf B.id l) } A.id
  rw [hstored]
  have hl4 : (likesService.recomputeRating
        (likesRepo.upsertPostLike db1 B.id row.post.id LikeType.like).2
          row.post.author_id).likes.filter
        (fun l => !(Target.post row.post.id).reactionOf B.id l) = db.likes := by
    rw [hl2]
    exact (upsertPostLike_then_remove db1 B.id row.post.id LikeType.like hnone).trans hlikes
  have hcomp := @computeRating_new_post db _ row.post A.id
    (hp3.trans ((hp2.trans hp1).trans hposts))
    (hc3.trans ((hc2.trans hc1).trans hcomments))
    (hl3.trans hl4)
    (by rw [hid]; exact no_like_on_fresh_post href)
  rw [hcomp, hcons]

theorem like_unlike_restores_rating_witness :
    likeThenUnlike consistentDB ann bob { title := "t", content := "c" } = some (1, 1) :=
  like_unlike_restores_rating consistentDB ann bob { title := "t", content := "c" }
    (by decide) (by decide)

/-- C18, as stated, fails: in the state an admin leaves by removing post 1 of
the example (which has a like, so that the rating stored for its author is 1
while the formula gives 0), the author creates a post, the second user likes
it and removes the like, and the rating stored for the author goes from 1
before the like to 0 after the removal. -/
theorem like_unlike_changes_stale_rating :
    (postsService.remove consistentDB (some root) 1).1 = .ok () ∧
    likeThenUnlike (postsService.remove consistentDB (some root) 1).2 ann bob
        { title := "t", content := "c" } = some (1, 0) ∧
    ¬ (∀ (db : DB) (A B : Actor) (input : postsService.CreateInput),
        ∃ r, likeThenUnlike db A B input = some (r, r)) := by
  refine ⟨by decide, by decide, ?_⟩
  intro h
  obtain ⟨r, hr⟩ := h (postsService.remove consistentDB (some root) 1).2 ann bob
    { title := "t", content := "c" }
  have h0 : likeThenUnlike (postsService.remove consistentDB (some root) 1).2 ann bob
      { title := "t", content := "c" } = some (1, 0) := by decide
  rw [h0] at hr
  have h1 : ((1 : Int), (0 : Int)) = (r, r) := Option.some.inj hr
  have h2 : (1 : Int) = r := congrArg Prod.fst h1
  have h3 : (0 : Int) = r := congrArg Prod.snd h1
  omega

/-! ### Rating consistency over sequences of operations -/

/-- The sum of the rating join reads the left table through the ids and the
authors of its rows only. -/
theorem joinSum_keys {α : Type} (rows : List α) (key author : α → Nat) (likes : List Like)
    (tgt : Like → Option Nat) (u : Nat) :
    (((rows.filter (fun r => author r == u)).flatMap fun r =>
        usersRepo.leftJoinLikes likes (fun l => tgt l == some (key r))).map
        usersRepo.caseWeight).sum =
      ((((rows.map (fun r => (key r, author r))).filter (fun k => k.2 == u)).flatMap fun k =>
        usersRepo.leftJoinLikes likes (fun l => tgt l == some k.1)).map
        usersRepo.caseWeight).sum := by
  induction rows with
  | nil => rfl
  | cons r t ih =>
    simp only [List.map_cons, List.filter_cons]
    cases h : author r == u
    · simpa using ih
    · simp only [if_true, List.flatMap_cons, List.map_append, List.sum_append]
      rw [ih]

/-- The computed rating depends on the ids and authors of posts and comments
and on the rows of `likes` only. -/
theorem computeRating_of_keys {db db' : DB} (u : Nat)
    (hp : db'.posts.map (fun p => (p.id, p.author_id)) =
      db.posts.map (fun p => (p.id, p.author_id)))
    (hc : db'.comments.map (fun c => (c.id, c.author_id)) =
      db.comments.map (fun c => (c.id, c.author_id)))
    (hl : db'.likes = db.likes) :
    usersRepo.computeRatingForUserTx db' u = usersRepo.computeRatingForUserTx db u := by
  unfold usersRepo.computeRatingForUserTx usersRepo.ratingFromPosts usersRepo.ratingFromComments
  rw [joinSum_keys db'.posts (fun p => p.id) (fun p => p.author_id) db'.likes
      (fun l => l.post_id) u,
    joinSum_keys db.posts (fun p => p.id) (fun p => p.author_id) db.likes
      (fun l => l.post_id) u,
    joinSum_keys db'.comments (fun c => c.id) (fun c => c.author_id) db'.likes
      (fun l => l.comment_id) u,
    joinSum_keys db.comments (fun c => c.id) (fun c => c.author_id) db.likes
      (fun l => l.comment_id) u, hp, hc, hl]

theorem ids_of_keys {α : Type} {rows rows' : List α} (key author : α → Nat)
    (h : rows'.map (fun r => (key r, author r)) = rows.map (fun r => (key r, author r))) :
    rows'.map key = rows.map key := by
  have h1 := congrArg (List.map Prod.fst) h
  simpa [List.map_map, Function.comp_def] using h1

/-- The key conditions depend on the ids of posts and comments and on the rows
of `likes` only. -/
theorem wellKeyed_of_keys {db db' : DB} (hw : WellKeyed db)
    (hp : db'.posts.map (fun p => (p.id, p.author_id)) =
      db.posts.map (fun p => (p.id, p.author_id)))
    (hc : db'.comments.map (fun c => (c.id, c.author_id)) =
      db.comments.map (fun c => (c.id, c.author_id)))
    (hl : db'.likes = db.likes) : WellKeyed db' := by
  have hpi := ids_of_keys (fun p : Post => p.id) (fun p => p.author_id) hp
  have hci := ids_of_keys (fun c : Comment => c.id) (fun c => c.author_id) hc
  unfold WellKeyed at hw ⊢
  rw [hpi, hci, hl]
  exact hw

/-- The statement that the stored rating of a user is the computed one is kept
by a step that keeps the ids and authors of posts and comments, the rows of
`likes` and the rows of `user_ratings`. -/
theorem consistent_of_keys {db db' : DB} (u : Nat)
    (hp : db'.posts.map (fun p => (p.id, p.author_id)) =
      db.posts.map (fun p => (p.id, p.author_id)))
    (hc : db'.comments.map (fun c => (c.id, c.author_id)) =
      db.comments.map (fun c => (c.id, c.author_id)))
    (hl : db'.likes = db.likes) (hr : db'.user_ratings = db.user_ratings)
    (h : usersRepo.storedRating db u = usersRepo.computeRatingForUserTx db u) :
    usersRepo.storedRating db' u = usersRepo.computeRatingForUserTx db' u := by
  rw [storedRating_congr u hr, computeRating_of_keys u hp hc hl]
  exact h

theorem keepsRating_refl (db : DB) : KeepsRating db db :=
  ⟨rfl, fun h => h, fun _ _ h => h⟩

theorem keepsRating_of_sameRows {db db' : DB} (h : SameRatingRows db db') :
    KeepsRating db db' := by
  obtain ⟨hp, hc, hl, hr, hu⟩ := h
  exact ⟨hu, fun hw => wellKeyed_of_keys hw hp hc hl,
    fun _ u hcons => consistent_of_keys u hp hc hl hr hcons⟩

theorem transaction_cases {α : Type} (db : DB) (body : DB → Except Err (α × DB)) :
    (transaction db body).2 = db ∨
      ∃ a tx, body db = .ok (a, tx) ∧ transaction db body = (.ok a, tx) := by
  unfold transaction
  cases h : body db with
  | error e => exact Or.inl rfl
  | ok r => exact Or.inr ⟨r.1, r.2, rfl, rfl⟩

theorem map_keys_of_map {α : Type} (rows : List α) (key author : α → Nat) (g : α → α)
    (hk : ∀ r, key (g r) = key r) (ha : ∀ r, author (g r) = author r) (id : Nat) :
    (rows.map (fun r => if key r == id then g r else r)).map (fun r => (key r, author r)) =
      rows.map (fun r => (key r, author r)) := by
  rw [List.map_map]
  apply List.map_congr_left
  intro r _
  by_cases h : (key r == id) = true
  · simp only [Function.comp_apply, if_pos h, hk, ha]
  · simp only [Function.comp_apply, if_neg h]

theorem updatePostTx_sameRows (tx : DB) (id : Nat) (patch : postsRepo.PostPatch) :
    SameRatingRows tx (postsRepo.updatePostTx tx id patch).2 := by
  unfold postsRepo.updatePostTx
  by_cases h : patch.isEmpty = true
  · rw [if_pos h]
    exact ⟨rfl, rfl, rfl, rfl, rfl⟩
  · rw [if_neg h]
    exact ⟨map_keys_of_map tx.posts (fun p => p.id) (fun p => p.author_id)
      (postsRepo.applyPatch patch) (fun _ => rfl) (fun _ => rfl) id, rfl, rfl, rfl, rfl⟩

theorem attachCategoriesTx_sameRows (tx : DB) (id : Nat) (cats : List Nat) :
    SameRatingRows tx (postsRepo.attachCategoriesTx tx id cats).2 := by
  unfold postsRepo.attachCategoriesTx
  split <;> exact ⟨rfl, rfl, rfl, rfl, rfl⟩

theorem replaceCategoriesTx_sameRows (tx : DB) (id : Nat) (cats : List Nat) :
    SameRatingRows tx (postsRepo.replaceCategoriesTx tx id cats).2 := by
  unfold postsRepo.replaceCategoriesTx
  split
  · exact ⟨rfl, rfl, rfl, rfl, rfl⟩
  · exact attachCategoriesTx_sameRows _ id cats

theorem sameRatingRows_trans {a b c : DB} (h1 : SameRatingRows a b) (h2 : SameRatingRows b c) :
    SameRatingRows a c :=
  ⟨h2.1.trans h1.1, h2.2.1.trans h1.2.1, h2.2.2.1.trans h1.2.2.1,
    h2.2.2.2.1.trans h1.2.2.2.1, h2.2.2.2.2.trans h1.2.2.2.2⟩

theorem writeFields_sameRows (tx : DB) (id : Nat) (patch : postsRepo.PostPatch)
    (cats : Option (List Nat)) :
    SameRatingRows tx (postsService.writeFields tx id patch cats) := by
  unfold postsService.writeFields
  have h1 : SameRatingRows tx
      (if (!patch.isEmpty) = true then (postsRepo.updatePostTx tx id patch).2 else tx) := by
    split
    · exact updatePostTx_sameRows tx id patch
    · exact ⟨rfl, rfl, rfl, rfl, rfl⟩
  cases cats with
  | none => exact h1
  | some cs => exact sameRatingRows_trans h1 (replaceCategoriesTx_sameRows _ id cs)

theorem transaction_error_state {α : Type} {db db' : DB} {body : DB → Except Err (α × DB)}
    {e : Err} (h : transaction db body = (.error e, db')) : db' = db := by
  unfold transaction at h
  cases hb : body db with
  | error e1 =>
    rw [hb] at h
    exact (congrArg Prod.snd h).symm
  | ok r =>
    rw [hb] at h
    cases h

theorem postUpdate_keeps (db : DB) (actor : Option Actor) (postId : Nat)
    (input : postsService.UpdateInput) :
    KeepsRating db (postsService.update db actor postId input).2 := by
  cases hres : postsService.update db actor postId input with
  | mk r db1 =>
    cases r with
    | error e =>
      have h : db1 = db := transaction_error_state hres
      rw [h]
      exact keepsRating_refl db
    | ok row =>
      obtain ⟨pr, _, hdb, _⟩ := update_ok_writeFields hres
      show KeepsRating db db1
      rw [hdb]
      exact keepsRating_of_sameRows (writeFields_sameRows db postId pr.1 pr.2)

theorem postSetLock_keeps (db : DB) (actor : Option Actor) (postId : Nat) (locked : JsVal) :
    KeepsRating db (postsService.setLock db actor postId locked).2 := by
  unfold postsService.setLock
  cases postsService.ensureAdmin actor with
  | error e => exact keepsRating_refl db
  | ok u =>
    show KeepsRating db (transaction db _).2
    unfold transaction
    simp only []
    cases postsRepo.findByIdTx db postId with
    | none => exact keepsRating_refl db
    | some row =>
      exact keepsRating_of_sameRows
        ⟨map_keys_of_map db.posts (fun p => p.id) (fun p => p.author_id)
          (fun p => { p with locked := locked.truthy }) (fun _ => rfl) (fun _ => rfl) postId,
          rfl, rfl, rfl, rfl⟩

theorem commentUpdate_keeps (db : DB) (actor : Option Actor) (commentId : Nat)
    (input : commentsService.UpdateInput) :
    KeepsRating db (commentsService.update db actor commentId input).2 := by
  cases hres : commentsService.update db actor commentId input with
  | mk r db1 =>
    cases r with
    | error e =>
      have h : db1 = db := transaction_error_state hres
      rw [h]
      exact keepsRating_refl db
    | ok row =>
      obtain ⟨ex, status, _, _, _, hdb, _⟩ := comment_update_ok hres
      show KeepsRating db db1
      rw [hdb, updateCommentTx_status]
      exact keepsRating_of_sameRows
        ⟨rfl, map_keys_of_map db.comments (fun c => c.id) (fun c => c.author_id)
          (fun c => { c with status := status }) (fun _ => rfl) (fun _ => rfl) commentId,
          rfl, rfl, rfl⟩

theorem commentSetLock_keeps (db : DB) (actor : Option Actor) (commentId : Nat)
    (locked : JsVal) :
    KeepsRating db (commentsService.setLock db actor commentId locked).2 := by
  unfold commentsService.setLock
  cases commentsService.ensureAdmin actor with
  | error e => exact keepsRating_refl db
  | ok u =>
    show KeepsRating db (transaction db _).2
    unfold transaction
    simp only []
    cases commentsRepo.findByIdTx db commentId with
    | none => exact keepsRating_refl db
    | some row =>
      exact keepsRating_of_sameRows
        ⟨rfl, map_keys_of_map db.comments (fun c => c.id) (fun c => c.author_id)
          (fun c => { c with locked := locked.truthy }) (fun _ => rfl) (fun _ => rfl)
          commentId, rfl, rfl, rfl⟩

theorem tick_keeps (db : DB) (t : Nat) : KeepsRating db { db with now := t } :=
  keepsRating_of_sameRows ⟨rfl, rfl, rfl, rfl, rfl⟩

theorem fresh_not_mem (ids : List Nat) : freshId ids ∉ ids := by
  intro h
  have := lt_freshId h
  omega

theorem nodup_append_fresh {ids : List Nat} (h : ids.Nodup) :
    (ids ++ [freshId ids]).Nodup := by
  rw [List.nodup_append]
  refine ⟨h, List.nodup_singleton _, ?_⟩
  intro x hx hx1
  rw [List.mem_singleton] at hx1
  rw [hx1] at hx
  exact fresh_not_mem ids hx

/-- A step that adds one post with an id new to the table, and keeps the
other rows the rating is about, keeps the rating. -/
theorem keeps_new_post {db db1 : DB} (p : Post)
    (hid : p.id = freshId (db.posts.map (fun q => q.id)))
    (hposts : db1.posts = db.posts ++ [p]) (hcomments : db1.comments = db.comments)
    (hlikes : db1.likes = db.likes) (hratings : db1.user_ratings = db.user_ratings)
    (husers : db1.users = db.users) : KeepsRating db db1 := by
  refine ⟨husers, ?_, ?_⟩
  · intro hw
    obtain ⟨h1, h2, h3, h4, h5⟩ := hw
    unfold WellKeyed
    rw [hposts, hcomments, hlikes, List.map_append, List.map_cons, List.map_nil, hid]
    refine ⟨nodup_append_fresh h1, h2, ?_, h4, h5⟩
    intro l hl q hq
    exact List.mem_append_left _ (h3 l hl q hq)
  · intro hw u hcons
    rw [storedRating_congr u hratings,
      computeRating_new_post p u hposts hcomments hlikes
        (by rw [hid]; exact no_like_on_fresh_post hw.2.2.1)]
    exact hcons

/-- A step that adds one comment with an id new to the table, and keeps the
other rows the rating is about, keeps the rating. -/
theorem keeps_new_comment {db db1 : DB} (c : Comment)
    (hid : c.id = freshId (db.comments.map (fun q => q.id)))
    (hposts : db1.posts = db.posts) (hcomments : db1.comments = db.comments ++ [c])
    (hlikes : db1.likes = db.likes) (hratings : db1.user_ratings = db.user_ratings)
    (husers : db1.users = db.users) : KeepsRating db db1 := by
  refine ⟨husers, ?_, ?_⟩
  · intro hw
    obtain ⟨h1, h2, h3, h4, h5⟩ := hw
    unfold WellKeyed
    rw [hposts, hcomments, hlikes, List.map_append, List.map_cons, List.map_nil, hid]
    refine ⟨h1, nodup_append_fresh h2, h3, ?_, h5⟩
    intro l hl q hq
    exact List.mem_append_left _ (h4 l hl q hq)
  · intro hw u hcons
    rw [storedRating_congr u hratings,
      computeRating_new_comment c u hposts hcomments hlikes
        (by rw [hid]; exact no_like_on_fresh_comment hw.2.2.2.1)]
    exact hcons

theorem postCreate_keeps (db : DB) (actor : Option Actor) (input : postsService.CreateInput) :
    KeepsRating db (postsService.create db actor input).2 := by
  cases actor with
  | none => exact keepsRating_refl db
  | some a =>
    obtain ⟨h1, h2, h3, h4, h5, _⟩ := post_create_fields db a input
    exact keeps_new_post _ rfl h1 h2 h3 h4 h5

theorem commentCreate_keeps (db : DB) (actor : Option Actor)
    (input : commentsService.CreateInput) :
    KeepsRating db (commentsService.create db actor input).2 := by
  cases hpost : postsRepo.findByIdTx db input.post_id with
  | none =>
    rw [create_not_found actor hpost]
    exact keepsRating_refl db
  | some post =>
    rw [create_found actor hpost]
    by_cases hs : post.post.status ≠ Status.active
    · rw [if_pos hs]
      exact keepsRating_refl db
    · rw [if_neg hs]
      by_cases hl : post.post.locked = true
      · rw [if_pos hl]
        exact keepsRating_refl db
      · rw [if_neg hl]
        cases actor with
        | none => exact keepsRating_refl db
        | some a =>
          exact keeps_new_comment
            { id := freshId (db.comments.map (fun c => c.id)), post_id := input.post_id,
              author_id := a.id, publish_date := db.now, content := input.content,
              status := Status.active, locked := defaultLocked } rfl rfl rfl rfl rfl rfl

/-! ### Reactions and the rating of other users -/

theorem leftJoin_flatMap_congr {α : Type} (rows : List α) (likes likes' : List Like)
    (cond : α → Like → Bool)
    (h : ∀ r ∈ rows, likes'.filter (cond r) = likes.filter (cond r)) :
    (rows.flatMap fun r => usersRepo.leftJoinLikes likes' (cond r)) =
      rows.flatMap fun r => usersRepo.leftJoinLikes likes (cond r) := by
  induction rows with
  | nil => rfl
  | cons r t ih =>
    have hr : usersRepo.leftJoinLikes likes' (cond r) = usersRepo.leftJoinLikes likes (cond r) := by
      unfold usersRepo.leftJoinLikes
      rw [h r (List.mem_cons_self r t)]
    simp only [List.flatMap_cons]
    rw [hr, ih (fun x hx => h x (List.mem_cons_of_mem r hx))]

/-- The computed rating of a user is the same for two tables of likes that
have the same rows on each post and each comment of the user. -/
theorem computeRating_likes {db : DB} (likes' : List Like) (u : Nat)
    (hp : ∀ p ∈ db.posts, p.author_id = u →
      likes'.filter (fun l => l.post_id == some p.id) =
        db.likes.filter (fun l => l.post_id == some p.id))
    (hc : ∀ c ∈ db.comments, c.author_id = u →
      likes'.filter (fun l => l.comment_id == some c.id) =
        db.likes.filter (fun l => l.comment_id == some c.id)) :
    usersRepo.computeRatingForUserTx { db with likes := likes' } u =
      usersRepo.computeRatingForUserTx db u := by
  unfold usersRepo.computeRatingForUserTx usersRepo.ratingFromPosts usersRepo.ratingFromComments
  show (((db.posts.filter (fun p => p.author_id == u)).flatMap fun p =>
        usersRepo.leftJoinLikes likes' (fun l => l.post_id == some p.id)).map
        usersRepo.caseWeight).sum +
      (((db.comments.filter (fun c => c.author_id == u)).flatMap fun c =>
        usersRepo.leftJoinLikes likes' (fun l => l.comment_id == some c.id)).map
        usersRepo.caseWeight).sum = _
  rw [leftJoin_flatMap_congr (db.posts.filter (fun p => p.author_id == u)) db.likes likes'
      (fun p l => l.post_id == some p.id)
      (fun p hmem => hp p (List.mem_filter.mp hmem).1 (by simpa using (List.mem_filter.mp hmem).2)),
    leftJoin_flatMap_congr (db.comments.filter (fun c => c.author_id == u)) db.likes likes'
      (fun c l => l.comment_id == some c.id)
      (fun c hmem => hc c (List.mem_filter.mp hmem).1 (by simpa using (List.mem_filter.mp hmem).2))]

/-- A change of the rows of `likes` that touches no post and no comment of
another user than `au`, followed by the recompute for `au`, keeps the
rating. -/
theorem keeps_like_change {db : DB} (likes' : List Like) (au : Nat)
    (hp : WellKeyed db → ∀ p ∈ db.posts, p.author_id ≠ au →
      likes'.filter (fun l => l.post_id == some p.id) =
        db.likes.filter (fun l => l.post_id == some p.id))
    (hc : WellKeyed db → ∀ c ∈ db.comments, c.author_id ≠ au →
      likes'.filter (fun l => l.comment_id == some c.id) =
        db.likes.filter (fun l => l.comment_id == some c.id))
    (hgood : WellKeyed db → ∀ l ∈ likes',
      (∀ p ∈ l.post_id, p ∈ db.posts.map (fun q => q.id)) ∧
      (∀ c ∈ l.comment_id, c ∈ db.comments.map (fun q => q.id)) ∧
      (l.post_id = none ∨ l.comment_id = none)) :
    KeepsRating db (likesService.recomputeRating { db with likes := likes' } au) := by
  obtain ⟨h1, h2, h3, h4⟩ := recomputeRating_fields { db with likes := likes' } au
  refine ⟨h4, ?_, ?_⟩
  · intro hw
    have hg := hgood hw
    obtain ⟨w1, w2, _, _, _⟩ := hw
    unfold WellKeyed
    rw [h1, h2, h3]
    exact ⟨w1, w2, fun l hl => (hg l hl).1, fun l hl => (hg l hl).2.1,
      fun l hl => (hg l hl).2.2⟩
  · intro hw u hcons
    by_cases hu : u = au
    · rw [hu]
      exact storedRating_recompute _ au
    · have e1 : usersRepo.storedRating
          (likesService.recomputeRating { db with likes := likes' } au) u =
          usersRepo.storedRating db u :=
        storedRating_upsert_other { db with likes := likes' } au u _ hu
      rw [e1, computeRating_congr u h1 h2 h3,
        computeRating_likes likes' u
          (fun p hmem hpa => hp hw p hmem (by rw [hpa]; exact hu))
          (fun c hmem hca => hc hw c hmem (by rw [hca]; exact hu))]
      exact hcons

theorem filter_upsert_other (likes : List Like) (sel q : Like → Bool) (f : Like → Like)
    (row : Like) (hq : ∀ l ∈ likes, sel l = true → q l = false) (hf : ∀ l, q (f l) = q l)
    (hrow : q row = false) :
    (if likes.any sel then likes.map (fun l => if sel l then f l else l)
      else likes ++ [row]).filter q = likes.filter q := by
  by_cases hany : likes.any sel = true
  · rw [if_pos hany]
    clear hany
    induction likes with
    | nil => rfl
    | cons l t ih =>
      have iht := ih (fun x hx => hq x (List.mem_cons_of_mem l hx))
      by_cases hs : sel l = true
      · have hql := hq l (List.mem_cons_self l t) hs
        have hqf : q (f l) = false := by rw [hf, hql]
        simp only [List.map_cons, if_pos hs, List.filter_cons, hqf, hql, Bool.false_eq_true,
          if_false]
        exact iht
      · simp only [List.map_cons, if_neg hs, List.filter_cons]
        rw [iht]
  · rw [if_neg hany, List.filter_append]
    simp [List.filter_cons, hrow]

theorem filter_remove_other (likes : List Like) (sel q : Like → Bool)
    (hq : ∀ l ∈ likes, sel l = true → q l = false) :
    (likes.filter (fun l => !sel l)).filter q = likes.filter q := by
  rw [List.filter_filter]
  apply List.filter_congr
  intro l hl
  by_cases hs : sel l = true
  · simp [hs, hq l hl hs]
  · simp [hs]

theorem forall_upsert (likes : List Like) (sel : Like → Bool) (f : Like → Like) (row : Like)
    (P : Like → Prop) (hP : ∀ l ∈ likes, P l) (hf : ∀ l, P l → P (f l)) (hrow : P row) :
    ∀ l ∈ (if likes.any sel then likes.map (fun l => if sel l then f l else l)
      else likes ++ [row]), P l := by
  intro l hl
  by_cases hany : likes.any sel = true
  · rw [if_pos hany] at hl
    obtain ⟨x, hx, rfl⟩ := List.mem_map.mp hl
    by_cases hs : sel x = true
    · rw [if_pos hs]
      exact hf x (hP x hx)
    · rw [if_neg hs]
      exact hP x hx
  · rw [if_neg hany] at hl
    rcases List.mem_append.mp hl with h | h
    · exact hP l h
    · rw [List.mem_singleton.mp h]
      exact hrow

/-- The state `likesRepo.upsert` leaves: the one before, with the rows of
`likes` the statement describes. -/
theorem upsert_eq (tx : DB) (a : Nat) (post comment : Option Nat) (t : LikeType) :
    (likesRepo.upsert tx a post comment t).2 =
      { tx with
        likes :=
          if tx.likes.any (likesRepo.duplicatesKey
              { id := freshId (tx.likes.map (fun l => l.id)), author_id := a, post_id := post,
                comment_id := comment, type := t, publish_date := tx.now }) then
            tx.likes.map (fun l =>
              if likesRepo.duplicatesKey
                  { id := freshId (tx.likes.map (fun l => l.id)), author_id := a,
                    post_id := post, comment_id := comment, type := t,
                    publish_date := tx.now } l then
                { l with type := t, publish_date := tx.now }
              else l)
          else
            tx.likes ++
              [{ id := freshId (tx.likes.map (fun l => l.id)), author_id := a, post_id := post,
                 comment_id := comment, type := t, publish_date := tx.now }] } := by
  unfold likesRepo.upsert
  simp only []
  split <;> rfl

/-- With distinct ids, a post of another author than the one found under an
id has another id. -/
theorem other_author_other_post {db : DB} {pid : Nat} {post : postsRepo.PostRow}
    (hnd : (db.posts.map (fun p => p.id)).Nodup)
    (hfind : postsRepo.findByIdTx db pid = some post) :
    ∀ p ∈ db.posts, p.author_id ≠ post.post.author_id → p.id ≠ pid := by
  obtain ⟨hmem, hid, _⟩ := postsRepo_findByIdTx_some hfind
  intro p hp hne heq
  have : p = post.post := List.inj_on_of_nodup_map hnd hp hmem (heq.trans hid.symm)
  exact hne (by rw [this])

theorem commentsRepo_findByIdTx_some {tx : DB} {id : Nat} {row : commentsRepo.CommentRow}
    (h : commentsRepo.findByIdTx tx id = some row) :
    row.comment ∈ tx.comments ∧ row.comment.id = id := by
  unfold commentsRepo.findByIdTx at h
  have hmem : row ∈ commentsRepo.selectById tx id := List.mem_of_mem_head? h
  unfold commentsRepo.selectById at hmem
  obtain ⟨c, hc, hrow⟩ := List.mem_flatMap.mp hmem
  obtain ⟨u, _, hu⟩ := List.mem_map.mp hrow
  obtain ⟨hc1, hc2⟩ := List.mem_filter.mp hc
  rw [← hu]
  exact ⟨hc1, by simpa using hc2⟩

theorem other_author_other_comment {db : DB} {cid : Nat} {row : commentsRepo.CommentRow}
    (hnd : (db.comments.map (fun c => c.id)).Nodup)
    (hfind : commentsRepo.findByIdTx db cid = some row) :
    ∀ c ∈ db.comments, c.author_id ≠ row.comment.author_id → c.id ≠ cid := by
  obtain ⟨hmem, hid⟩ := commentsRepo_findByIdTx_some hfind
  intro c hc hne heq
  have : c = row.comment := List.inj_on_of_nodup_map hnd hc hmem (heq.trans hid.symm)
  exact hne (by rw [this])

theorem keeps_setLike_post (db : DB) (a pid : Nat) (ty : LikeType) (post : postsRepo.PostRow)
    (hfind : postsRepo.findByIdTx db pid = some post) :
    KeepsRating db (likesService.recomputeRating (likesRepo.upsertPostLike db a pid ty).2
      post.post.author_id) := by
  show KeepsRating db (likesService.recomputeRating (likesRepo.upsert db a (some pid) none ty).2
    post.post.author_id)
  rw [upsert_eq]
  have hsel : ∀ l : Like, likesRepo.duplicatesKey
      { id := freshId (db.likes.map (fun l => l.id)), author_id := a, post_id := some pid,
        comment_id := none, type := ty, publish_date := db.now } l = true →
      l.post_id = some pid := by
    intro l hl
    rw [duplicatesKey_post, Bool.and_eq_true] at hl
    exact eq_of_beq hl.2
  apply keeps_like_change
  · intro hw p hp hne
    have hpid := other_author_other_post hw.1 hfind p hp hne
    apply filter_upsert_other
    · intro l _ hs
      rw [hsel l hs]
      simpa using fun h => hpid h.symm
    · intro l
      rfl
    · simpa using fun h => hpid h.symm
  · intro hw c _ _
    apply filter_upsert_other
    · intro l hl hs
      have h1 := hsel l hs
      rcases hw.2.2.2.2 l hl with h2 | h2
      · rw [h1] at h2
        cases h2
      · rw [h2]
        rfl
    · intro l
      rfl
    · rfl
  · intro hw
    apply forall_upsert
    · intro l hl
      exact ⟨hw.2.2.1 l hl, hw.2.2.2.1 l hl, hw.2.2.2.2 l hl⟩
    · intro l hl
      exact hl
    · obtain ⟨hmem, hid, _⟩ := postsRepo_findByIdTx_some hfind
      refine ⟨?_, ?_, Or.inr rfl⟩
      · intro p hp
        have hp1 : some pid = some p := hp
        rw [← Option.some.inj hp1, ← hid]
        exact List.mem_map_of_mem (fun q : Post => q.id) hmem
      · intro c hc
        cases hc

theorem keeps_setLike_comment (db : DB) (a cid : Nat) (ty : LikeType)
    (row : commentsRepo.CommentRow) (hfind : commentsRepo.findByIdTx db cid = some row) :
    KeepsRating db (likesService.recomputeRating (likesRepo.upsertCommentLike db a cid ty).2
      row.comment.author_id) := by
  show KeepsRating db (likesService.recomputeRating (likesRepo.upsert db a none (some cid) ty).2
    row.comment.author_id)
  rw [upsert_eq]
  have hsel : ∀ l : Like, likesRepo.duplicatesKey
      { id := freshId (db.likes.map (fun l => l.id)), author_id := a, post_id := none,
        comment_id := some cid, type := ty, publish_date := db.now } l = true →
      l.comment_id = some cid := by
    intro l hl
    rw [duplicatesKey_comment, Bool.and_eq_true] at hl
    exact eq_of_beq hl.2
  apply keeps_like_change
  · intro hw p _ _
    apply filter_upsert_other
    · intro l hl hs
      have h1 := hsel l hs
      rcases hw.2.2.2.2 l hl with h2 | h2
      · rw [h2]
        rfl
      · rw [h1] at h2
        cases h2
    · intro l
      rfl
    · rfl
  · intro hw c hc hne
    have hcid := other_author_other_comment hw.2.1 hfind c hc hne
    apply filter_upsert_other
    · intro l _ hs
      rw [hsel l hs]
      simpa using fun h => hcid h.symm
    · intro l
      rfl
    · simpa using fun h => hcid h.symm
  · intro hw
    apply forall_upsert
    · intro l hl
      exact ⟨hw.2.2.1 l hl, hw.2.2.2.1 l hl, hw.2.2.2.2 l hl⟩
    · intro l hl
      exact hl
    · obtain ⟨hmem, hid⟩ := commentsRepo_findByIdTx_some hfind
      refine ⟨?_, ?_, Or.inl rfl⟩
      · intro p hp
        cases hp
      · intro c hc
        have hc1 : some cid = some c := hc
        rw [← Option.some.inj hc1, ← hid]
        exact List.mem_map_of_mem (fun q : Comment => q.id) hmem

theorem keeps_removeLike_post (db : DB) (a pid : Nat) (post : postsRepo.PostRow)
    (hfind : postsRepo.findByIdTx db pid = some post) :
    KeepsRating db (likesService.recomputeRating (likesRepo.removePostLike db a pid).2
      post.post.author_id) := by
  have hst : (likesRepo.removePostLike db a pid).2 =
      { db with
        likes := List.filter
          (fun l => !(fun l : Like => l.author_id == a && l.post_id == some pid) l) db.likes } :=
    rfl
  rw [hst]
  have hsel : ∀ l : Like, (l.author_id == a && l.post_id == some pid) = true →
      l.post_id = some pid := by
    intro l hl
    rw [Bool.and_eq_true] at hl
    exact eq_of_beq hl.2
  apply keeps_like_change
  · intro hw p hp hne
    have hpid := other_author_other_post hw.1 hfind p hp hne
    apply filter_remove_other
    intro l _ hs
    rw [hsel l hs]
    simpa using fun h => hpid h.symm
  · intro hw c _ _
    apply filter_remove_other
    intro l hl hs
    have h1 := hsel l hs
    rcases hw.2.2.2.2 l hl with h2 | h2
    · rw [h1] at h2
      cases h2
    · rw [h2]
      rfl
  · intro hw l hl
    have hl1 := (List.mem_filter.mp hl).1
    exact ⟨hw.2.2.1 l hl1, hw.2.2.2.1 l hl1, hw.2.2.2.2 l hl1⟩

theorem keeps_removeLike_comment (db : DB) (a cid : Nat) (row : commentsRepo.CommentRow)
    (hfind : commentsRepo.findByIdTx db cid = some row) :
    KeepsRating db (likesService.recomputeRating (likesRepo.removeCommentLike db a cid).2
      row.comment.author_id) := by
  have hst : (likesRepo.removeCommentLike db a cid).2 =
      { db with
        likes := List.filter
          (fun l => !(fun l : Like => l.author_id == a && l.comment_id == some cid) l)
          db.likes } :=
    rfl
  rw [hst]
  have hsel : ∀ l : Like, (l.author_id == a && l.comment_id == some cid) = true →
      l.comment_id = some cid := by
    intro l hl
    rw [Bool.and_eq_true] at hl
    exact eq_of_beq hl.2
  apply keeps_like_change
  · intro hw p _ _
    apply filter_remove_other
    intro l hl hs
    have h1 := hsel l hs
    rcases hw.2.2.2.2 l hl with h2 | h2
    · rw [h2]
      rfl
    · rw [h1] at h2
      cases h2
  · intro hw c hc hne
    have hcid := other_author_other_comment hw.2.1 hfind c hc hne
    apply filter_remove_other
    intro l _ hs
    rw [hsel l hs]
    simpa using fun h => hcid h.symm
  · intro hw l hl
    have hl1 := (List.mem_filter.mp hl).1
    exact ⟨hw.2.2.1 l hl1, hw.2.2.2.1 l hl1, hw.2.2.2.2 l hl1⟩

theorem setLike_keeps (db : DB) (actor : Option Actor) (input : likesService.LikeInput) :
    KeepsRating db (likesService.setLike db actor input).2 := by
  unfold likesService.setLike
  cases likesService.parseType input.type with
  | none => exact keepsRating_refl db
  | some ty =>
    simp only []
    by_cases hbad : likesService.badTarget input = true
    · rw [if_pos hbad]
      exact keepsRating_refl db
    · rw [if_neg hbad]
      unfold transaction
      simp only []
      by_cases hp : likesService.truthyId input.post_id = true
      · simp only [hp, if_true]
        cases hfind : postsRepo.findByIdTx db (input.post_id.getD 0) with
        | none => exact keepsRating_refl db
        | some post =>
          cases actor with
          | none => exact keepsRating_refl db
          | some a => exact keeps_setLike_post db a.id _ ty post hfind
      · simp only [hp, Bool.false_eq_true, if_false]
        cases hfind : commentsRepo.findByIdTx db (input.comment_id.getD 0) with
        | none => exact keepsRating_refl db
        | some row =>
          cases actor with
          | none => exact keepsRating_refl db
          | some a => exact keeps_setLike_comment db a.id _ ty row hfind

theorem removeLike_keeps (db : DB) (actor : Option Actor) (input : likesService.LikeInput) :
    KeepsRating db (likesService.removeLike db actor input).2 := by
  unfold likesService.removeLike
  by_cases hbad : likesService.badTarget input = true
  · rw [if_pos hbad]
    exact keepsRating_refl db
  · rw [if_neg hbad]
    unfold transaction
    simp only []
    by_cases hp : likesService.truthyId input.post_id = true
    · simp only [hp, if_true]
      cases hfind : postsRepo.findByIdTx db (input.post_id.getD 0) with
      | none => exact keepsRating_refl db
      | some post =>
        cases actor with
        | none => exact keepsRating_refl db
        | some a => exact keeps_removeLike_post db a.id _ post hfind
    · simp only [hp, Bool.false_eq_true, if_false]
      cases hfind : commentsRepo.findByIdTx db (input.comment_id.getD 0) with
      | none => exact keepsRating_refl db
      | some row =>
        cases actor with
        | none => exact keepsRating_refl db
        | some a => exact keeps_removeLike_comment db a.id _ row hfind

theorem keepsRating_trans {a b c : DB} (h1 : KeepsRating a b) (h2 : KeepsRating b c) :
    KeepsRating a c :=
  ⟨h2.1.trans h1.1, fun hw => h2.2.1 (h1.2.1 hw),
    fun hw u h => h2.2.2 (h1.2.1 hw) u (h1.2.2 hw u h)⟩

/-- Every step that is not a removal keeps the rating, whether its call
succeeds or fails. -/
theorem step_keeps (db : DB) (op : Op) (h : op.isRemoval = false) :
    KeepsRating db (op.result db).2 := by
  cases op with
  | postCreate actor input => exact postCreate_keeps db actor input
  | postUpdate actor postId input => exact postUpdate_keeps db actor postId input
  | postRemove actor postId => cases h
  | postSetLock actor postId locked => exact postSetLock_keeps db actor postId locked
  | commentCreate actor input => exact commentCreate_keeps db actor input
  | commentUpdate actor commentId input => exact commentUpdate_keeps db actor commentId input
  | commentRemove actor commentId => cases h
  | commentSetLock actor commentId locked =>
    exact commentSetLock_keeps db actor commentId locked
  | setLike actor input => exact setLike_keeps db actor input
  | removeLike actor input => exact removeLike_keeps db actor input
  | tick t => exact tick_keeps db t

theorem run_keeps (db : DB) (ops : List Op) (h : ∀ op ∈ ops, op.isRemoval = false) :
    KeepsRating db (run db ops) := by
  induction ops generalizing db with
  | nil => exact keepsRating_refl db
  | cons op rest ih =>
    have h1 := step_keeps db op (h op (List.mem_cons_self op rest))
    have h2 := ih (op.result db).2 (fun o ho => h o (List.mem_cons_of_mem op ho))
    exact keepsRating_trans h1 h2

/-- With distinct ids the recompute formula of the code is the formula of the
specification. -/
theorem computeRating_is_specRating (db : DB) (u : Nat)
    (hp : (db.posts.map (fun p => p.id)).Nodup)
    (hc : (db.comments.map (fun c => c.id)).Nodup) :
    usersRepo.computeRatingForUserTx db u = specRating db u := by
  unfold usersRepo.computeRatingForUserTx specRating
  rw [ratingFromPosts_eq db u hp, ratingFromComments_eq db u hc]

/-- C20, amended: starting from a state with distinct post and comment ids
whose likes refer each to one existing post or comment, in which the rating
stored for every user is the sum over the likes on the user's posts and
comments of +1 for a like and -1 for a dislike, after any sequence of calls of
`postsService`, `commentsService` and `likesService` other than the removal
of a post or of a comment (create, update, setLock, setLike, removeLike,
succeeding or failing, the clock advancing at will between them) the rating
stored for every user is still that sum over the current rows, and the key
conditions still hold. -/
theorem rating_consistency_invariant (db : DB) (ops : List Op) (hw : WellKeyed db)
    (hcons : RatingConsistent db) (hops : ∀ op ∈ ops, op.isRemoval = false) :
    RatingConsistent (run db ops) ∧ WellKeyed (run db ops) := by
  obtain ⟨husers, hwf, hkeep⟩ := run_keeps db ops hops
  have hw1 := hwf hw
  refine ⟨?_, hw1⟩
  intro u hu
  rw [husers] at hu
  have h0 : usersRepo.storedRating db u.id = usersRepo.computeRatingForUserTx db u.id := by
    rw [computeRating_is_specRating db u.id hw.1 hw.2.1]
    exact hcons u hu
  rw [← computeRating_is_specRating (run db ops) u.id hw1.1 hw1.2.1]
  exact hkeep hw u.id h0

theorem rating_consistency_invariant_witness :
    RatingConsistent
      (run consistentDB
        [Op.setLike (some bob) { type := JsVal.str "dislike", post_id := some 3 },
         Op.tick 200,
         Op.postCreate (some bob) { title := "a", content := "b" },
         Op.commentUpdate (some bob) 2 { status := some Status.active },
         Op.removeLike (some ann) { comment_id := some 1 }]) :=
  (rating_consistency_invariant consistentDB
    [Op.setLike (some bob) { type := JsVal.str "dislike", post_id := some 3 },
     Op.tick 200,
     Op.postCreate (some bob) { title := "a", content := "b" },
     Op.commentUpdate (some bob) 2 { status := some Status.active },
     Op.removeLike (some ann) { comment_id := some 1 }]
    (by decide) (by decide) (by decide)).1

/-- C20, as stated, fails: the example state with every rating stored is
consistent; the admin removes post 1, which has a like, and the call
succeeds, but the rating stored for the author of the post stays 1 while the
sum over the current rows is 0.  The same happens when the admin removes
comment 1, which has a dislike. -/
theorem remove_breaks_rating_consistency :
    WellKeyed consistentDB ∧ RatingConsistent consistentDB ∧
    allSucceed consistentDB [Op.postRemove (some root) 1] = true ∧
    ¬ RatingConsistent (run consistentDB [Op.postRemove (some root) 1]) ∧
    allSucceed consistentDB [Op.commentRemove (some root) 1] = true ∧
    ¬ RatingConsistent (run consistentDB [Op.commentRemove (some root) 1]) ∧
    ¬ (∀ (db : DB) (ops : List Op), RatingConsistent db → allSucceed db ops = true →
        RatingConsistent (run db ops)) := by
  refine ⟨by decide, by decide, by decide, by decide, by decide, by decide, ?_⟩
  intro h
  exact absurd (h consistentDB [Op.postRemove (some root) 1] (by decide) (by decide))
    (by decide)

/-! ### The rows of `likes` after a call of `likesService` -/

theorem truthyId_eq_true {o : Option Nat} (h : likesService.truthyId o = true) :
    ∃ n, o = some n ∧ n ≠ 0 := by
  cases o with
  | none => cases h
  | some n =>
    refine ⟨n, rfl, ?_⟩
    simpa [likesService.truthyId] using h

theorem badTarget_false_comment {input : likesService.LikeInput}
    (hbad : ¬ likesService.badTarget input = true)
    (hp : ¬ likesService.truthyId input.post_id = true) :
    likesService.truthyId input.comment_id = true := by
  unfold likesService.badTarget at hbad
  cases h1 : likesService.truthyId input.post_id
  · cases h2 : likesService.truthyId input.comment_id
    · rw [h1, h2] at hbad
      exact absurd rfl hbad
    · rfl
  · exact absurd h1 hp

/-- The state a call of `setLike` leaves: the one it found, or, for an actor
and an existing target with an id that is not 0, named by exactly one of the
two ids of the input, the upsert of the reaction followed by the recompute
for the author of the target. -/
theorem setLike_state (db : DB) (actor : Option Actor) (input : likesService.LikeInput) :
    (likesService.setLike db actor input).2 = db ∨
    ∃ (a : Actor) (ty : LikeType) (tg : Target) (au : Nat),
      actor = some a ∧ tg.id ≠ 0 ∧ tg.authorIn db = some au ∧
      ((tg.post_id = input.post_id ∧ tg.comment_id = none) ∨
        (tg.comment_id = input.comment_id ∧ tg.post_id = none)) ∧
      (likesService.setLike db actor input).2 =
        likesService.recomputeRating
          (likesRepo.upsert db a.id tg.post_id tg.comment_id ty).2 au := by
  unfold likesService.setLike
  cases likesService.parseType input.type with
  | none => exact Or.inl rfl
  | some ty =>
    simp only []
    by_cases hbad : likesService.badTarget input = true
    · rw [if_pos hbad]
      exact Or.inl rfl
    · rw [if_neg hbad]
      unfold transaction
      simp only []
      by_cases hp : likesService.truthyId input.post_id = true
      · obtain ⟨pid, hpid, hne⟩ := truthyId_eq_true hp
        rw [hpid] at hp
        simp only [hpid, hp, if_true, Option.getD_some]
        cases hfind : postsRepo.findByIdTx db pid with
        | none => exact Or.inl rfl
        | some post =>
          cases actor with
          | none => exact Or.inl rfl
          | some a =>
            refine Or.inr ⟨a, ty, Target.post pid, post.post.author_id, rfl, hne, ?_,
              Or.inl ⟨rfl, rfl⟩, rfl⟩
            show (postsRepo.findByIdTx db pid).map (fun r => r.post.author_id) = _
            rw [hfind]
            rfl
      · obtain ⟨cid, hcid, hne⟩ := truthyId_eq_true (badTarget_false_comment hbad hp)
        simp only [hp, Bool.false_eq_true, if_false, hcid, Option.getD_some]
        cases hfind : commentsRepo.findByIdTx db cid with
        | none => exact Or.inl rfl
        | some row =>
          cases actor with
          | none => exact Or.inl rfl
          | some a =>
            refine Or.inr ⟨a, ty, Target.comment cid, row.comment.author_id, rfl, hne, ?_,
              Or.inr ⟨rfl, rfl⟩, rfl⟩
            show (commentsRepo.findByIdTx db cid).map (fun r => r.comment.author_id) = _
            rw [hfind]
            rfl

/-- The state a call of `removeLike` leaves: the one it found, or, for an
actor and an existing target with an id that is not 0, named by exactly one
of the two ids of the input, the state without the rows of the actor on the
target, followed by the recompute for the author of the target. -/
theorem removeLike_state (db : DB) (actor : Option Actor) (input : likesService.LikeInput) :
    (likesService.removeLike db actor input).2 = db ∨
    ∃ (a : Actor) (tg : Target) (au : Nat),
      actor = some a ∧ tg.id ≠ 0 ∧ tg.authorIn db = some au ∧
      ((tg.post_id = input.post_id ∧ tg.comment_id = none) ∨
        (tg.comment_id = input.comment_id ∧ tg.post_id = none)) ∧
      (likesService.removeLike db actor input).2 =
        likesService.recomputeRating
          { db with likes := db.likes.filter (fun l => !tg.reactionOf a.id l) } au := by
  unfold likesService.removeLike
  by_cases hbad : likesService.badTarget input = true
  · rw [if_pos hbad]
    exact Or.inl rfl
  · rw [if_neg hbad]
    unfold transaction
    simp only []
    by_cases hp : likesService.truthyId input.post_id = true
    · obtain ⟨pid, hpid, hne⟩ := truthyId_eq_true hp
      rw [hpid] at hp
      simp only [hpid, hp, if_true, Option.getD_some]
      cases hfind : postsRepo.findByIdTx db pid with
      | none => exact Or.inl rfl
      | some post =>
        cases actor with
        | none => exact Or.inl rfl
        | some a =>
          refine Or.inr ⟨a, Target.post pid, post.post.author_id, rfl, hne, ?_,
            Or.inl ⟨rfl, rfl⟩, rfl⟩
          show (postsRepo.findByIdTx db pid).map (fun r => r.post.author_id) = _
          rw [hfind]
          rfl
    · obtain ⟨cid, hcid, hne⟩ := truthyId_eq_true (badTarget_false_comment hbad hp)
      simp only [hp, Bool.false_eq_true, if_false, hcid, Option.getD_some]
      cases hfind : commentsRepo.findByIdTx db cid with
      | none => exact Or.inl rfl
      | some row =>
        cases actor with
        | none => exact Or.inl rfl
        | some a =>
          refine Or.inr ⟨a, Target.comment cid, row.comment.author_id, rfl, hne, ?_,
            Or.inr ⟨rfl, rfl⟩, rfl⟩
          show (commentsRepo.findByIdTx db cid).map (fun r => r.comment.author_id) = _
          rw [hfind]
          rfl

theorem upsert_likes_forall (db : DB) (a : Nat) (post comment : Option Nat) (ty : LikeType)
    (P : Like → Prop) (hP : ∀ l ∈ db.likes, P l)
    (hf : ∀ (l : Like) (t : LikeType) (d : Nat), P l → P { l with type := t, publish_date := d })
    (hrow : ∀ id d : Nat,
      P { id := id, author_id := a, post_id := post, comment_id := comment, type := ty,
          publish_date := d }) :
    ∀ l ∈ (likesRepo.upsert db a post comment ty).2.likes, P l := by
  rw [upsert_eq]
  exact forall_upsert db.likes _ _ _ P hP (fun l hl => hf l ty db.now hl) (hrow _ _)

/-- Every row of `likes` after a call of `setLike` has a property that the
rows before had, that a change of type and date keeps, and that a row with
exactly one target has. -/
theorem setLike_likes_forall (db : DB) (actor : Option Actor) (input : likesService.LikeInput)
    (P : Like → Prop) (hP : ∀ l ∈ db.likes, P l)
    (hf : ∀ (l : Like) (t : LikeType) (d : Nat), P l → P { l with type := t, publish_date := d })
    (hrow : ∀ l : Like, l.hasOneTarget = true → P l) :
    ∀ l ∈ (likesService.setLike db actor input).2.likes, P l := by
  rcases setLike_state db actor input with h | ⟨a, ty, tg, au, _, _, _, _, h⟩
  · rw [h]
    exact hP
  · rw [h, (recomputeRating_fields _ au).2.2.1]
    apply upsert_likes_forall db a.id tg.post_id tg.comment_id ty P hP hf
    intro id d
    apply hrow
    cases tg <;> rfl

theorem removeLike_likes_forall (db : DB) (actor : Option Actor)
    (input : likesService.LikeInput) (P : Like → Prop) (hP : ∀ l ∈ db.likes, P l) :
    ∀ l ∈ (likesService.removeLike db actor input).2.likes, P l := by
  rcases removeLike_state db actor input with h | ⟨a, tg, au, _, _, _, _, h⟩
  · rw [h]
    exact hP
  · rw [h, (recomputeRating_fields _ au).2.2.1]
    intro l hl
    exact hP l (List.mem_filter.mp hl).1

/-- C21: every row of `likes` that `likesService.setLike` leaves either has
exactly one of `post_id` and `comment_id` set, or is a row it found, with the
targets it had; and in every state reached through calls of `setLike` and
`removeLike` (succeeding or failing) from a state in which every row of
`likes` has exactly one target, every row of `likes` has exactly one target,
never both and never neither. -/
theorem like_rows_have_one_target (db : DB) (ops : List Op)
    (hops : ∀ op ∈ ops, op.isReaction = true)
    (h : ∀ l ∈ db.likes, l.hasOneTarget = true) :
    (∀ (actor : Option Actor) (input : likesService.LikeInput),
      ∀ l ∈ (likesService.setLike db actor input).2.likes,
        l.hasOneTarget = true ∨
          ∃ l0 ∈ db.likes, l.post_id = l0.post_id ∧ l.comment_id = l0.comment_id) ∧
    ∀ l ∈ (run db ops).likes, l.hasOneTarget = true := by
  constructor
  · intro actor input
    apply setLike_likes_forall db actor input
    · intro l hl
      exact Or.inr ⟨l, hl, rfl, rfl⟩
    · intro l t d hl
      exact hl
    · intro l hl
      exact Or.inl hl
  · induction ops generalizing db with
    | nil => exact h
    | cons op rest ih =>
      apply ih (op.result db).2 (fun o ho => hops o (List.mem_cons_of_mem op ho))
      have hop := hops op (List.mem_cons_self op rest)
      cases op with
      | setLike actor input =>
        exact setLike_likes_forall db actor input _ h (fun l t d hl => hl) (fun l hl => hl)
      | removeLike actor input => exact removeLike_likes_forall db actor input _ h
      | postCreate actor input => cases hop
      | postUpdate actor postId input => cases hop
      | postRemove actor postId => cases hop
      | postSetLock actor postId locked => cases hop
      | commentCreate actor input => cases hop
      | commentUpdate actor commentId input => cases hop
      | commentRemove actor commentId => cases hop
      | commentSetLock actor commentId locked => cases hop
      | tick t => cases hop

theorem like_rows_have_one_target_witness :
    (∀ l ∈ exampleDB.likes, l.hasOneTarget = true) ∧
    (∀ l ∈ (run exampleDB
        [Op.setLike (some bob) { type := JsVal.str "dislike", post_id := some 3 },
         Op.setLike (some ann) { type := JsVal.str "like", comment_id := some 2 },
         Op.removeLike (some bob) { post_id := some 1 },
         Op.setLike (some bob) { type := JsVal.str "like", post_id := some 3 }]).likes,
      l.hasOneTarget = true) :=
  ⟨by decide,
    (like_rows_have_one_target exampleDB
      [Op.setLike (some bob) { type := JsVal.str "dislike", post_id := some 3 },
       Op.setLike (some ann) { type := JsVal.str "like", comment_id := some 2 },
       Op.removeLike (some bob) { post_id := some 1 },
       Op.setLike (some bob) { type := JsVal.str "like", post_id := some 3 }]
      (by decide) (by decide)).2⟩

theorem reactionOf_true {tg : Target} {a : Nat} {l : Like} (h : tg.reactionOf a l = true) :
    l.author_id = a ∧ ((tg.post_id = l.post_id ∧ tg.comment_id = none) ∨
      (tg.comment_id = l.comment_id ∧ tg.post_id = none)) := by
  cases tg with
  | post pid =>
    have h1 : (l.author_id == a && l.post_id == some pid) = true := h
    rw [Bool.and_eq_true] at h1
    exact ⟨eq_of_beq h1.1, Or.inl ⟨(eq_of_beq h1.2).symm, rfl⟩⟩
  | comment cid =>
    have h1 : (l.author_id == a && l.comment_id == some cid) = true := h
    rw [Bool.and_eq_true] at h1
    exact ⟨eq_of_beq h1.1, Or.inr ⟨(eq_of_beq h1.2).symm, rfl⟩⟩

theorem target_post_id_some (tg : Target) (h : tg.comment_id = none) :
    ∃ pid, tg.post_id = some pid := by
  cases tg with
  | post pid => exact ⟨pid, rfl⟩
  | comment cid => cases h

theorem target_comment_id_some (tg : Target) (h : tg.post_id = none) :
    ∃ cid, tg.comment_id = some cid := by
  cases tg with
  | post pid => cases h
  | comment cid => exact ⟨cid, rfl⟩

/-- The rows of `likes` after `removeLike` are the rows before, in their
order, without some rows; a row that is missing is a row of the actor on the
post, or on the comment, that the input names. -/
theorem removeLike_keep (db : DB) (actor : Option Actor) (input : likesService.LikeInput) :
    ∃ keep : Like → Bool,
      (likesService.removeLike db actor input).2.likes = db.likes.filter keep ∧
      ∀ l, keep l = false →
        ∃ a, actor = some a ∧ l.author_id = a.id ∧
          ((∃ pid, l.post_id = some pid ∧ input.post_id = some pid) ∨
            (∃ cid, l.comment_id = some cid ∧ input.comment_id = some cid)) := by
  rcases removeLike_state db actor input with h | ⟨a, tg, au, hact, _, _, htg, h⟩
  · refine ⟨fun _ => true, ?_, fun l hl => by cases hl⟩
    rw [h]
    simp
  · refine ⟨fun l => !tg.reactionOf a.id l, ?_, ?_⟩
    · rw [h, (recomputeRating_fields _ au).2.2.1]
    · intro l hl
      have hr : tg.reactionOf a.id l = true := by simpa using hl
      obtain ⟨hau, hkind⟩ := reactionOf_true hr
      refine ⟨a, hact, hau, ?_⟩
      rcases htg with ⟨hp, hc⟩ | ⟨hc, hp⟩
      · obtain ⟨pid, hpid⟩ := target_post_id_some tg hc
        rcases hkind with ⟨h1, _⟩ | ⟨_, h2⟩
        · exact Or.inl ⟨pid, by rw [← h1, hpid], by rw [← hp, hpid]⟩
        · rw [hpid] at h2
          cases h2
      · obtain ⟨cid, hcid⟩ := target_comment_id_some tg hp
        rcases hkind with ⟨_, h2⟩ | ⟨h1, _⟩
        · rw [hcid] at h2
          cases h2
        · exact Or.inr ⟨cid, by rw [← h1, hcid], by rw [← hc, hcid]⟩

/-- C22: for every state, actor and input, the rows of `likes` after
`likesService.removeLike` are the rows before, unchanged and in their order,
except rows whose `author_id` is the id of the actor and whose post, or
comment, is the one the input names: every row of another author and every
row on another target is present afterwards. -/
theorem removeLike_removes_own_reaction_only (db : DB) (actor : Option Actor)
    (input : likesService.LikeInput) :
    (likesService.removeLike db actor input).2.likes.Sublist db.likes ∧
    (∀ l ∈ db.likes, l ∉ (likesService.removeLike db actor input).2.likes →
      ∃ a, actor = some a ∧ l.author_id = a.id ∧
        ((∃ pid, l.post_id = some pid ∧ input.post_id = some pid) ∨
          (∃ cid, l.comment_id = some cid ∧ input.comment_id = some cid))) ∧
    (∀ l ∈ db.likes, (∀ a, actor = some a → l.author_id ≠ a.id) →
      l ∈ (likesService.removeLike db actor input).2.likes) ∧
    (∀ l ∈ db.likes, l.post_id ≠ input.post_id → l.comment_id ≠ input.comment_id →
      l ∈ (likesService.removeLike db actor input).2.likes) := by
  obtain ⟨keep, hlikes, hkeep⟩ := removeLike_keep db actor input
  have hmem : ∀ l ∈ db.likes, l ∉ (likesService.removeLike db actor input).2.likes →
      keep l = false := by
    intro l hl hnot
    cases hk : keep l
    · rfl
    · exact absurd (by rw [hlikes]; exact List.mem_filter.mpr ⟨hl, hk⟩) hnot
  refine ⟨?_, ?_, ?_, ?_⟩
  · rw [hlikes]
    exact List.filter_sublist db.likes
  · intro l hl hnot
    exact hkeep l (hmem l hl hnot)
  · intro l hl hother
    by_contra hnot
    obtain ⟨a, hact, hau, _⟩ := hkeep l (hmem l hl hnot)
    exact hother a hact hau
  · intro l hl hpost hcomment
    by_contra hnot
    obtain ⟨a, _, _, htg⟩ := hkeep l (hmem l hl hnot)
    rcases htg with ⟨pid, h1, h2⟩ | ⟨cid, h1, h2⟩
    · exact hpost (h1.trans h2.symm)
    · exact hcomment (h1.trans h2.symm)

/-! ### The owner-or-admin check -/

/-- C23: in both services `ensureOwnerOrAdmin` ends with NotFound when the
entity is missing, whatever the actor; for an entity that exists it returns
exactly when the actor is an admin or the author of the entity, and ends with
Forbidden in every other case, a missing actor included; on a post and a
comment of the same author the two checks give the same result, and on
missing entities the same kind of error. -/
theorem ensureOwnerOrAdmin_same_in_both_services (actor : Option Actor) :
    (outcomeKind (postsService.ensureOwnerOrAdmin actor none) = some ErrKind.NotFound ∧
      outcomeKind (commentsService.ensureOwnerOrAdmin actor none) = some ErrKind.NotFound) ∧
    (∀ p : postsRepo.PostRow,
      (postsService.ensureOwnerOrAdmin actor (some p) = .ok () ↔
        ∃ a, actor = some a ∧ (a.role = Role.admin ∨ a.id = p.post.author_id)) ∧
      (postsService.ensureOwnerOrAdmin actor (some p) ≠ .ok () →
        postsService.ensureOwnerOrAdmin actor (some p) =
          .error (Forbidden "Only owner or admin"))) ∧
    (∀ c : commentsRepo.CommentRow,
      (commentsService.ensureOwnerOrAdmin actor (some c) = .ok () ↔
        ∃ a, actor = some a ∧ (a.role = Role.admin ∨ a.id = c.comment.author_id)) ∧
      (commentsService.ensureOwnerOrAdmin actor (some c) ≠ .ok () →
        commentsService.ensureOwnerOrAdmin actor (some c) =
          .error (Forbidden "Only owner or admin"))) ∧
    (∀ (p : postsRepo.PostRow) (c : commentsRepo.CommentRow),
      p.post.author_id = c.comment.author_id →
      postsService.ensureOwnerOrAdmin actor (some p) =
        commentsService.ensureOwnerOrAdmin actor (some c)) := by
  refine ⟨⟨rfl, rfl⟩, ?_, ?_, ?_⟩
  · intro p
    unfold postsService.ensureOwnerOrAdmin
    rcases actor with _ | ⟨aid, role⟩
    · simp [isAdminActor, roleOf]
    · cases role
      · by_cases h : p.post.author_id = aid
        · simp [isAdminActor, roleOf, h]
        · have h1 : ¬ aid = p.post.author_id := fun e => h e.symm
          simp [isAdminActor, roleOf, h, h1]
      · simp [isAdminActor, roleOf]
  · intro c
    unfold commentsService.ensureOwnerOrAdmin
    rcases actor with _ | ⟨aid, role⟩
    · simp [isAdminActor, roleOf]
    · cases role
      · by_cases h : c.comment.author_id = aid
        · simp [isAdminActor, roleOf, h]
        · have h1 : ¬ aid = c.comment.author_id := fun e => h e.symm
          simp [isAdminActor, roleOf, h, h1]
      · simp [isAdminActor, roleOf]
  · intro p c h
    unfold postsService.ensureOwnerOrAdmin commentsService.ensureOwnerOrAdmin
    simp only [h]

/-! ### Hidden and absent posts -/

/-- C24 fails on the code: for a post that exists, is not active and is
neither of the actor nor seen by an admin, `postsService.findById` ends with
NotFound and the message `Post not available`, while for an id no post has
it ends with NotFound and the message `Post not found`.  The error handler
answers both with status 404 and puts the message in the body, so the two
responses differ: in the example, for the first user and for nobody, on post
2 (inactive, of the second user) and on the absent id 99. -/
theorem hidden_post_message_differs_from_absent :
    (∀ (db : DB) (id : Nat) (actor : Option Actor) (p : postsRepo.PostRow),
      postsRepo.findById db id = some p → p.post.status ≠ Status.active →
      (∀ a, actor = some a → a.role ≠ Role.admin ∧ a.id ≠ p.post.author_id) →
      postsService.findById db id (postsService.optsWrapping actor) =
        .error (NotFound "Post not available")) ∧
    (∀ (db : DB) (id : Nat) (actor : Option Actor),
      postsRepo.findById db id = none →
      postsService.findById db id (postsService.optsWrapping actor) =
        .error (NotFound "Post not found")) ∧
    postsService.findById exampleDB 2 (postsService.optsWrapping (some ann)) =
      .error (NotFound "Post not available") ∧
    postsService.findById exampleDB 99 (postsService.optsWrapping (some ann)) =
      .error (NotFound "Post not found") ∧
    postsService.findById exampleDB 2 (postsService.optsWrapping none) =
      .error (NotFound "Post not available") ∧
    errorHandler.respond (NotFound "Post not available") = (404, "Post not available") ∧
    errorHandler.respond (NotFound "Post not found") = (404, "Post not found") ∧
    errorHandler.respond (NotFound "Post not available") ≠
      errorHandler.respond (NotFound "Post not found") := by
  refine ⟨?_, ?_, by decide, by decide, by decide, by decide, by decide, by decide⟩
  · intro db id actor p hfind hst hact
    unfold postsService.findById postsService.optsWrapping
    rw [hfind]
    rcases actor with _ | ⟨aid, role⟩
    · simp [hst]
    · obtain ⟨hrole, hid⟩ := hact ⟨aid, role⟩ rfl
      cases role
      · simp [hst, hid]
      · exact absurd rfl hrole
  · intro db id actor hfind
    unfold postsService.findById
    rw [hfind]

/-! ### The ordering of a listing -/

theorem pairwise_insertOrdered {α : Type} (le : α → α → Bool)
    (htot : ∀ a b, le a b = true ∨ le b a = true)
    (htrans : ∀ a b c, le a b = true → le b c = true → le a c = true)
    (a : α) (l : List α) (hl : l.Pairwise (fun x y => le x y = true)) :
    (postsRepo.insertOrdered le a l).Pairwise (fun x y => le x y = true) := by
  induction l with
  | nil => exact List.pairwise_singleton _ a
  | cons b t ih =>
    unfold postsRepo.insertOrdered
    rw [List.pairwise_cons] at hl
    by_cases hab : le a b = true
    · rw [if_pos hab, List.pairwise_cons]
      refine ⟨?_, List.pairwise_cons.mpr hl⟩
      intro x hx
      rcases List.mem_cons.mp hx with hx | hx
      · rw [hx]
        exact hab
      · exact htrans a b x hab (hl.1 x hx)
    · rw [if_neg hab, List.pairwise_cons]
      refine ⟨?_, ih hl.2⟩
      intro x hx
      rcases (mem_insertOrdered le a x t).mp hx with hx | hx
      · rw [hx]
        rcases htot a b with h | h
        · exact absurd h hab
        · exact h
      · exact hl.1 x hx

/-- The rows `ORDER BY` gives are in order: each row precedes or ties with the
rows after it. -/
theorem pairwise_orderBy {α : Type} (le : α → α → Bool)
    (htot : ∀ a b, le a b = true ∨ le b a = true)
    (htrans : ∀ a b c, le a b = true → le b c = true → le a c = true) (l : List α) :
    (postsRepo.orderBy le l).Pairwise (fun x y => le x y = true) := by
  induction l with
  | nil => exact List.Pairwise.nil
  | cons a t ih => exact pairwise_insertOrdered le htot htrans a _ ih

/-- One descending key of an `ORDER BY` list. -/
theorem orderLe_cons_desc {β : Type} [LinearOrder β] (f : postsRepo.PostListRow → β)
    (rest : List ((postsRepo.PostListRow → postsRepo.PostListRow → Ordering) × Bool))
    (a b : postsRepo.PostListRow) :
    postsRepo.orderLe ((fun x y => compare (f x) (f y), true) :: rest) a b = true ↔
      f b < f a ∨ (f b = f a ∧ postsRepo.orderLe rest a b = true) := by
  rw [postsRepo.orderLe]
  simp only [if_true]
  cases h : compare (f b) (f a) with
  | lt =>
    have := compare_lt_iff_lt.mp h
    simp [this]
  | eq =>
    have := compare_eq_iff_eq.mp h
    simp [this]
  | gt =>
    have := compare_gt_iff_gt.mp h
    simp only [Bool.false_eq_true, false_iff, not_or, not_and]
    exact ⟨not_lt.mpr (le_of_lt this), fun e => absurd e (ne_of_gt this)⟩

theorem orderLe_default_iff (a b : postsRepo.PostListRow) :
    postsRepo.orderLe
        [(fun x y => compare x.likes_net y.likes_net, true),
         (fun x y => compare x.post.publish_date y.post.publish_date, true),
         (fun x y => compare x.post.id y.post.id, true)] a b = true ↔
      specDefaultOrder a b := by
  rw [orderLe_cons_desc (fun r => r.likes_net), orderLe_cons_desc (fun r => r.post.publish_date),
    orderLe_cons_desc (fun r => r.post.id)]
  unfold specDefaultOrder
  simp only [postsRepo.orderLe, and_true]
  constructor
  · rintro (h | ⟨h1, h2 | ⟨h2, h3⟩⟩)
    · exact Or.inl h
    · exact Or.inr ⟨h1, Or.inl h2⟩
    · exact Or.inr ⟨h1, Or.inr ⟨h2, le_of_lt_or_eq h3⟩⟩
  · rintro (h | ⟨h1, h2 | ⟨h2, h3⟩⟩)
    · exact Or.inl h
    · exact Or.inr ⟨h1, Or.inl h2⟩
    · exact Or.inr ⟨h1, Or.inr ⟨h2, lt_or_eq_of_le h3⟩⟩

theorem orderLe_likes_iff (a b : postsRepo.PostListRow) :
    postsRepo.orderLe
        [(fun x y => compare x.likes_net y.likes_net, true),
         (fun x y => compare x.post.id y.post.id, true)] a b = true ↔
      likesThenIdOrder a b := by
  rw [orderLe_cons_desc (fun r => r.likes_net), orderLe_cons_desc (fun r => r.post.id)]
  unfold likesThenIdOrder
  simp only [postsRepo.orderLe, and_true]
  constructor
  · rintro (h | ⟨h1, h2⟩)
    · exact Or.inl h
    · exact Or.inr ⟨h1, le_of_lt_or_eq h2⟩
  · rintro (h | ⟨h1, h2⟩)
    · exact Or.inl h
    · exact Or.inr ⟨h1, lt_or_eq_of_le h2⟩

theorem specDefaultOrder_total (a b : postsRepo.PostListRow) :
    specDefaultOrder a b ∨ specDefaultOrder b a := by
  unfold specDefaultOrder
  omega

theorem specDefaultOrder_trans (a b c : postsRepo.PostListRow)
    (h1 : specDefaultOrder a b) (h2 : specDefaultOrder b c) : specDefaultOrder a c := by
  unfold specDefaultOrder at *
  omega

theorem likesThenIdOrder_total (a b : postsRepo.PostListRow) :
    likesThenIdOrder a b ∨ likesThenIdOrder b a := by
  unfold likesThenIdOrder
  omega

theorem likesThenIdOrder_trans (a b c : postsRepo.PostListRow)
    (h1 : likesThenIdOrder a b) (h2 : likesThenIdOrder b c) : likesThenIdOrder a c := by
  unfold likesThenIdOrder at *
  omega

theorem listPosts_items_of_keys {env : postsRepo.Env} {db : DB} {query : postsRepo.ListQuery}
    {page : postsRepo.Page postsRepo.PostListRow}
    {keys : List ((postsRepo.PostListRow → postsRepo.PostListRow → Ordering) × Bool)}
    (hk : postsRepo.resolveOrder (postsRepo.buildOrderTerms query.sort) = some keys)
    (h : postsRepo.listPosts env db query = .ok page) :
    ∃ off lim : Nat, page.items =
      ((postsRepo.orderBy (postsRepo.orderLe keys) (postsRepo.selectRows db query)).drop off).take
        lim := by
  unfold postsRepo.listPosts at h
  simp only [hk] at h
  split at h
  · rename_i keys1 lim off hkeys _ _
    simp only [Except.ok.injEq] at h
    subst h
    cases hkeys
    exact ⟨off, lim, rfl⟩
  · cases h

theorem pairwise_window {α : Type} {R : α → α → Prop} {l : List α} (h : l.Pairwise R)
    (off lim : Nat) : ((l.drop off).take lim).Pairwise R :=
  (h.sublist (List.drop_sublist off l)).sublist (List.take_sublist lim _)

/-- The sort the handler passes on when the request carries no `sort` and no
`sortBy` (absent or empty), whatever its `order`. -/
theorem listSort_default (sortBy order : Option String)
    (hs : sortBy = none ∨ sortBy = some "") :
    postController.listSort none sortBy order = some "-likes" := by
  rcases hs with rfl | rfl <;> rfl

/-- The sort the handler passes on for an empty `sort` and no `sortBy`: none,
so that the default of `buildOrder` applies. -/
theorem listSort_empty (sortBy order : Option String)
    (hs : sortBy = none ∨ sortBy = some "") :
    postController.listSort (some "") sortBy order = none := by
  rcases hs with rfl | rfl <;> rfl

/-- C25 holds for the repository and fails for the handler.  `postsRepo.buildOrder`
without a sort (undefined or empty) gives net likes descending, then publish
date descending, then id descending, and the items `postsRepo.listPosts`
returns without a sort are in that order.  The handler `postController.list`
passes the sort `-likes` when the request carries no `sort` and no `sortBy`,
whatever its `order`; the clause is then net likes descending, then id
descending, without the publish date, and the items it returns are in that
order, while a request with an empty `sort` reaches the default of the
repository.  On two active posts without likes of which the one with the
smaller id is the more recent, the repository puts the more recent first
and the handler the one with the larger id. -/
theorem default_sort_of_listing (env : postsRepo.Env) (db : DB) (rest : postsRepo.ListQuery)
    (actor : Option Actor) :
    (∀ sort : Option String, (sort = none ∨ sort = some "") →
      postsRepo.buildOrder sort = "likes_net DESC, p.publish_date DESC, p.id DESC") ∧
    (∀ (query : postsRepo.ListQuery) (page : postsRepo.Page postsRepo.PostListRow),
      (query.sort = none ∨ query.sort = some "") →
      postsRepo.listPosts env db query = .ok page →
      page.items.Pairwise specDefaultOrder) ∧
    (∀ sortBy order : Option String, (sortBy = none ∨ sortBy = some "") →
      postController.listSort none sortBy order = some "-likes" ∧
      postController.listSort (some "") sortBy order = none) ∧
    postsRepo.buildOrder (some "-likes") = "likes_net DESC, p.id DESC" ∧
    (∀ (sortBy order : Option String) (page : postsRepo.Page postsRepo.PostListRow),
      (sortBy = none ∨ sortBy = some "") →
      postController.list env db none sortBy order rest actor = .ok page →
      page.items.Pairwise likesThenIdOrder) ∧
    (∀ (sortBy order : Option String) (page : postsRepo.Page postsRepo.PostListRow),
      (sortBy = none ∨ sortBy = some "") →
      postController.list env db (some "") sortBy order rest actor = .ok page →
      page.items.Pairwise specDefaultOrder) ∧
    (postsRepo.listPosts defaultEnv tieDB {}).map
        (fun page => page.items.map (fun r => r.post.id)) = .ok [1, 2] ∧
    (postController.list defaultEnv tieDB none none none {} none).map
        (fun page => page.items.map (fun r => r.post.id)) = .ok [2, 1] ∧
    (postController.list defaultEnv tieDB (some "") none none {} none).map
        (fun page => page.items.map (fun r => r.post.id)) = .ok [1, 2] ∧
    inDefaultOrder (postController.list defaultEnv tieDB none none none {} none) = false := by
  have hdefault : ∀ (query : postsRepo.ListQuery) (page : postsRepo.Page postsRepo.PostListRow),
      (query.sort = none ∨ query.sort = some "") →
      postsRepo.listPosts env db query = .ok page →
      page.items.Pairwise specDefaultOrder := by
    intro query page hsort h
    have hk : postsRepo.resolveOrder (postsRepo.buildOrderTerms query.sort) =
        some [(fun x y => compare x.likes_net y.likes_net, true),
          (fun x y => compare x.post.publish_date y.post.publish_date, true),
          (fun x y => compare x.post.id y.post.id, true)] := by
      rcases hsort with hsort | hsort <;> rw [hsort] <;> rfl
    obtain ⟨off, lim, hitems⟩ := listPosts_items_of_keys hk h
    rw [hitems]
    apply pairwise_window
    have hp := pairwise_orderBy
      (postsRepo.orderLe [(fun x y => compare x.likes_net y.likes_net, true),
        (fun x y => compare x.post.publish_date y.post.publish_date, true),
        (fun x y => compare x.post.id y.post.id, true)])
      (fun a b => by
        rw [orderLe_default_iff, orderLe_default_iff]
        exact specDefaultOrder_total a b)
      (fun a b c h1 h2 => by
        rw [orderLe_default_iff] at h1 h2 ⊢
        exact specDefaultOrder_trans a b c h1 h2)
      (postsRepo.selectRows db query)
    exact hp.imp (fun {a b} hab => (orderLe_default_iff a b).mp hab)
  refine ⟨?_, hdefault, fun sortBy order hs =>
    ⟨listSort_default sortBy order hs, listSort_empty sortBy order hs⟩, by decide, ?_, ?_,
    by decide, by decide, by decide, by decide⟩
  · intro sort hs
    rcases hs with rfl | rfl <;> decide
  · intro sortBy order page hs h
    unfold postController.list at h
    rw [listSort_default sortBy order hs] at h
    have hk : postsRepo.resolveOrder (postsRepo.buildOrderTerms
        ({ rest with sort := some "-likes", actor := actor } : postsRepo.ListQuery).sort) =
        some [(fun x y => compare x.likes_net y.likes_net, true),
          (fun x y => compare x.post.id y.post.id, true)] := by
      rfl
    obtain ⟨off, lim, hitems⟩ := listPosts_items_of_keys hk h
    rw [hitems]
    apply pairwise_window
    have hp := pairwise_orderBy
      (postsRepo.orderLe [(fun x y => compare x.likes_net y.likes_net, true),
        (fun x y => compare x.post.id y.post.id, true)])
      (fun a b => by
        rw [orderLe_likes_iff, orderLe_likes_iff]
        exact likesThenIdOrder_total a b)
      (fun a b c h1 h2 => by
        rw [orderLe_likes_iff] at h1 h2 ⊢
        exact likesThenIdOrder_trans a b c h1 h2)
      (postsRepo.selectRows db { rest with sort := some "-likes", actor := actor })
    exact hp.imp (fun {a b} hab => (orderLe_likes_iff a b).mp hab)
  · intro sortBy order page hs h
    unfold postController.list at h
    rw [listSort_empty sortBy order hs] at h
    exact hdefault { rest with sort := none, actor := actor } page (Or.inl rfl) h

theorem default_sort_of_listing_witness :
    inDefaultOrder (postsRepo.listPosts defaultEnv exampleDB { actor := some root }) = true ∧
    (∀ page : postsRepo.Page postsRepo.PostListRow,
      postsRepo.listPosts defaultEnv exampleDB { actor := some root } = .ok page →
      page.items.Pairwise specDefaultOrder) :=
  ⟨by decide, fun page h =>
    (default_sort_of_listing defaultEnv exampleDB {} none).2.1 { actor := some root } page
      (Or.inl rfl) h⟩

/-- On two active posts without likes of which the one with the smaller id
is the more recent, the listing of `postsRepo.listPosts` without a sort puts
the more recent first, while `postController.list` for a request without
`sort` and `sortBy` puts the one with the larger id first, against the
publish date: the items of the handler are not always in the default
ordering of the specification. -/
theorem handler_default_sort_ignores_publish_date :
    (postsRepo.listPosts defaultEnv tieDB {}).map
        (fun page => page.items.map (fun r => r.post.id)) = .ok [1, 2] ∧
    (postController.list defaultEnv tieDB none none none {} none).map
        (fun page => page.items.map (fun r => r.post.id)) = .ok [2, 1] ∧
    inDefaultOrder (postsRepo.listPosts defaultEnv tieDB {}) = true ∧
    inDefaultOrder (postController.list defaultEnv tieDB none none none {} none) = false ∧
    ¬ (∀ (env : postsRepo.Env) (db : DB) (rest : postsRepo.ListQuery) (actor : Option Actor)
        (page : postsRepo.Page postsRepo.PostListRow),
        postController.list env db none none none rest actor = .ok page →
        page.items.Pairwise specDefaultOrder) := by
  refine ⟨by decide, by decide, by decide, by decide, ?_⟩
  intro h
  have hfalse : inDefaultOrder (postController.list defaultEnv tieDB none none none {} none) =
      false := by decide
  cases hres : postController.list defaultEnv tieDB none none none {} none with
  | error e =>
    have hok : outcomeKind (postController.list defaultEnv tieDB none none none {} none) =
        none := by decide
    rw [hres] at hok
    cases hok
  | ok page =>
    have hp := h defaultEnv tieDB {} none page hres
    rw [hres] at hfalse
    simp [inDefaultOrder, hp] at hfalse

/-! ### Atomicity -/

/-- The pattern of every mutating method: when the body throws, whatever it
wrote before, the state after the call is the state before it. -/
theorem transaction_fst_error {α : Type} {db : DB} {body : DB → Except Err (α × DB)} {e : Err}
    (h : (transaction db body).1 = .error e) : (transaction db body).2 = db := by
  unfold transaction at h ⊢
  cases hb : body db with
  | error e1 => rfl
  | ok r =>
    rw [hb] at h
    cases h

theorem map_eq_error {α β : Type} {f : α → β} {r : Except Err α} {e : Err}
    (h : r.map f = .error e) : r = .error e := by
  cases r with
  | error e1 => simpa [Except.map] using h
  | ok a => exact absurd h (by simp [Except.map])

theorem updateWithFaults_none (db : DB) (actor : Option Actor) (postId : Nat)
    (input : postsService.UpdateInput) :
    postsService.updateWithFaults {} db actor postId input =
      postsService.update db actor postId input := by
  unfold postsService.updateWithFaults postsService.update postsService.writeFields attempt
  congr 1
  funext tx
  cases postsRepo.findByIdTx tx postId with
  | none => rfl
  | some ex =>
    simp only []
    cases postsService.ensureOwnerOrAdmin actor (some ex) with
    | error e => rfl
    | ok u =>
      simp only []
      split
      · rfl
      · cases postsService.selectFields (isAdminActor actor)
          (postsService.isOwnerOf actor ex.post) input with
        | error e => rfl
        | ok pr =>
          obtain ⟨patchDb, replaceCats⟩ := pr
          simp only []
          by_cases hp : (!patchDb.isEmpty) = true
          · simp only [hp, if_true]
            cases replaceCats <;> rfl
          · simp only [hp, if_false]
            cases replaceCats <;> rfl

theorem setLikeWithFaults_none (db : DB) (actor : Option Actor)
    (input : likesService.LikeInput) :
    likesService.setLikeWithFaults {} db actor input = likesService.setLike db actor input := by
  rfl

theorem postSetLock_error {db : DB} {actor : Option Actor} {postId : Nat} {locked : JsVal}
    {e : Err} (h : (postsService.setLock db actor postId locked).1 = .error e) :
    (postsService.setLock db actor postId locked).2 = db := by
  revert h
  unfold postsService.setLock
  cases postsService.ensureAdmin actor with
  | error e1 => exact fun _ => rfl
  | ok u => exact fun h => transaction_fst_error h

theorem commentSetLock_error {db : DB} {actor : Option Actor} {commentId : Nat}
    {locked : JsVal} {e : Err}
    (h : (commentsService.setLock db actor commentId locked).1 = .error e) :
    (commentsService.setLock db actor commentId locked).2 = db := by
  revert h
  unfold commentsService.setLock
  cases commentsService.ensureAdmin actor with
  | error e1 => exact fun _ => rfl
  | ok u => exact fun h => transaction_fst_error h

theorem setLikeWithFaults_error {faults : likesService.SetLikeFaults} {db : DB}
    {actor : Option Actor} {input : likesService.LikeInput} {e : Err}
    (h : (likesService.setLikeWithFaults faults db actor input).1 = .error e) :
    (likesService.setLikeWithFaults faults db actor input).2 = db := by
  revert h
  unfold likesService.setLikeWithFaults
  cases likesService.parseType input.type with
  | none => exact fun _ => rfl
  | some ty =>
    simp only []
    by_cases hbad : likesService.badTarget input = true
    · rw [if_pos hbad]
      exact fun _ => rfl
    · rw [if_neg hbad]
      exact fun h => transaction_fst_error h

theorem removeLike_error {db : DB} {actor : Option Actor} {input : likesService.LikeInput}
    {e : Err} (h : (likesService.removeLike db actor input).1 = .error e) :
    (likesService.removeLike db actor input).2 = db := by
  revert h
  unfold likesService.removeLike
  by_cases hbad : likesService.badTarget input = true
  · rw [if_pos hbad]
    exact fun _ => rfl
  · rw [if_neg hbad]
    exact fun h => transaction_fst_error h

/-- Every step that ends with an error leaves the state it found. -/
theorem step_error_state (db : DB) (op : Op) (e : Err) (h : (op.result db).1 = .error e) :
    (op.result db).2 = db := by
  cases op with
  | postCreate actor input =>
    have h1 : (postsService.create db actor input).1 = .error e := map_eq_error h
    exact transaction_fst_error h1
  | postUpdate actor postId input =>
    have h1 : (postsService.update db actor postId input).1 = .error e := map_eq_error h
    exact transaction_fst_error h1
  | postRemove actor postId =>
    have h1 : (postsService.remove db actor postId).1 = .error e := h
    exact transaction_fst_error h1
  | postSetLock actor postId locked =>
    have h1 : (postsService.setLock db actor postId locked).1 = .error e := map_eq_error h
    exact postSetLock_error h1
  | commentCreate actor input =>
    have h1 : (commentsService.create db actor input).1 = .error e := map_eq_error h
    exact transaction_fst_error h1
  | commentUpdate actor commentId input =>
    have h1 : (commentsService.update db actor commentId input).1 = .error e := map_eq_error h
    exact transaction_fst_error h1
  | commentRemove actor commentId =>
    have h1 : (commentsService.remove db actor commentId).1 = .error e := h
    exact transaction_fst_error h1
  | commentSetLock actor commentId locked =>
    have h1 : (commentsService.setLock db actor commentId locked).1 = .error e :=
      map_eq_error h
    exact commentSetLock_error h1
  | setLike actor input =>
    have h1 : (likesService.setLikeWithFaults {} db actor input).1 = .error e := h
    exact setLikeWithFaults_error h1
  | removeLike actor input => exact removeLike_error h
  | tick t => cases h

/-- An `update` that would replace the categories, on an engine that rejects
the replacement after carrying out the write of the post row: the call ends
with the error of the engine and the state is the one before. -/
theorem updateWithFaults_replace_fails {faults : postsService.UpdateFaults} {db db1 : DB}
    {actor : Option Actor} {postId : Nat} {input : postsService.UpdateInput}
    {cats : List Nat} {e : Err} {r : Option postsRepo.PostRow}
    (hup : faults.updatePost = none) (hrep : faults.replaceCategories = some e)
    (hcats : input.categoryIds = some cats)
    (hok : postsService.update db actor postId input = (.ok r, db1)) :
    postsService.updateWithFaults faults db actor postId input = (.error e, db) := by
  cases hfind : postsRepo.findByIdTx db postId with
  | none =>
    rw [update_not_found actor input hfind] at hok
    cases hok
  | some ex =>
    rw [update_found actor input hfind] at hok
    unfold postsService.updateWithFaults transaction
    simp only [hfind]
    cases hens : postsService.ensureOwnerOrAdmin actor (some ex) with
    | error e1 =>
      rw [hens] at hok
      cases hok
    | ok u =>
      rw [hens] at hok
      simp only [] at hok ⊢
      by_cases hl : (ex.post.locked && !isAdminActor actor) = true
      · rw [if_pos hl] at hok
        cases hok
      · rw [if_neg hl]
        cases hsel : postsService.selectFields (isAdminActor actor)
            (postsService.isOwnerOf actor ex.post) input with
        | error e1 =>
          rw [if_neg hl, hsel] at hok
          cases hok
        | ok pr =>
          obtain ⟨patchDb, replaceCats⟩ := pr
          have hc : replaceCats = some cats := (selectFields_cats hsel).trans hcats
          simp only [hc, hup, hrep, attempt]
          by_cases hp : (!patchDb.isEmpty) = true
          · simp [hp]
          · simp [hp]

/-- A `setLike` on an engine that carries out the upsert of the like and the
sums, and rejects the upsert of the rating: the call ends with the error of
the engine and the state, the rows of `likes` included, is the one before. -/
theorem setLikeWithFaults_rating_fails {faults : likesService.SetLikeFaults} {db db1 : DB}
    {actor : Option Actor} {input : likesService.LikeInput} {e : Err}
    (h1 : faults.upsertLike = none) (h2 : faults.computeRating = none)
    (h3 : faults.upsertRating = some e)
    (hok : likesService.setLike db actor input = (.ok (), db1)) :
    likesService.setLikeWithFaults faults db actor input = (.error e, db) := by
  revert hok
  unfold likesService.setLikeWithFaults likesService.setLike
  cases likesService.parseType input.type with
  | none => exact fun hok => by cases hok
  | some ty =>
    simp only []
    by_cases hbad : likesService.badTarget input = true
    · rw [if_pos hbad, if_pos hbad]
      exact fun hok => by cases hok
    · rw [if_neg hbad, if_neg hbad]
      unfold transaction likesService.writeLikeWithFaults
      simp only [h1, h2, h3, attempt]
      by_cases hp : likesService.truthyId input.post_id = true
      · simp only [hp, if_true]
        cases postsRepo.findByIdTx db (input.post_id.getD 0) with
        | none => exact fun hok => by cases hok
        | some post =>
          cases actor with
          | none => exact fun hok => by cases hok
          | some a => exact fun _ => rfl
      · simp only [hp, Bool.false_eq_true, if_false]
        cases commentsRepo.findByIdTx db (input.comment_id.getD 0) with
        | none => exact fun hok => by cases hok
        | some row =>
          cases actor with
          | none => exact fun hok => by cases hok
          | some a => exact fun _ => rfl

/-- C26: every mutating operation of `postsService`, `commentsService` and
`likesService` is atomic on error.  The wrapper every method uses gives back
the state before the call whenever the body throws, whatever it wrote
before; each of the ten operations that ends with an error leaves the state
it found; and on an engine that may reject any statement, `postsService.update`
and `likesService.setLike` leave the state they found whenever they end with
an error: an update whose category replacement is rejected after the post
row was written, and a `setLike` whose rating upsert is rejected after the
like was written, end with that error and with the state before the call. -/
theorem mutations_atomic_on_error (db : DB) :
    (∀ (α : Type) (body : DB → Except Err (α × DB)) (e : Err),
      (transaction db body).1 = .error e → (transaction db body).2 = db) ∧
    (∀ (op : Op) (e : Err), (op.result db).1 = .error e → (op.result db).2 = db) ∧
    (∀ (faults : postsService.UpdateFaults) (actor : Option Actor) (postId : Nat)
        (input : postsService.UpdateInput) (e : Err),
      (postsService.updateWithFaults faults db actor postId input).1 = .error e →
      (postsService.updateWithFaults faults db actor postId input).2 = db) ∧
    (∀ (actor : Option Actor) (postId : Nat) (input : postsService.UpdateInput),
      postsService.updateWithFaults {} db actor postId input =
        postsService.update db actor postId input) ∧
    (∀ (faults : postsService.UpdateFaults) (actor : Option Actor) (postId : Nat)
        (input : postsService.UpdateInput) (cats : List Nat) (e : Err)
        (r : Option postsRepo.PostRow) (db1 : DB),
      faults.updatePost = none → faults.replaceCategories = some e →
      input.categoryIds = some cats →
      postsService.update db actor postId input = (.ok r, db1) →
      postsService.updateWithFaults faults db actor postId input = (.error e, db)) ∧
    (∀ (faults : likesService.SetLikeFaults) (actor : Option Actor)
        (input : likesService.LikeInput) (e : Err),
      (likesService.setLikeWithFaults faults db actor input).1 = .error e →
      (likesService.setLikeWithFaults faults db actor input).2 = db) ∧
    (∀ (actor : Option Actor) (input : likesService.LikeInput),
      likesService.setLikeWithFaults {} db actor input = likesService.setLike db actor input) ∧
    (∀ (faults : likesService.SetLikeFaults) (actor : Option Actor)
        (input : likesService.LikeInput) (e : Err) (db1 : DB),
      faults.upsertLike = none → faults.computeRating = none → faults.upsertRating = some e →
      likesService.setLike db actor input = (.ok (), db1) →
      likesService.setLikeWithFaults faults db actor input = (.error e, db)) :=
  ⟨fun _ _ _ h => transaction_fst_error h,
    fun op e h => step_error_state db op e h,
    fun _ _ _ _ _ h => transaction_fst_error h,
    fun actor postId input => updateWithFaults_none db actor postId input,
    fun _ _ _ _ _ _ _ _ hup hrep hcats hok => updateWithFaults_replace_fails hup hrep hcats hok,
    fun _ _ _ _ h => setLikeWithFaults_error h,
    fun actor input => setLikeWithFaults_none db actor input,
    fun _ _ _ _ _ h1 h2 h3 hok => setLikeWithFaults_rating_fails h1 h2 h3 hok⟩

theorem mutations_atomic_on_error_witness :
    postsService.updateWithFaults { replaceCategories := some (DbError "ER_NO_REFERENCED_ROW_2") }
        exampleDB (some ann) 3 { title := some "New", categoryIds := some [9] } =
      (.error (DbError "ER_NO_REFERENCED_ROW_2"), exampleDB) ∧
    (postsService.update exampleDB (some ann) 3
        { title := some "New", categoryIds := some [9] }).2 ≠ exampleDB ∧
    likesService.setLikeWithFaults { upsertRating := some (DbError "ER_LOCK_DEADLOCK") }
        exampleDB (some bob) { type := JsVal.str "like", post_id := some 3 } =
      (.error (DbError "ER_LOCK_DEADLOCK"), exampleDB) ∧
    (Op.postUpdate (some bob) 1 { title := some "x" }).result exampleDB =
      (.error (Forbidden "Only owner or admin"), exampleDB) :=
  ⟨(mutations_atomic_on_error exampleDB).2.2.2.2.1
      { replaceCategories := some (DbError "ER_NO_REFERENCED_ROW_2") } (some ann) 3
      { title := some "New", categoryIds := some [9] } [9] (DbError "ER_NO_REFERENCED_ROW_2")
      (postsService.update exampleDB (some ann) 3
        { title := some "New", categoryIds := some [9] }).1.toOption.join
      (postsService.update exampleDB (some ann) 3
        { title := some "New", categoryIds := some [9] }).2
      rfl rfl rfl (by decide),
    by decide,
    (mutations_atomic_on_error exampleDB).2.2.2.2.2.2.2
      { upsertRating := some (DbError "ER_LOCK_DEADLOCK") } (some bob)
      { type := JsVal.str "like", post_id := some 3 } (DbError "ER_LOCK_DEADLOCK")
      (likesService.setLike exampleDB (some bob)
        { type := JsVal.str "like", post_id := some 3 }).2
      rfl rfl rfl (by decide),
    by decide⟩

/-! ### Lock flags are written by `setLock` only -/

theorem locksKept_of_mem {db db1 : DB}
    (hp : ∀ x ∈ db1.posts.map Post.lockKey, x ∈ db.posts.map Post.lockKey)
    (hc : ∀ x ∈ db1.comments.map Comment.lockKey, x ∈ db.comments.map Comment.lockKey) :
    LocksKept db db1 :=
  ⟨fun x hx => Or.inl (hp x hx), fun x hx => Or.inl (hc x hx)⟩

theorem locksKept_of_eq {db db1 : DB}
    (hp : db1.posts.map Post.lockKey = db.posts.map Post.lockKey)
    (hc : db1.comments.map Comment.lockKey = db.comments.map Comment.lockKey) :
    LocksKept db db1 :=
  locksKept_of_mem (fun _ hx => hp ▸ hx) (fun _ hx => hc ▸ hx)

theorem locksKept_refl (db : DB) : LocksKept db db := locksKept_of_eq rfl rfl

theorem map_proj_of_map {α β : Type} (rows : List α) (proj : α → β) (sel : α → Bool)
    (g : α → α) (h : ∀ r, proj (g r) = proj r) :
    (rows.map (fun r => if sel r then g r else r)).map proj = rows.map proj := by
  rw [List.map_map]
  apply List.map_congr_left
  intro r _
  by_cases hs : sel r = true
  · simp only [Function.comp_apply, if_pos hs, h]
  · simp only [Function.comp_apply, if_neg hs]

theorem updatePostTx_locks (tx : DB) (id : Nat) (patch : postsRepo.PostPatch) :
    (postsRepo.updatePostTx tx id patch).2.posts.map Post.lockKey = tx.posts.map Post.lockKey ∧
    (postsRepo.updatePostTx tx id patch).2.comments = tx.comments := by
  unfold postsRepo.updatePostTx
  by_cases h : patch.isEmpty = true
  · rw [if_pos h]
    exact ⟨rfl, rfl⟩
  · rw [if_neg h]
    exact ⟨map_proj_of_map tx.posts Post.lockKey (fun p => p.id == id)
      (postsRepo.applyPatch patch) (fun _ => rfl), rfl⟩

theorem replaceCategoriesTx_locks (tx : DB) (id : Nat) (cats : List Nat) :
    (postsRepo.replaceCategoriesTx tx id cats).2.posts = tx.posts ∧
    (postsRepo.replaceCategoriesTx tx id cats).2.comments = tx.comments := by
  refine ⟨replaceCategoriesTx_posts tx id cats, ?_⟩
  unfold postsRepo.replaceCategoriesTx postsRepo.attachCategoriesTx
  simp only []
  split
  · rfl
  · rfl

/-- The writes of `postsService.update` leave the lock flag of every post, and
the table `comments`. -/
theorem writeFields_locks (tx : DB) (id : Nat) (patch : postsRepo.PostPatch)
    (cats : Option (List Nat)) :
    (postsService.writeFields tx id patch cats).posts.map Post.lockKey =
      tx.posts.map Post.lockKey ∧
    (postsService.writeFields tx id patch cats).comments = tx.comments := by
  unfold postsService.writeFields
  have h1 : (if (!patch.isEmpty) = true then (postsRepo.updatePostTx tx id patch).2
      else tx).posts.map Post.lockKey = tx.posts.map Post.lockKey ∧
      (if (!patch.isEmpty) = true then (postsRepo.updatePostTx tx id patch).2
        else tx).comments = tx.comments := by
    split
    · exact updatePostTx_locks tx id patch
    · exact ⟨rfl, rfl⟩
  cases cats with
  | none => exact h1
  | some cs =>
    obtain ⟨h2, h3⟩ := replaceCategoriesTx_locks
      (if (!patch.isEmpty) = true then (postsRepo.updatePostTx tx id patch).2 else tx) id cs
    exact ⟨(congrArg (List.map Post.lockKey) h2).trans h1.1, h3.trans h1.2⟩

/-- The table `posts` after `postsService.update`, whoever calls it, has the
lock flag of every row as before; the table `comments` is untouched. -/
theorem postUpdate_locks (db : DB) (actor : Option Actor) (postId : Nat)
    (input : postsService.UpdateInput) :
    (postsService.update db actor postId input).2.posts.map Post.lockKey =
      db.posts.map Post.lockKey ∧
    (postsService.update db actor postId input).2.comments = db.comments := by
  cases hres : postsService.update db actor postId input with
  | mk r db1 =>
    cases r with
    | error e =>
      have h : db1 = db := transaction_error_state hres
      rw [h]
      exact ⟨rfl, rfl⟩
    | ok row =>
      obtain ⟨pr, _, hdb, _⟩ := update_ok_writeFields hres
      show db1.posts.map Post.lockKey = _ ∧ db1.comments = _
      rw [hdb]
      exact writeFields_locks db postId pr.1 pr.2

/-- The table `comments` after `commentsService.update`, whoever calls it, has
the lock flag of every row as before; the table `posts` is untouched. -/
theorem commentUpdate_locks (db : DB) (actor : Option Actor) (commentId : Nat)
    (input : commentsService.UpdateInput) :
    (commentsService.update db actor commentId input).2.comments.map Comment.lockKey =
      db.comments.map Comment.lockKey ∧
    (commentsService.update db actor commentId input).2.posts = db.posts := by
  cases hres : commentsService.update db actor commentId input with
  | mk r db1 =>
    cases r with
    | error e =>
      have h : db1 = db := transaction_error_state hres
      rw [h]
      exact ⟨rfl, rfl⟩
    | ok row =>
      obtain ⟨ex, status, _, _, _, hdb, _⟩ := comment_update_ok hres
      show db1.comments.map Comment.lockKey = _ ∧ db1.posts = _
      rw [hdb, updateCommentTx_status]
      exact ⟨map_proj_of_map db.comments Comment.lockKey (fun c => c.id == commentId)
        (fun c => { c with status := status }) (fun _ => rfl), rfl⟩

theorem postCreate_locks (db : DB) (actor : Option Actor) (input : postsService.CreateInput) :
    LocksKept db (postsService.create db actor input).2 := by
  cases actor with
  | none => exact locksKept_refl db
  | some a =>
    obtain ⟨h1, h2, _, _, _, _⟩ := post_create_fields db a input
    refine ⟨?_, ?_⟩
    · intro x hx
      rw [h1, List.map_append, List.mem_append] at hx
      rcases hx with hx | hx
      · exact Or.inl hx
      · rw [List.map_cons, List.map_nil, List.mem_singleton] at hx
        rw [hx]
        exact Or.inr (fresh_not_mem _)
    · intro x hx
      rw [h2] at hx
      exact Or.inl hx

theorem commentCreate_locks (db : DB) (actor : Option Actor)
    (input : commentsService.CreateInput) :
    LocksKept db (commentsService.create db actor input).2 := by
  cases hpost : postsRepo.findByIdTx db input.post_id with
  | none =>
    rw [create_not_found actor hpost]
    exact locksKept_refl db
  | some post =>
    rw [create_found actor hpost]
    by_cases hs : post.post.status ≠ Status.active
    · rw [if_pos hs]
      exact locksKept_refl db
    · rw [if_neg hs]
      by_cases hl : post.post.locked = true
      · rw [if_pos hl]
        exact locksKept_refl db
      · rw [if_neg hl]
        cases actor with
        | none => exact locksKept_refl db
        | some a =>
          refine ⟨fun x hx => Or.inl hx, ?_⟩
          intro x hx
          have hx1 : x ∈ (db.comments ++
              [({ id := freshId (db.comments.map (fun c => c.id)), post_id := input.post_id,
                  author_id := a.id, publish_date := db.now, content := input.content,
                  status := Status.active, locked := defaultLocked } : Comment)]).map
                Comment.lockKey := hx
          rw [List.map_append, List.mem_append] at hx1
          rcases hx1 with hx1 | hx1
          · exact Or.inl hx1
          · rw [List.map_cons, List.map_nil, List.mem_singleton] at hx1
            rw [hx1]
            exact Or.inr (fresh_not_mem _)

theorem remove_not_found {db : DB} {postId : Nat} (actor : Option Actor)
    (h : postsRepo.findByIdTx db postId = none) :
    postsService.remove db actor postId = (.error (NotFound "Post not found"), db) := by
  simp [postsService.remove, transaction, postsService.ensureOwnerOrAdmin, h]

theorem comment_remove_not_found {db : DB} {commentId : Nat} (actor : Option Actor)
    (h : commentsRepo.findByIdTx db commentId = none) :
    commentsService.remove db actor commentId = (.error (NotFound "Comment not found"), db) := by
  simp [commentsService.remove, transaction, commentsService.ensureOwnerOrAdmin, h]

theorem postRemove_locks (db : DB) (actor : Option Actor) (postId : Nat) :
    LocksKept db (postsService.remove db actor postId).2 := by
  cases hfind : postsRepo.findByIdTx db postId with
  | none =>
    rw [remove_not_found actor hfind]
    exact locksKept_refl db
  | some ex =>
    rw [remove_found actor hfind]
    cases postsService.ensureOwnerOrAdmin actor (some ex) with
    | error e1 => exact locksKept_refl db
    | ok v =>
      simp only []
      by_cases hl : (ex.post.locked && !isAdminActor actor) = true
      · rw [if_pos hl]
        exact locksKept_refl db
      · rw [if_neg hl]
        refine locksKept_of_mem ?_ (fun x hx => hx)
        intro x hx
        obtain ⟨p, hp, rfl⟩ := List.mem_map.mp hx
        exact List.mem_map_of_mem _ (List.mem_filter.mp hp).1

theorem commentRemove_locks (db : DB) (actor : Option Actor) (commentId : Nat) :
    LocksKept db (commentsService.remove db actor commentId).2 := by
  cases hfind : commentsRepo.findByIdTx db commentId with
  | none =>
    rw [comment_remove_not_found actor hfind]
    exact locksKept_refl db
  | some ex =>
    rw [comment_remove_found actor hfind]
    cases commentsService.ensureOwnerOrAdmin actor (some ex) with
    | error e1 => exact locksKept_refl db
    | ok v =>
      simp only []
      by_cases hl : (ex.comment.locked && !isAdminActor actor) = true
      · rw [if_pos hl]
        exact locksKept_refl db
      · rw [if_neg hl]
        by_cases hpl : (commentsService.parentLocked
            (postsRepo.findByIdTx db ex.comment.post_id) && !isAdminActor actor) = true
        · rw [if_pos hpl]
          exact locksKept_refl db
        · rw [if_neg hpl]
          refine locksKept_of_mem (fun x hx => hx) ?_
          intro x hx
          obtain ⟨c, hc, rfl⟩ := List.mem_map.mp hx
          exact List.mem_map_of_mem _ (List.mem_filter.mp hc).1

theorem setLock_nonadmin_state (db : DB) (actor : Option Actor) (h : isAdminActor actor = false)
    (postId commentId : Nat) (locked : JsVal) :
    (postsService.setLock db actor postId locked).2 = db ∧
    (commentsService.setLock db actor commentId locked).2 = db := by
  unfold postsService.setLock commentsService.setLock
  rw [postsService_ensureAdmin_eq, commentsService_ensureAdmin_eq, h]
  exact ⟨rfl, rfl⟩

theorem likes_keep_posts_and_comments (db : DB) (actor : Option Actor)
    (input : likesService.LikeInput) :
    ((likesService.setLike db actor input).2.posts = db.posts ∧
      (likesService.setLike db actor input).2.comments = db.comments) ∧
    ((likesService.removeLike db actor input).2.posts = db.posts ∧
      (likesService.removeLike db actor input).2.comments = db.comments) := by
  constructor
  · rcases setLike_state db actor input with h | ⟨a, ty, tg, au, _, _, _, _, h⟩
    · rw [h]
      exact ⟨rfl, rfl⟩
    · obtain ⟨h1, h2, _, _⟩ := recomputeRating_fields
        (likesRepo.upsert db a.id tg.post_id tg.comment_id ty).2 au
      obtain ⟨h3, h4, _, _, _⟩ := upsert_fields db a.id tg.post_id tg.comment_id ty
      rw [h]
      exact ⟨h1.trans h3, h2.trans h4⟩
  · rcases removeLike_state db actor input with h | ⟨a, tg, au, _, _, _, _, h⟩
    · rw [h]
      exact ⟨rfl, rfl⟩
    · obtain ⟨h1, h2, _, _⟩ := recomputeRating_fields
        { db with likes := db.likes.filter (fun l => !tg.reactionOf a.id l) } au
      rw [h]
      exact ⟨h1, h2⟩

/-- C27: a step of an actor that is not an admin, and every step that is not a
call of `setLock`, leaves the lock flag of every post and comment that is
still there: each post or comment after the call has the flag it had before,
or an id that no row had before.  In particular `postsService.update` and
`commentsService.update` leave the flag of every row, whoever calls them. -/
theorem lock_flags_written_by_admin_setLock_only (db : DB) (op : Op)
    (h : isAdminActor op.actor = false ∨ op.isSetLock = false) :
    LocksKept db (op.result db).2 ∧
    (∀ (actor : Option Actor) (postId : Nat) (input : postsService.UpdateInput),
      (postsService.update db actor postId input).2.posts.map Post.lockKey =
        db.posts.map Post.lockKey ∧
      (postsService.update db actor postId input).2.comments = db.comments) ∧
    (∀ (actor : Option Actor) (commentId : Nat) (input : commentsService.UpdateInput),
      (commentsService.update db actor commentId input).2.comments.map Comment.lockKey =
        db.comments.map Comment.lockKey ∧
      (commentsService.update db actor commentId input).2.posts = db.posts) := by
  refine ⟨?_, postUpdate_locks db, commentUpdate_locks db⟩
  cases op with
  | postCreate actor input => exact postCreate_locks db actor input
  | postUpdate actor postId input =>
    obtain ⟨h1, h2⟩ := postUpdate_locks db actor postId input
    exact locksKept_of_eq h1 (congrArg (List.map Comment.lockKey) h2)
  | postRemove actor postId => exact postRemove_locks db actor postId
  | postSetLock actor postId locked =>
    rcases h with h | h
    · show LocksKept db (postsService.setLock db actor postId locked).2
      rw [(setLock_nonadmin_state db actor h postId 0 locked).1]
      exact locksKept_refl db
    · cases h
  | commentCreate actor input => exact commentCreate_locks db actor input
  | commentUpdate actor commentId input =>
    obtain ⟨h1, h2⟩ := commentUpdate_locks db actor commentId input
    exact locksKept_of_eq (congrArg (List.map Post.lockKey) h2) h1
  | commentRemove actor commentId => exact commentRemove_locks db actor commentId
  | commentSetLock actor commentId locked =>
    rcases h with h | h
    · show LocksKept db (commentsService.setLock db actor commentId locked).2
      rw [(setLock_nonadmin_state db actor h 0 commentId locked).2]
      exact locksKept_refl db
    · cases h
  | setLike actor input =>
    obtain ⟨h1, h2⟩ := (likes_keep_posts_and_comments db actor input).1
    exact locksKept_of_eq (congrArg (List.map Post.lockKey) h1)
      (congrArg (List.map Comment.lockKey) h2)
  | removeLike actor input =>
    obtain ⟨h1, h2⟩ := (likes_keep_posts_and_comments db actor input).2
    exact locksKept_of_eq (congrArg (List.map Post.lockKey) h1)
      (congrArg (List.map Comment.lockKey) h2)
  | tick t => exact locksKept_refl db

theorem lock_flags_written_by_admin_setLock_only_witness :
    LocksKept exampleDB ((Op.postSetLock (some ann) 3 (JsVal.bool true)).result exampleDB).2 ∧
    ((Op.postSetLock (some ann) 3 (JsVal.bool true)).result exampleDB).2 = exampleDB ∧
    ((Op.postSetLock (some root) 3 (JsVal.bool true)).result exampleDB).2.posts.map
        Post.lockKey ≠ exampleDB.posts.map Post.lockKey :=
  ⟨(lock_flags_written_by_admin_setLock_only exampleDB
      (Op.postSetLock (some ann) 3 (JsVal.bool true)) (Or.inl (by decide))).1,
    by decide, by decide⟩

/-! ### Creating a user -/

/-- C28 fails on the code: `usersService.createByAdmin` never succeeds.  With a
login or an email in use it ends with status 409 and inserts nothing, as
claimed; with both free it inserts the row, reads the entity back with an id
that is `undefined`, ends with the error of the driver or with `Failed to
create user`, and the rollback takes the row out again: whatever the driver
does and whatever the state and the input, the call ends with an error and
the state before the call.  In the example, for a new login and email. -/
theorem createByAdmin_never_succeeds :
    (∀ (hash : String → String) (onUndefined : Except Err Unit) (db : DB)
        (input : usersService.CreateByAdminInput),
      ∃ e, usersService.createByAdmin hash onUndefined db input = (.error e, db)) ∧
    (∀ (hash : String → String) (onUndefined : Except Err Unit) (db : DB)
        (input : usersService.CreateByAdminInput),
      (db.users.any (fun u => u.login == input.login) = true ∨
        db.users.any (fun u => u.email == input.email) = true) →
      ∃ e, usersService.createByAdmin hash onUndefined db input = (.error e, db) ∧
        e.status = some 409) ∧
    usersService.createByAdmin (fun pw => "hash:" ++ pw)
        (.error (TypeError "Bind parameters must not contain undefined"))
        exampleDB
        { login := "carol", email := "carol@usof.test", password := "secret1",
          full_name := some "Carol", role := some Role.user } =
      (.error (TypeError "Bind parameters must not contain undefined"), exampleDB) ∧
    usersService.createByAdmin (fun pw => "hash:" ++ pw) (.ok ()) exampleDB
        { login := "carol", email := "carol@usof.test", password := "secret1",
          full_name := some "Carol", role := some Role.user } =
      (.error (Failure "Failed to create user"), exampleDB) := by
  refine ⟨?_, ?_, by decide, by decide⟩
  · intro hash onUndefined db input
    unfold usersService.createByAdmin transaction usersRepo.findByIdTx
    simp only []
    by_cases h1 : db.users.any (fun u => u.login == input.login) = true
    · rw [if_pos h1]
      exact ⟨_, rfl⟩
    · rw [if_neg h1]
      by_cases h2 : db.users.any (fun u => u.email == input.email) = true
      · rw [if_pos h2]
        exact ⟨_, rfl⟩
      · rw [if_neg h2]
        cases onUndefined with
        | error e => exact ⟨e, rfl⟩
        | ok u => exact ⟨_, rfl⟩
  · intro hash onUndefined db input h
    unfold usersService.createByAdmin transaction
    simp only []
    by_cases h1 : db.users.any (fun u => u.login == input.login) = true
    · rw [if_pos h1]
      exact ⟨_, rfl, rfl⟩
    · rw [if_neg h1]
      rcases h with h | h
      · exact absurd h h1
      · rw [if_pos h]
        exact ⟨_, rfl, rfl⟩

/-! ### The sort builders -/

/-- A value found by `lookup` is one of the values of the list. -/
theorem lookup_mem_values (map : List (String × String)) (k v : String)
    (h : map.lookup k = some v) : v ∈ map.map Prod.snd := by
  induction map with
  | nil => simp at h
  | cons e rest ih =>
    obtain ⟨a, b⟩ := e
    rw [List.lookup_cons] at h
    by_cases hk : (k == a) = true
    · rw [hk] at h
      simp only [Option.some.injEq] at h
      simp [h]
    · have hk2 : (k == a) = false := by simpa using hk
      rw [hk2] at h
      simp only [List.map_cons, List.mem_cons]
      exact Or.inr (ih h)

/-- What `map[raw]` gives, when it is not `undefined`, is a value of the map or
the text of an inherited property. -/
theorem lookupKey_cases (map : List (String × String)) (raw col : String)
    (h : postsRepo.lookupKey map raw = some col) : whitelistedOrInherited map col := by
  unfold postsRepo.lookupKey at h
  cases hl : map.lookup raw with
  | some c =>
    rw [hl] at h
    simp only [Option.some.injEq] at h
    exact Or.inl (h ▸ lookup_mem_values map raw c hl)
  | none =>
    rw [hl] at h
    by_cases hk : raw ∈ postsRepo.objectPrototypeKeys
    · rw [if_pos hk] at h
      simp only [Option.some.injEq] at h
      exact Or.inr ⟨raw, hk, h.symm⟩
    · rw [if_neg hk] at h
      exact absurd h (by simp)

/-- For a key that is not a property of `Object.prototype`, `map[raw]` is a
value of the map or `undefined`. -/
theorem lookupKey_own (map : List (String × String)) (raw col : String)
    (hk : raw ∉ postsRepo.objectPrototypeKeys)
    (h : postsRepo.lookupKey map raw = some col) : col ∈ map.map Prod.snd := by
  unfold postsRepo.lookupKey at h
  cases hl : map.lookup raw with
  | some c =>
    rw [hl] at h
    simp only [Option.some.injEq] at h
    exact h ▸ lookup_mem_values map raw c hl
  | none =>
    rw [hl, if_neg hk] at h
    exact absurd h (by simp)

/-- The column of `map[raw] || fallback`, for a fallback that is a value of the
map. -/
theorem lookupKey_getD_cases (map : List (String × String)) (raw fallback : String)
    (hf : fallback ∈ map.map Prod.snd) :
    whitelistedOrInherited map ((postsRepo.lookupKey map raw).getD fallback) := by
  cases hl : postsRepo.lookupKey map raw with
  | none => exact Or.inl hf
  | some c => exact lookupKey_cases map raw c hl

/-- The terms of the post builder: values of its map or inherited texts. -/
theorem posts_buildOrderTerms_cases (sort : Option String) :
    ∀ t ∈ postsRepo.buildOrderTerms sort,
      whitelistedOrInherited postsRepo.orderMap t.col := by
  have hd : ∀ t ∈ ([⟨"likes_net", true⟩, ⟨"p.publish_date", true⟩, ⟨"p.id", true⟩] :
      List postsRepo.OrderTerm), whitelistedOrInherited postsRepo.orderMap t.col := by
    intro t ht
    exact Or.inl ((by decide : fromWhitelist postsRepo.orderMap
      [⟨"likes_net", true⟩, ⟨"p.publish_date", true⟩, ⟨"p.id", true⟩]) t ht)
  cases sort with
  | none => exact hd
  | some s =>
    unfold postsRepo.buildOrderTerms
    simp only []
    by_cases hs : s = ""
    · rw [if_pos hs]
      exact hd
    · rw [if_neg hs]
      intro t ht
      simp only [List.mem_cons, List.mem_singleton, List.not_mem_nil, or_false] at ht
      rcases ht with rfl | rfl
      · exact lookupKey_getD_cases _ _ _ (by decide)
      · exact Or.inl (by decide)

/-- The terms of the comment builder: values of its map or inherited texts. -/
theorem comments_buildOrderTerms_cases (sort : Option String) :
    ∀ t ∈ commentsRepo.buildOrderTerms sort,
      whitelistedOrInherited commentsRepo.orderMap t.col := by
  have hd : ∀ t ∈ ([⟨"c.publish_date", true⟩, ⟨"c.id", true⟩] :
      List postsRepo.OrderTerm), whitelistedOrInherited commentsRepo.orderMap t.col := by
    intro t ht
    exact Or.inl ((by decide : fromWhitelist commentsRepo.orderMap
      [⟨"c.publish_date", true⟩, ⟨"c.id", true⟩]) t ht)
  cases sort with
  | none => exact hd
  | some s =>
    unfold commentsRepo.buildOrderTerms
    simp only []
    by_cases hs : s = ""
    · rw [if_pos hs]
      exact hd
    · rw [if_neg hs]
      intro t ht
      simp only [List.mem_cons, List.mem_singleton, List.not_mem_nil, or_false] at ht
      rcases ht with rfl | rfl
      · exact lookupKey_getD_cases _ _ _ (by decide)
      · exact Or.inl (by decide)

/-- The piece a part pushes: a value of the map or an inherited text. -/
theorem pieceOf_cases (p : List Char) (t : postsRepo.OrderTerm)
    (h : usersRepo.pieceOf p = some t) : whitelistedOrInherited usersRepo.orderMap t.col := by
  unfold usersRepo.pieceOf at h
  simp only [Option.map_eq_some'] at h
  obtain ⟨col, hcol, rfl⟩ := h
  exact lookupKey_cases _ _ _ hcol

/-- The terms of the user builder: values of its map or inherited texts. -/
theorem users_buildOrderTerms_cases (sort : Option String) :
    ∀ t ∈ usersRepo.buildOrderTerms sort,
      whitelistedOrInherited usersRepo.orderMap t.col := by
  have hd : ∀ t ∈ ([⟨"COALESCE(ur.rating, 0)", true⟩, ⟨"u.created_at", true⟩,
      ⟨"u.id", true⟩] : List postsRepo.OrderTerm),
      whitelistedOrInherited usersRepo.orderMap t.col := by
    intro t ht
    exact Or.inl ((by decide : fromWhitelist usersRepo.orderMap
      [⟨"COALESCE(ur.rating, 0)", true⟩, ⟨"u.created_at", true⟩, ⟨"u.id", true⟩]) t ht)
  cases sort with
  | none => exact hd
  | some s =>
    unfold usersRepo.buildOrderTerms
    simp only []
    by_cases hs : s = ""
    · rw [if_pos hs]
      exact hd
    · rw [if_neg hs]
      intro t ht
      rw [List.mem_append] at ht
      rcases ht with ht | ht
      · split at ht
        · simp only [List.mem_singleton] at ht
          subst ht
          exact Or.inl (by decide)
        · rw [List.mem_filterMap] at ht
          obtain ⟨p, _, hp⟩ := ht
          exact pieceOf_cases p t hp
      · simp only [List.mem_singleton] at ht
        subst ht
        exact Or.inl (by decide)

/-- C29 fails on the code: a sort key that names a property inherited from
`Object.prototype` passes the lookup `map[key]` of all three builders, and the
text of that property, which is no value of the map, becomes a column of the
`ORDER BY` fragment: `constructor` for posts, `-__proto__` for comments and
`login, -toString` for users.  For every sort argument each column is a value
of the builder's map or the text of such an inherited property, so the
inherited names are the only keys that escape the whitelist. -/
theorem buildOrder_inherited_key_reaches_sql :
    (postsRepo.buildOrder (some "constructor") =
        "function Object() \x7b [native code] \x7d ASC, p.id DESC" ∧
      ¬ fromWhitelist postsRepo.orderMap (postsRepo.buildOrderTerms (some "constructor"))) ∧
    (commentsRepo.buildOrder (some "-__proto__") = "[object Object] DESC, c.id DESC" ∧
      ¬ fromWhitelist commentsRepo.orderMap
        (commentsRepo.buildOrderTerms (some "-__proto__"))) ∧
    (usersRepo.buildOrder (some "login, -toString") =
        "u.login ASC, function toString() \x7b [native code] \x7d DESC, u.id DESC" ∧
      ¬ fromWhitelist usersRepo.orderMap
        (usersRepo.buildOrderTerms (some "login, -toString"))) ∧
    (postsRepo.buildOrder (some "-bogus") = "p.publish_date DESC, p.id DESC" ∧
      commentsRepo.buildOrder (some "bogus") = "c.publish_date ASC, c.id DESC" ∧
      usersRepo.buildOrder (some "bogus, -login") = "u.login DESC, u.id DESC") ∧
    (∀ sort : Option String,
      (∀ t ∈ postsRepo.buildOrderTerms sort,
        whitelistedOrInherited postsRepo.orderMap t.col) ∧
      (∀ t ∈ commentsRepo.buildOrderTerms sort,
        whitelistedOrInherited commentsRepo.orderMap t.col) ∧
      (∀ t ∈ usersRepo.buildOrderTerms sort,
        whitelistedOrInherited usersRepo.orderMap t.col)) := by
  refine ⟨⟨by decide, by decide⟩, ⟨by decide, by decide⟩, ⟨by decide, by decide⟩,
    ⟨by decide, by decide, by decide⟩, ?_⟩
  intro sort
  exact ⟨posts_buildOrderTerms_cases sort, comments_buildOrderTerms_cases sort,
    users_buildOrderTerms_cases sort⟩

/-! ### Pagination bounds -/

/-- A number the engine accepts as a count is that count. -/
theorem sqlCount_eq_some {v : ℚ} {n : ℕ} (h : postsRepo.sqlCount v = some n) : v = (n : ℚ) := by
  unfold postsRepo.sqlCount at h
  split at h
  · rename_i hv
    simp only [Option.some.injEq] at h
    have h1 : ((v.num : ℤ) : ℚ) = v := Rat.coe_int_num_of_den_eq_one hv.1
    have h2 : ((v.num.toNat : ℕ) : ℤ) = v.num := Int.toNat_of_nonneg hv.2
    rw [← h, ← h1]
    exact_mod_cast h2.symm
  · cases h

/-- What `clampInt` returns: the truncated value between the bounds. -/
theorem clampInt_eq (n : JsNum) (dflt lo hi : ℚ) :
    postsRepo.clampInt n dflt lo hi =
      min (max ((postsRepo.trunc (clampedValue n dflt) : ℤ) : ℚ) lo) hi := by
  unfold postsRepo.clampInt clampedValue
  rfl

/-- With whole bounds, `clampInt` returns a whole number. -/
theorem clampInt_intCast (n : JsNum) (dflt : ℚ) (lo hi : ℤ) :
    postsRepo.clampInt n dflt lo hi =
      ((min (max (postsRepo.trunc (clampedValue n dflt)) lo) hi : ℤ) : ℚ) := by
  rw [clampInt_eq]
  push_cast
  rfl

/-- Truncation leaves a whole number as it is. -/
theorem trunc_intCast (d : ℤ) : postsRepo.trunc (d : ℚ) = d := by
  unfold postsRepo.trunc
  simp

/-- The maximum `listPosts` uses when the configured one is a whole number. -/
theorem listPosts_max_nat (env : postsRepo.Env) (M : ℕ)
    (hM : env.PAGINATION_LIMIT_MAX = (M : ℚ)) :
    (if env.PAGINATION_LIMIT_MAX = 0 then (100 : ℚ) else env.PAGINATION_LIMIT_MAX) =
      (((if M = 0 then 100 else M : ℕ) : ℤ) : ℚ) := by
  rw [hM]
  by_cases h : M = 0
  · subst h
    simp
  · have h2 : ¬ ((M : ℚ) = 0) := by exact_mod_cast h
    rw [if_neg h2, if_neg h]
    simp

/-- A whole number that is not negative, as a count. -/
theorem cast_toNat (x : ℤ) (h : 0 ≤ x) : ((x.toNat : ℕ) : ℚ) = (x : ℚ) := by
  have h1 : ((x.toNat : ℕ) : ℤ) = x := Int.toNat_of_nonneg h
  exact_mod_cast congrArg (Int.cast : ℤ → ℚ) h1

/-- The limit and the offset of `listPosts`, for a whole configured maximum:
whole numbers within the bounds, accepted by the engine. -/
theorem listPosts_counts (env : postsRepo.Env) (query : postsRepo.ListQuery) (M : ℕ)
    (hM : env.PAGINATION_LIMIT_MAX = (M : ℚ)) :
    ∃ lim off : ℕ,
      postsRepo.clampInt query.limit
        (if env.PAGINATION_LIMIT_DEFAULT = 0 then 10 else env.PAGINATION_LIMIT_DEFAULT) 1
        (if env.PAGINATION_LIMIT_MAX = 0 then 100 else env.PAGINATION_LIMIT_MAX) = (lim : ℚ) ∧
      postsRepo.clampInt query.offset 0 0 postsRepo.MAX_SAFE_INTEGER = (off : ℚ) ∧
      postsRepo.sqlCount (lim : ℚ) = some lim ∧ postsRepo.sqlCount (off : ℚ) = some off ∧
      1 ≤ lim ∧ lim ≤ (if M = 0 then 100 else M) ∧ off ≤ 9007199254740991 := by
  have hpos : 0 < (if M = 0 then 100 else M) := by
    by_cases h : M = 0
    · rw [if_pos h]
      decide
    · rw [if_neg h]
      exact Nat.pos_of_ne_zero h
  have hc : ∀ k : ℕ, postsRepo.sqlCount (k : ℚ) = some k := by
    intro k
    have := sqlCount_intCast (k : ℤ) (Int.natCast_nonneg k)
    simpa using this
  have e1 := clampInt_intCast query.limit
    (if env.PAGINATION_LIMIT_DEFAULT = 0 then 10 else env.PAGINATION_LIMIT_DEFAULT) 1
    (((if M = 0 then 100 else M : ℕ)) : ℤ)
  have e2 := clampInt_intCast query.offset 0 0 9007199254740991
  generalize postsRepo.trunc (clampedValue query.limit
    (if env.PAGINATION_LIMIT_DEFAULT = 0 then 10 else env.PAGINATION_LIMIT_DEFAULT)) = t at e1
  generalize postsRepo.trunc (clampedValue query.offset 0) = u at e2
  have h1 : ((min (max t 1) (((if M = 0 then 100 else M : ℕ)) : ℤ)).toNat : ℤ) =
      min (max t 1) (((if M = 0 then 100 else M : ℕ)) : ℤ) :=
    Int.toNat_of_nonneg (by omega)
  have h2 : ((min (max u 0) 9007199254740991).toNat : ℤ) = min (max u 0) 9007199254740991 :=
    Int.toNat_of_nonneg (by omega)
  refine ⟨(min (max t 1) (((if M = 0 then 100 else M : ℕ)) : ℤ)).toNat,
    (min (max u 0) 9007199254740991).toNat, ?_, ?_, hc _, hc _, ?_, ?_, ?_⟩
  · rw [listPosts_max_nat env M hM]
    have e1b : postsRepo.clampInt query.limit
        (if env.PAGINATION_LIMIT_DEFAULT = 0 then 10 else env.PAGINATION_LIMIT_DEFAULT)
        ((1 : ℤ) : ℚ) ((((if M = 0 then 100 else M : ℕ)) : ℤ) : ℚ) =
        ((min (max t 1) (((if M = 0 then 100 else M : ℕ)) : ℤ) : ℤ) : ℚ) := e1
    rw [Int.cast_one] at e1b
    rw [e1b]
    exact (cast_toNat _ (by omega)).symm
  · have e2b : postsRepo.clampInt query.offset ((0 : ℤ) : ℚ) ((0 : ℤ) : ℚ)
        ((9007199254740991 : ℤ) : ℚ) = ((min (max u 0) 9007199254740991 : ℤ) : ℚ) := e2
    have e0 : ((0 : ℤ) : ℚ) = 0 := Int.cast_zero
    have e9 : ((9007199254740991 : ℤ) : ℚ) = postsRepo.MAX_SAFE_INTEGER := by
      unfold postsRepo.MAX_SAFE_INTEGER
      norm_num
    rw [e0, e9] at e2b
    rw [e2b]
    exact (cast_toNat _ (by omega)).symm
  · omega
  · omega
  · omega

/-- C30, amended: when the configured maximum is a whole number `M` (so that
`MAX` is `M`, or 100 for `M = 0`), then for every limit and offset and every
default the page `listPosts` returns carries a whole limit with
`1 ≤ limit ≤ MAX` and a whole offset with `0 ≤ offset ≤ MAX_SAFE_INTEGER`,
its items are the window of that offset and limit in the ordered rows, and
the listing returns whenever the engine accepts the sort columns.
`clampInt(value, def, min, max)` is `trunc(value)` between the bounds for a
finite value and `trunc(def)` between the bounds otherwise, which is `def`
between the bounds for a whole default. -/
theorem pagination_bounds_for_whole_maximum (env : postsRepo.Env) (db : DB)
    (query : postsRepo.ListQuery) (M : ℕ) (hM : env.PAGINATION_LIMIT_MAX = (M : ℚ)) :
    (∀ page, postsRepo.listPosts env db query = .ok page →
      ∃ (lim off : ℕ) (keys : List ((postsRepo.PostListRow → postsRepo.PostListRow →
          Ordering) × Bool)),
        page.limit = (lim : ℚ) ∧ 1 ≤ lim ∧ lim ≤ (if M = 0 then 100 else M) ∧
        page.offset = (off : ℚ) ∧ off ≤ 9007199254740991 ∧
        postsRepo.resolveOrder (postsRepo.buildOrderTerms query.sort) = some keys ∧
        page.items =
          ((postsRepo.orderBy (postsRepo.orderLe keys) (postsRepo.selectRows db query)).drop
            off).take lim) ∧
    ((∃ keys, postsRepo.resolveOrder (postsRepo.buildOrderTerms query.sort) = some keys) →
      ∃ page, postsRepo.listPosts env db query = .ok page) ∧
    (∀ (q dflt lo hi : ℚ), postsRepo.clampInt (JsNum.fin q) dflt lo hi =
      min (max ((postsRepo.trunc q : ℤ) : ℚ) lo) hi) ∧
    (∀ (n : JsNum) (dflt lo hi : ℚ), (∀ q, n ≠ JsNum.fin q) →
      postsRepo.clampInt n dflt lo hi = min (max ((postsRepo.trunc dflt : ℤ) : ℚ) lo) hi) ∧
    (∀ (n : JsNum) (d : ℤ) (lo hi : ℚ), (∀ q, n ≠ JsNum.fin q) →
      postsRepo.clampInt n (d : ℚ) lo hi = min (max (d : ℚ) lo) hi) := by
  obtain ⟨lim, off, hl, ho, hcl, hco, h1, h2, h3⟩ := listPosts_counts env query M hM
  have hnf : ∀ (n : JsNum) (dflt : ℚ), (∀ q, n ≠ JsNum.fin q) → clampedValue n dflt = dflt := by
    intro n dflt hn
    cases n with
    | fin q => exact absurd rfl (hn q)
    | nan => rfl
    | posInf => rfl
    | negInf => rfl
  refine ⟨?_, ?_, ?_, ?_, ?_⟩
  · intro page h
    unfold postsRepo.listPosts at h
    simp only [] at h
    rw [hl, ho, hcl, hco] at h
    cases hk : postsRepo.resolveOrder (postsRepo.buildOrderTerms query.sort) with
    | none =>
      rw [hk] at h
      cases h
    | some keys =>
      rw [hk] at h
      simp only [Except.ok.injEq] at h
      subst h
      exact ⟨lim, off, keys, rfl, h1, h2, rfl, h3, rfl, rfl⟩
  · rintro ⟨keys, hk⟩
    unfold postsRepo.listPosts
    simp only []
    rw [hl, ho, hcl, hco, hk]
    exact ⟨_, rfl⟩
  · intro q dflt lo hi
    exact clampInt_eq _ _ _ _
  · intro n dflt lo hi hn
    rw [clampInt_eq, hnf n dflt hn]
  · intro n d lo hi hn
    rw [clampInt_eq, hnf n _ hn, trunc_intCast]

theorem pagination_bounds_for_whole_maximum_witness :
    defaultEnv.PAGINATION_LIMIT_MAX = ((100 : ℕ) : ℚ) ∧
    (∃ page, postsRepo.listPosts defaultEnv exampleDB
        { limit := JsNum.fin 250, offset := JsNum.fin (-3) } = .ok page) ∧
    (postsRepo.listPosts defaultEnv exampleDB
        { limit := JsNum.fin 250, offset := JsNum.fin (-3) }).map
      (fun page => (page.limit, page.offset)) = .ok (100, 0) :=
  ⟨by decide,
    (pagination_bounds_for_whole_maximum defaultEnv exampleDB
      { limit := JsNum.fin 250, offset := JsNum.fin (-3) } 100 (by decide)).2.1
      ⟨_, rfl⟩,
    by decide⟩

/-- C30, as stated, fails for a maximum that is at least 1 but not whole: with
`MAX = 2.5`, the whole default 10 and the limit 7, the limit `listPosts`
computes is 2.5, which is no whole number, and the engine rejects the
query.  And `clampInt` truncates the default as well: for a value that is not
finite and the default 2.5 it returns 2, not the default between the bounds. -/
theorem fractional_maximum_gives_fractional_limit :
    (1 : ℚ) ≤ fiveHalves ∧ fiveHalves = 5 / 2 ∧
    postsRepo.clampInt (JsNum.fin 7) 10 1 fiveHalves = fiveHalves ∧
    fiveHalves.den ≠ 1 ∧
    postsRepo.sqlCount (postsRepo.clampInt (JsNum.fin 7) 10 1 fiveHalves) = none ∧
    postsRepo.listPosts { PAGINATION_LIMIT_DEFAULT := 10, PAGINATION_LIMIT_MAX := fiveHalves }
        exampleDB { limit := JsNum.fin 7 } = .error (DbError "ER_PARSE_ERROR") ∧
    postsRepo.clampInt JsNum.nan fiveHalves 0 10 = 2 ∧
    min (max fiveHalves 0) 10 = fiveHalves := by
  refine ⟨by decide, ?_, by decide, by decide, by decide, by decide, by decide, by decide⟩
  unfold fiveHalves
  norm_num [Rat.mk'_eq_divInt, Rat.divInt_eq_div]

end Usof
